import Mathlib

/-!
YouTube channel aggregation and dataset query engine

A shallow embedding of

* `server/index.js`: `parseChannelUrl` and the `/api/youtube/channel` handler,
* `src/components/YouTubeChannelDownload.js`: the limit computed in `handleDownload`
  and the way the subscriber discriminates events,
* `src/services/youtubeTools.js`: `parseDuration` and the cases `compute_stats_json`,
  `play_video` and `plot_metric_vs_time` of `executeYouTubeTool`.

JavaScript strings are embedded as `String` / `List Char`.  JavaScript numbers are IEEE
754 binary64 values, and the embedding reads them in two ways.

* Where a statement does not depend on rounding (the limit of the channel handler, the
  events of the pipeline, which records contribute to a statistic, the order of the
  points of a chart, whether `parseDuration` finds a match), numbers are exact: `ℤ` and
  `ℚ`, with `Option` where `NaN` can occur.  The definitions `parseInt`, `parseDuration`,
  `summarize` and `compute_stats_json` are of this kind.
* Where a statement is about a value the program computes (the mean and the median of
  `compute_stats_json`, the seconds returned by `parseDuration`), the arithmetic is
  binary64: `toDouble` rounds a rational to the nearest binary64 number, ties to even,
  and every operation of the source is the exact operation followed by `toDouble`.  The
  definitions `parseDurationDouble`, `summarizeDouble` and `compute_stats_json_double`
  are of this kind.

`String.prototype.toLowerCase`, the time value of `new Date(x)`, `Math.sqrt` and `**` are
functions of the platform and parameters of the embedding.
-/

set_option autoImplicit false

namespace YT

/-! ## Strings -/

/-- The characters removed by `String.prototype.trim` and skipped by `parseInt`:
ECMAScript `WhiteSpace` and `LineTerminator`. -/
def isJsWhiteSpace (c : Char) : Bool :=
  c.val = 0x09 || c.val = 0x0A || c.val = 0x0B || c.val = 0x0C || c.val = 0x0D ||
  c.val = 0x20 || c.val = 0xA0 || c.val = 0x1680 ||
  (0x2000 ≤ c.val && c.val ≤ 0x200A) ||
  c.val = 0x2028 || c.val = 0x2029 || c.val = 0x202F || c.val = 0x205F ||
  c.val = 0x3000 || c.val = 0xFEFF

/-- `s.trim()` on the characters of `s`. -/
def trim (s : List Char) : List Char :=
  ((s.dropWhile isJsWhiteSpace).reverse.dropWhile isJsWhiteSpace).reverse

/-- `dropLit lit s` is `some rest` when `s = lit ++ rest`, and `none` otherwise. -/
def dropLit : List Char → List Char → Option (List Char)
  | [], s => some s
  | _ :: _, [] => none
  | a :: lit, c :: s => if a = c then dropLit lit s else none

/-- The character class `[^/?]`. -/
def isSegChar (c : Char) : Bool := c != '/' && c != '?'

/-- The capture group of `u.match(/<lit>([^/?]+)/)`: the leftmost position at which the
literal `lit` is followed by at least one character of `[^/?]`; the group is the longest
run of such characters (the quantifier is greedy and nothing follows it).  `none` is a
failed match. -/
def matchSegment (lit : List Char) : List Char → Option (List Char)
  | [] => none
  | c :: cs =>
    match dropLit lit (c :: cs) with
    | some rest =>
      if rest.takeWhile isSegChar = [] then matchSegment lit cs
      else some (rest.takeWhile isSegChar)
    | none => matchSegment lit cs

/-- The `type` tag of the object returned by `parseChannelUrl`. -/
inductive ChannelType
  | handle
  | channelId
  | custom
  deriving DecidableEq, Repr

/-- The object `{ type, value }` returned by `parseChannelUrl`. -/
structure ParsedChannel where
  type : ChannelType
  value : String
  deriving DecidableEq, Repr

def handleLit : List Char := "youtube.com/@".data
def channelLit : List Char := "youtube.com/channel/".data
def customLit : List Char := "youtube.com/c/".data

/-- `parseChannelUrl(url)` of `server/index.js`; `none` is `null`. -/
def parseChannelUrl (url : String) : Option ParsedChannel :=
  let u := trim url.data
  match matchSegment handleLit u with
  | some v => some ⟨ChannelType.handle, String.mk v⟩
  | none =>
    match matchSegment channelLit u with
    | some v => some ⟨ChannelType.channelId, String.mk v⟩
    | none =>
      match matchSegment customLit u with
      | some v => some ⟨ChannelType.custom, String.mk v⟩
      | none => none

/-! ## Numbers -/

/-- The value of a run of decimal digits, most significant first. -/
def digitsValue (ds : List Char) : ℕ :=
  ds.foldl (fun acc c => 10 * acc + (c.toNat - 48)) 0

/-- `parseInt(s, 10)`: leading white space is skipped, an optional sign is read, then
the longest run of decimal digits; `none` is `NaN` (no digit).  The result is the integer
read, before its conversion to a Number (`toDouble` below). -/
def parseInt (s : List Char) : Option ℤ :=
  let body : Bool × List Char :=
    match s.dropWhile isJsWhiteSpace with
    | '-' :: r => (true, r)
    | '+' :: r => (false, r)
    | r => (false, r)
  let ds := body.2.takeWhile Char.isDigit
  if ds = [] then none
  else some (if body.1 then -(digitsValue ds : ℤ) else (digitsValue ds : ℤ))

/-- `String(n)` for an integer `n`: the decimal digits, after a minus sign when `n` is
negative. -/
def jsIntString (n : ℤ) : List Char :=
  if n < 0 then '-' :: Nat.toDigits 10 n.natAbs else Nat.toDigits 10 n.natAbs

/-- JavaScript `x || d` on an optional string: `undefined` and `''` are falsy. -/
def orStr (x : Option String) (d : String) : String :=
  match x with
  | some s => if s = "" then d else s
  | none => d

/-- A truthy optional string: `none` when it is `undefined`, `null` or `''`. -/
def truthyStr (x : Option String) : Option String :=
  match x with
  | some s => if s = "" then none else some s
  | none => none

/-- JavaScript `p || d` on a number: `NaN` and `0` are falsy. -/
def orNum (p : Option ℤ) (d : ℤ) : ℤ :=
  match p with
  | some n => if n = 0 then d else n
  | none => d

/-! ## The aggregation pipeline: `app.get('/api/youtube/channel')` -/

/-- The query string of the request, as far as the handler reads it. -/
structure Query where
  url : Option String := none
  channelUrl : Option String := none
  max : Option String := none
  maxVideos : Option String := none

/-- Line 236 of `server/index.js`:
`Math.min(100, Math.max(1, parseInt(req.query.max || req.query.maxVideos || '10', 10) || 10))`. -/
def channelMax (q : Query) : ℤ :=
  min 100 (max 1 (orNum (parseInt (orStr (truthyStr q.max <|> q.maxVideos) "10").data) 10))

/-- Line 19 of `YouTubeChannelDownload.js`, on `String(maxVideos)`:
`Math.min(100, Math.max(1, parseInt(String(maxVideos), 10) || 10))`. -/
def clientMax (maxVideos : String) : ℤ :=
  min 100 (max 1 (orNum (parseInt maxVideos.data) 10))

/-- Outcome of one awaited upstream call (`fetch` and `.json()`): a value, or a thrown
exception with its `message`.  A response on which a later property access throws
(a `null` body, an item without `snippet`) is a thrown exception too: every such fault
is raised inside the same `try` block. -/
inductive Upstream (α : Type)
  | threw (message : String)
  | returned (value : α)

/-- What the handler reads of the `channels?part=snippet,contentDetails` response. -/
structure ChannelData where
  /-- `channelData.items?.[0]?.contentDetails?.relatedPlaylists?.uploads` -/
  uploads : Option String
  /-- `channelData.items?.[0]?.snippet?.title` -/
  title : Option String

/-- What the handler reads of `vData.items?.[0]`. -/
structure VideoItem where
  id : String
  title : Option String := none
  description : Option String := none
  publishedAt : Option String := none
  thumbnailHigh : Option String := none
  thumbnailDefault : Option String := none
  viewCount : Option String := none
  likeCount : Option String := none
  commentCount : Option String := none
  duration : Option String := none

/-- The upstream platform, one field per request the handler issues. -/
structure YouTubeApi where
  /-- `channels?part=id&forHandle=`: the `id` of each of `j.items` (`[]` when absent). -/
  forHandle : String → Upstream (List String)
  /-- `search?part=snippet&type=channel&q=`: `snippet.channelId` of each of `j.items`. -/
  search : String → Upstream (List String)
  /-- `channels?part=snippet,contentDetails&id=`. -/
  channel : String → Upstream ChannelData
  /-- `playlistItems?...&playlistId=&maxResults=`: `snippet.resourceId.videoId` of each
  item of `playlistData.items || []`. -/
  playlistItems : String → ℤ → Upstream (List (Option String))
  /-- `videos?...&id=`, for the `i`-th request of the loop: `vData.items?.[0]`. -/
  video : ℕ → String → Upstream (Option VideoItem)

/-- The record pushed on `videos` (lines 317 to 329). -/
structure VideoRecord where
  videoId : String
  title : String
  description : String
  duration : Option String
  publishedAt : Option String
  viewCount : ℤ
  likeCount : ℤ
  commentCount : ℤ
  thumbnailUrl : Option String
  url : String
  transcript : Option String
  deriving DecidableEq

/-- The `data` object of an event.  The object sent with `'No videos found'` has only
`channelId`, `channelTitle` and `videos`. -/
structure ChannelDataset where
  channelId : String
  channelTitle : Option String
  channelUrl : Option String := none
  downloadedAt : Option String := none
  videoCount : Option ℕ := none
  videos : List VideoRecord
  deriving DecidableEq

/-- One object written by `send`. -/
structure Event where
  progress : Option ℕ := none
  total : Option ℕ := none
  done : Bool := false
  error : Option String := none
  data : Option ChannelDataset := none
  deriving DecidableEq

/-- How a subscriber reads an event. -/
inductive EventKind
  | error
  | done
  | progress
  | other
  deriving DecidableEq

/-- The discrimination made by `eventSource.onmessage` in `YouTubeChannelDownload.js`:
`data.error` first, then `data.done && data.data`, then numeric `progress` and `total`. -/
def Event.kind (e : Event) : EventKind :=
  if (truthyStr e.error).isSome then EventKind.error
  else if e.done && e.data.isSome then EventKind.done
  else if e.progress.isSome && e.total.isSome then EventKind.progress
  else EventKind.other

/-- A terminal event is an error event or a done event. -/
def Event.isTerminal (e : Event) : Bool :=
  e.kind = EventKind.error || e.kind = EventKind.done

/-- `send({ error: msg })`. -/
def errorEvent (msg : String) : Event := { error := some msg }

/-- The `catch` block: `send({ error: err.message || 'YouTube API error' })`. -/
def catchEvent (message : String) : Event :=
  errorEvent (orStr (some message) "YouTube API error")

/-- `send({ progress: i + 1, total })`. -/
def progressEvent (i total : ℕ) : Event := { progress := some (i + 1), total := some total }

/-- Lines 255 to 280: the channel id, or the error event sent before `res.end()`. -/
def resolveChannelId (api : YouTubeApi) (parsed : ParsedChannel) : Except Event String :=
  match parsed.type with
  | ChannelType.handle =>
    match api.forHandle parsed.value with
    | Upstream.threw m => Except.error (catchEvent m)
    | Upstream.returned [] =>
      Except.error (errorEvent ("Channel not found for handle @" ++ parsed.value))
    | Upstream.returned (id :: _) => Except.ok id
  | ChannelType.channelId => Except.ok parsed.value
  | ChannelType.custom =>
    match api.search parsed.value with
    | Upstream.threw m => Except.error (catchEvent m)
    | Upstream.returned [] =>
      Except.error (errorEvent ("Channel not found for " ++ parsed.value))
    | Upstream.returned (id :: _) => Except.ok id

/-- The object literal of lines 317 to 329.  The description is cut after 5000
characters (the source counts UTF-16 code units, which differ from characters outside the
Basic Multilingual Plane) and the counts are the integers read by `parseInt`. -/
def videoRecord (v : VideoItem) : VideoRecord :=
  { videoId := v.id
    title := orStr v.title ""
    description := String.mk ((orStr v.description "").data.take 5000)
    duration := truthyStr v.duration
    publishedAt := truthyStr v.publishedAt
    viewCount := orNum (v.viewCount.bind fun s => parseInt s.data) 0
    likeCount := orNum (v.likeCount.bind fun s => parseInt s.data) 0
    commentCount := orNum (v.commentCount.bind fun s => parseInt s.data) 0
    thumbnailUrl := truthyStr v.thumbnailHigh <|> truthyStr v.thumbnailDefault
    url := "https://www.youtube.com/watch?v=" ++ v.id
    transcript := none }

/-- The `for` loop of lines 306 to 331, from index `i` on, with the `videos` pushed so
far: the events sent, and either the final `videos` or the message of the exception that
left the loop. -/
def fetchVideos (api : YouTubeApi) (total : ℕ) :
    ℕ → List String → List VideoRecord → List Event × Except String (List VideoRecord)
  | _, [], videos => ([], Except.ok videos)
  | i, id :: rest, videos =>
    match api.video i id with
    | Upstream.threw m => ([progressEvent i total], Except.error m)
    | Upstream.returned none =>
      let r := fetchVideos api total (i + 1) rest videos
      (progressEvent i total :: r.1, r.2)
    | Upstream.returned (some v) =>
      let r := fetchVideos api total (i + 1) rest (videos ++ [videoRecord v])
      (progressEvent i total :: r.1, r.2)

/-- The event sent when the uploads page has no video id (line 299). -/
def noVideosEvent (channelId : String) (cd : ChannelData) : Event :=
  { error := some "No videos found"
    data := some { channelId := channelId, channelTitle := cd.title, videos := [] } }

/-- The event sent after the loop (lines 333 to 345). -/
def doneEvent (channelId channelTitle url now : String) (total : ℕ)
    (videos : List VideoRecord) : Event :=
  { progress := some total
    total := some total
    done := true
    data := some
      { channelId := channelId
        channelTitle := some channelTitle
        channelUrl := some url
        downloadedAt := some now
        videoCount := some videos.length
        videos := videos } }

/-- The video ids of the uploads page, line 296: `.filter(Boolean)` drops the ids that
are absent or empty. -/
def videoIdsOf (items : List (Option String)) : List String :=
  items.filterMap truthyStr

/-- Everything `send` writes between `res.flushHeaders()` and `res.end()` (lines 248 to
349), in order.  `now` is `new Date().toISOString()`. -/
def channelStream (api : YouTubeApi) (now url : String) (max : ℤ) : List Event :=
  match parseChannelUrl url with
  | none =>
    [errorEvent "Invalid YouTube channel URL. Use e.g. https://www.youtube.com/@handle"]
  | some parsed =>
    match resolveChannelId api parsed with
    | Except.error e => [e]
    | Except.ok channelId =>
      match api.channel channelId with
      | Upstream.threw m => [catchEvent m]
      | Upstream.returned cd =>
        match truthyStr cd.uploads with
        | none => [errorEvent "Could not get uploads playlist"]
        | some uploadsId =>
          match api.playlistItems uploadsId max with
          | Upstream.threw m => [catchEvent m]
          | Upstream.returned items =>
            let videoIds := videoIdsOf items
            let total := videoIds.length
            if total = 0 then [noVideosEvent channelId cd]
            else
              let channelTitle := orStr cd.title "Unknown"
              match fetchVideos api total 0 videoIds [] with
              | (sent, Except.error m) => sent ++ [catchEvent m]
              | (sent, Except.ok videos) =>
                sent ++ [doneEvent channelId channelTitle url now total videos]

/-- What the handler answers: a JSON body with a status, or the event stream. -/
inductive Response
  | json (status : ℕ) (error : String)
  | eventStream (events : List Event)

/-- The handler `app.get('/api/youtube/channel')` (lines 231 to 350). -/
def youtubeChannel (apiKey : Option String) (q : Query) (api : YouTubeApi) (now : String) :
    Response :=
  match truthyStr apiKey with
  | none =>
    Response.json 503
      "YouTube API key not configured (YOUTUBE_API_KEY or REACT_APP_YOUTUBE_API_KEY)"
  | some _ =>
    match truthyStr q.url <|> truthyStr q.channelUrl with
    | none => Response.json 400 "url or channelUrl required"
    | some url => Response.eventStream (channelStream api now url (channelMax q))

/-- The record contributed by the `i`-th request of the loop for the id `p.2`, when
that request returned an item. -/
def itemRecord (api : YouTubeApi) (p : ℕ × String) : Option VideoRecord :=
  match api.video p.1 p.2 with
  | Upstream.returned (some v) => some (videoRecord v)
  | _ => none

/-- The index carried by an event (`0` when it has none). -/
def Event.index (e : Event) : ℕ := e.progress.getD 0

/-- An upstream on which the handle resolves, the channel has an uploads playlist of two
videos, the first video is found and the request for the second one throws. -/
def flakyApi : YouTubeApi where
  forHandle _ := Upstream.returned ["UC1"]
  search _ := Upstream.returned []
  channel _ := Upstream.returned { uploads := some "UU1", title := some "Channel" }
  playlistItems _ _ := Upstream.returned [some "a", some "b"]
  video i _ :=
    if i = 0 then Upstream.returned (some { id := "a" }) else Upstream.threw "network down"

/-- An upstream on which the handle resolves and the uploads playlist is empty. -/
def emptyApi : YouTubeApi where
  forHandle _ := Upstream.returned ["UC1"]
  search _ := Upstream.returned []
  channel _ := Upstream.returned { uploads := some "UU1", title := some "Channel" }
  playlistItems _ _ := Upstream.returned []
  video _ _ := Upstream.returned none

/-- An upstream with three uploads `a`, `b`, `c`; the item of `b` is missing. -/
def threeApi (allFound : Bool) : YouTubeApi where
  forHandle _ := Upstream.returned ["UC1"]
  search _ := Upstream.returned []
  channel _ := Upstream.returned { uploads := some "UU1", title := some "Channel" }
  playlistItems _ _ := Upstream.returned [some "a", some "b", some "c"]
  video i id :=
    if i = 1 && !allFound then Upstream.returned none
    else Upstream.returned (some { id := id, viewCount := some "7" })

/-! ## The dataset query engine: `executeYouTubeTool`, case `compute_stats_json` -/

/-- A JavaScript value as it occurs in a video record.  `object str` is an array or an
object whose conversion `String(v)` is `str`; `function` is a built-in method.  A finite
number is given by its value, a rational; `nan` is `NaN`. -/
inductive JsValue
  | undefined
  | null
  | bool (b : Bool)
  | number (q : ℚ)
  | nan
  | string (s : String)
  | object (str : String)
  | function
  deriving DecidableEq

/-- A video record: the own properties of the object, the first entry of a key is its
value. -/
abbrev JsObject := List (String × JsValue)

/-- The property names every plain object inherits from `Object.prototype`. -/
def objectPrototype : List String :=
  ["constructor", "__defineGetter__", "__defineSetter__", "hasOwnProperty",
    "__lookupGetter__", "__lookupSetter__", "isPrototypeOf", "propertyIsEnumerable",
    "toString", "valueOf", "__proto__", "toLocaleString"]

/-- `key in obj`: own and inherited properties. -/
def hasProperty (o : JsObject) (key : String) : Bool :=
  (o.lookup key).isSome || objectPrototype.contains key

/-- `obj[key]`. -/
def getProperty (o : JsObject) (key : String) : JsValue :=
  match o.lookup key with
  | some v => v
  | none =>
    if key = "__proto__" then JsValue.object "[object Object]"
    else if objectPrototype.contains key then JsValue.function
    else JsValue.undefined

/-- JavaScript truthiness. -/
def JsValue.truthy : JsValue → Bool
  | JsValue.undefined => false
  | JsValue.null => false
  | JsValue.bool b => b
  | JsValue.number q => q ≠ 0
  | JsValue.nan => false
  | JsValue.string s => s ≠ ""
  | JsValue.object _ => true
  | JsValue.function => true

/-- `parseInt(v, 10)` on a value: `parseInt` reads `String(v)`.  The conversions
`undefined`, `null`, `true`, `false`, `NaN` and `function ...` start with no digit.  The
program applies it to no finite number; there `String(v)` is read up to the decimal
point, in plain decimal writing. -/
def parseIntValue : JsValue → Option ℤ
  | JsValue.string s => parseInt s.data
  | JsValue.object str => parseInt str.data
  | JsValue.number q => some (q.num.tdiv q.den)
  | _ => none

/-- The rest of `s` after the leftmost occurrence of `lit`. -/
def afterFirst (lit : List Char) : List Char → Option (List Char)
  | [] => dropLit lit []
  | c :: cs =>
    match dropLit lit (c :: cs) with
    | some rest => some rest
    | none => afterFirst lit cs

/-- One optional group `(?:(\d+)X)?` at the head of `s`: the captured digits when a
non-empty run of digits is followed by `x`, and the text left to match. -/
def optionalComponent (x : Char) (s : List Char) : Option (List Char) × List Char :=
  match s.takeWhile Char.isDigit, s.dropWhile Char.isDigit with
  | _ :: _, c :: rest => if c = x then (some (s.takeWhile Char.isDigit), rest) else (none, s)
  | _, _ => (none, s)

/-- `parseInt(match[i] || 0, 10)`: an absent group counts as `0`.  The result is the
integer read, before its conversion to a Number (`componentNumber` below). -/
def componentValue (group : Option (List Char)) : Option ℤ :=
  match group with
  | some ds => if ds = [] then some 0 else parseInt ds
  | none => some 0

/-- `parseDuration` on `String(iso)`: the match of
`/PT(?:(\d+)H)?(?:(\d+)M)?(?:(\d+)S)?/` starts at the leftmost `PT`.  The sum is formed in
exact arithmetic; `parseDurationStringDouble` below forms it in binary64. -/
def parseDurationString (s : List Char) : Option ℤ :=
  match afterFirst ['P', 'T'] s with
  | none => some 0
  | some r =>
    let h := optionalComponent 'H' r
    let m := optionalComponent 'M' h.2
    let sec := optionalComponent 'S' m.2
    match componentValue h.1, componentValue m.1, componentValue sec.1 with
    | some hv, some mv, some sv => some (hv * 3600 + mv * 60 + sv)
    | _, _, _ => none

/-- `parseDuration(iso)` of `youtubeTools.js`; `none` is `NaN`.  A number is returned as
it is; the conversions of `undefined`, `null`, booleans and functions hold no `PT`. -/
def parseDuration : JsValue → Option ℚ
  | JsValue.number q => some q
  | JsValue.nan => none
  | JsValue.string s => (parseDurationString s.data).map fun n => (n : ℚ)
  | JsValue.object str => (parseDurationString str.data).map fun n => (n : ℚ)
  | _ => some 0

/-- `Math.round(x)`: the nearest integer, a tie going to the larger one. -/
def Math_round (x : ℚ) : ℤ := ⌊x + 1 / 2⌋

/-- `Math.round(Math.sqrt(v) * 100)` in exact arithmetic: `⌊100·√v + 1/2⌋`, which is
`⌊(⌊√(40000·v)⌋ + 1) / 2⌋`. -/
def roundSqrtTimes100 (v : ℚ) : ℕ := (Nat.sqrt ⌊40000 * v⌋.toNat + 1) / 2

/-- The object returned by `compute_stats_json` when there are values. -/
structure Stats where
  field_name : String
  count : ℕ
  mean : ℚ
  median : ℚ
  std : ℚ
  min : ℚ
  max : ℚ
  deriving DecidableEq

/-- Line 146: `args?.field_name || 'viewCount'`. -/
def statsField (field_name : Option String) : String := orStr field_name "viewCount"

/-- Line 147: `field in (videos[0] || {}) ? field : 'viewCount'`. -/
def statsKey (field_name : Option String) (videos : List JsObject) : String :=
  if hasProperty (videos.head?.getD []) (statsField field_name) then statsField field_name
  else "viewCount"

/-- The callback of `videos.map` (lines 149 to 154) on `raw = v[key]`; `none` is `NaN`. -/
def statValue (key : String) (raw : JsValue) : Option ℚ :=
  match raw with
  | JsValue.number q => some q
  | _ =>
    if key = "duration" ∧ raw.truthy = true then parseDuration raw
    else (parseIntValue raw).map fun n => (n : ℚ)

/-- Lines 148 to 155: `videos.map(...).filter((n) => !isNaN(n))`. -/
def statValues (key : String) (videos : List JsObject) : List ℚ :=
  (videos.map fun v => statValue key (getProperty v key)).filterMap id

/-- `Math.min(...values)` on a non-empty list. -/
def Math_min : List ℚ → ℚ
  | [] => 0
  | v :: vs => vs.foldl min v

/-- `Math.max(...values)` on a non-empty list. -/
def Math_max : List ℚ → ℚ
  | [] => 0
  | v :: vs => vs.foldl max v

/-- Lines 157 to 172, on a non-empty list of values, in exact arithmetic;
`summarizeDouble` below is the same computation in binary64. -/
def summarize (key : String) (values : List ℚ) : Stats :=
  let mean : ℚ := values.foldl (fun a b => a + b) (0 : ℚ) / (values.length : ℚ)
  let sorted := values.insertionSort (· ≤ ·)
  let median : ℚ :=
    if sorted.length % 2 = 0 then
      (sorted.getD (sorted.length / 2 - 1) 0 + sorted.getD (sorted.length / 2) 0) / 2
    else sorted.getD (sorted.length / 2) 0
  let variance : ℚ :=
    values.foldl (fun a b => a + (b - mean) ^ 2) (0 : ℚ) / (values.length : ℚ)
  { field_name := key
    count := values.length
    mean := Math_round (mean * 100) / 100
    median := Math_round (median * 100) / 100
    std := (roundSqrtTimes100 variance : ℚ) / 100
    min := Math_min values
    max := Math_max values }

/-- The case `compute_stats_json` of `executeYouTubeTool`: `Except.error msg` is the
returned object `{ error: msg }`.  The statistics are those of `summarize`, in exact
arithmetic; which records contribute does not depend on the arithmetic. -/
def compute_stats_json (field_name : Option String) (videos : List JsObject) :
    Except String Stats :=
  let key := statsKey field_name videos
  let values := statValues key videos
  if values.length = 0 then Except.error ("No numeric values for field \"" ++ key ++ "\"")
  else Except.ok (summarize key values)

/-- A record whose only property is `viewCount`, a number. -/
def viewRecord (q : ℚ) : JsObject := [("viewCount", JsValue.number q)]

/-- Rounding to the nearest integer with ties away from zero, as the specification
words the rounding of `value * 100`; to be compared with `Math_round`. -/
def roundHalfAwayFromZero (x : ℚ) : ℤ :=
  if 0 ≤ x then ⌊x + 1 / 2⌋ else ⌈x - 1 / 2⌉

/-- The value a record contributes to a statistic in the words of the specification: the
value of the field when it is a number, else its integer parse; `none` when the value is
missing or does not parse.  To be compared with `statValue`. -/
def numericOrParsed (raw : JsValue) : Option ℚ :=
  match raw with
  | JsValue.number q => some q
  | JsValue.string s => (parseInt s.data).map fun n => (n : ℚ)
  | JsValue.object str => (parseInt str.data).map fun n => (n : ℚ)
  | _ => none

/-- The dataset with `viewCount` 10, 20, 30. -/
def threeViews : List JsObject := [viewRecord 10, viewRecord 20, viewRecord 30]

/-- Eight records with `viewCount` -1, 0, ..., 0: the mean is -0.125. -/
def negativeTie : List JsObject :=
  [viewRecord (-1), viewRecord 0, viewRecord 0, viewRecord 0, viewRecord 0, viewRecord 0,
    viewRecord 0, viewRecord 0]

/-- Four records: `likeCount` is the text `12abc`, absent, the text `abc`, and 4. -/
def mixedLikes : List JsObject :=
  [[("likeCount", JsValue.string "12abc")], [("title", JsValue.string "no likes")],
    [("likeCount", JsValue.string "abc")], [("likeCount", JsValue.number 4)]]

/-! ## The dataset query engine: cases `play_video` and `plot_metric_vs_time` -/

/-- `String.prototype.toLowerCase`, a function of the platform: it is a parameter of the
embedding, known by what it does on ASCII text (`A` to `Z` become `a` to `z`, every other
ASCII character is kept). -/
structure LowerCase where
  apply : List Char → List Char
  ascii : ∀ l : List Char, (∀ c ∈ l, c.toNat < 128) → apply l = l.map Char.toLower

/-- The lower-casing that changes the ASCII letters only. -/
def asciiLowerCase : LowerCase where
  apply l := l.map Char.toLower
  ascii _ _ := rfl

/-- A video record as `play_video` reads it, with the types the fields have in the records
built by the pipeline (lines 317 to 329 of `server/index.js`): text fields are strings,
`viewCount` is a number; `none` is an absent field. -/
structure Video where
  videoId : Option String := none
  title : Option String := none
  viewCount : Option ℚ := none
  thumbnailUrl : Option String := none
  url : Option String := none
  deriving DecidableEq

/-- The `video` object of the result of `play_video` (lines 136 to 141). -/
structure VideoCard where
  title : Option String
  thumbnailUrl : Option String
  url : String
  videoId : Option String
  deriving DecidableEq

/-- Lines 136 to 141: `url` is `video.url ||` the watch address of `video.videoId`. -/
def videoCard (v : Video) : VideoCard :=
  { title := v.title
    thumbnailUrl := v.thumbnailUrl
    url := orStr v.url ("https://www.youtube.com/watch?v=" ++ v.videoId.getD "undefined")
    videoId := v.videoId }

/-- `v.viewCount || 0`. -/
def viewKey (v : Video) : ℚ := v.viewCount.getD 0

/-- `text.includes(needle)`. -/
def includes (text needle : List Char) : Bool := (afterFirst needle text).isSome

/-- `[...videos].sort((a, b) => (b.viewCount || 0) - (a.viewCount || 0))`: the comparator is
a consistent order, so the result is the stable sort by descending view count; insertion
sort computes it. -/
def sortByViews (videos : List Video) : List Video :=
  videos.insertionSort fun a b => viewKey b ≤ viewKey a

/-- The callback of `videos.find` (lines 128 to 130). -/
def matchesVideo (L : LowerCase) (id : List Char) (v : Video) : Bool :=
  includes (L.apply (orStr v.title "").data) id ||
    decide (L.apply (orStr v.videoId "").data = id)

/-- Line 118: `(args?.identifier || '').trim().toLowerCase()`. -/
def normalizeIdentifier (L : LowerCase) (identifier : Option String) : List Char :=
  L.apply (trim (orStr identifier "").data)

/-- Lines 119 to 132: the record selected by `play_video`; `none` is `undefined`. -/
def selectVideo (L : LowerCase) (id : List Char) (videos : List Video) : Option Video :=
  if id = "first".data ∨ id = "1".data then videos.head?
  else if id = "last".data ∨ id = Nat.toDigits 10 videos.length then videos.getLast?
  else if id = "most viewed".data then (sortByViews videos).head?
  else videos.find? (matchesVideo L id)

/-- The case `play_video` of `executeYouTubeTool`: `Except.error msg` is the returned object
`{ error: msg }`. -/
def play_video (L : LowerCase) (identifier : Option String) (videos : List Video) :
    Except String VideoCard :=
  match selectVideo L (normalizeIdentifier L identifier) videos with
  | none => Except.error ("No video found for \"" ++ identifier.getD "undefined" ++ "\"")
  | some v => Except.ok (videoCard v)

/-- The two records of the specification's lookup example. -/
def asbestosVideos : List Video :=
  [{ title := some "Intro to asbestos", viewCount := some 5 },
    { title := some "Part two", viewCount := some 100 }]

/-- Three records whose titles and ids hold no digit. -/
def alphabetVideos : List Video :=
  [{ title := some "Alpha", videoId := some "idA" }, { title := some "Beta", videoId := some "idB" },
    { title := some "Gamma", videoId := some "idC" }]

/-- One element of `points` (lines 104 to 108); the `value` `none` is `NaN`. -/
structure Point where
  date : JsValue
  value : Option ℚ
  title : JsValue
  deriving DecidableEq

/-- The object returned by `plot_metric_vs_time` (lines 110 to 114). -/
structure MetricChart where
  data : List Point
  metricField : String
  deriving DecidableEq

/-- Line 100: `args?.metric_field || 'viewCount'`. -/
def metricField (metric_field : Option String) : String := orStr metric_field "viewCount"

/-- Line 101: `field in (videos[0] || {}) ? field : { viewCount: 'viewCount', likeCount:
'likeCount', commentCount: 'commentCount' }[field] || field`.  The object literal maps
each of its three keys to itself; a name it inherits is a property of `videos[0] || {}`
as well, so the first branch is taken for it. -/
def metricKey (metric_field : Option String) (videos : List JsObject) : String :=
  if hasProperty (videos.head?.getD []) (metricField metric_field) then metricField metric_field
  else if metricField metric_field = "viewCount" then "viewCount"
  else if metricField metric_field = "likeCount" then "likeCount"
  else if metricField metric_field = "commentCount" then "commentCount"
  else metricField metric_field

/-- `v.publishedAt != null`: the value is neither `null` nor `undefined`. -/
def isPublished (v : JsObject) : Bool :=
  match getProperty v "publishedAt" with
  | JsValue.null => false
  | JsValue.undefined => false
  | _ => true

/-- Line 106: `typeof v[key] === 'number' ? v[key] : parseInt(v[key], 10) || 0`. -/
def metricValue (raw : JsValue) : Option ℚ :=
  match raw with
  | JsValue.number q => some q
  | JsValue.nan => none
  | _ => some ((orNum (parseIntValue raw) 0 : ℤ) : ℚ)

/-- The callback of `.map` (lines 104 to 108). -/
def toPoint (key : String) (v : JsObject) : Point :=
  { date := getProperty v "publishedAt"
    value := metricValue (getProperty v key)
    title := getProperty v "title" }

/-- The comparator `(a, b) => new Date(a.date) - new Date(b.date)` as an order: `a` may
stay before `b` unless the difference is positive.  `dateValue x` is the time value of
`new Date(x)`, a function of the platform and a parameter of the embedding; `none` is
`NaN` (an invalid date), and a `NaN` difference counts as 0. -/
def dateOrder (dateValue : JsValue → Option ℚ) (a b : Point) : Bool :=
  match dateValue a.date, dateValue b.date with
  | some x, some y => decide (x ≤ y)
  | _, _ => true

/-- The case `plot_metric_vs_time` of `executeYouTubeTool`.  With a comparator that is a
consistent order the result of `.sort` is the stable sort, which insertion sort
computes. -/
def plot_metric_vs_time (dateValue : JsValue → Option ℚ) (metric_field : Option String)
    (videos : List JsObject) : MetricChart :=
  { data := ((videos.filter isPublished).map (toPoint (metricKey metric_field videos))).insertionSort
      fun a b => dateOrder dateValue a b = true
    metricField := metricKey metric_field videos }

/-- A stand-in for the date parsing of the platform on the example records: the year
that starts an ISO date. -/
def yearValue : JsValue → Option ℚ
  | JsValue.string s => (parseInt s.data).map fun n => (n : ℚ)
  | _ => none

/-- Three records: published in 2023, not published (`null`), published in 2021. -/
def datedVideos : List JsObject :=
  [[("title", JsValue.string "late"), ("publishedAt", JsValue.string "2023-03-01T00:00:00Z"),
      ("viewCount", JsValue.number 7)],
    [("title", JsValue.string "draft"), ("publishedAt", JsValue.null),
      ("viewCount", JsValue.number 9)],
    [("title", JsValue.string "early"), ("publishedAt", JsValue.string "2021-06-01T00:00:00Z"),
      ("viewCount", JsValue.string "12")]]

/-- One component of a duration text in the words of the specification: the decimal
writing of `n` followed by the unit letter, or nothing when the component is left out. -/
def durationComponent (unit : Char) : Option ℕ → List Char
  | some n => Nat.toDigits 10 n ++ [unit]
  | none => []

/-- The text `PT[nH][nM][nS]` with the given components. -/
def durationText (h m s : Option ℕ) : String :=
  String.mk ("PT".data ++ durationComponent 'H' h ++ durationComponent 'M' m ++
    durationComponent 'S' s)

/-! ## Binary64 arithmetic

The values computed by `compute_stats_json` and by `parseDuration` are IEEE 754 binary64
numbers.  A Number is embedded as `Option ℚ`: `some q` is the finite binary64 number of
value `q`, `none` is a value that is not finite (`NaN`, `Infinity` or `-Infinity`).  The
sign of zero is not represented.  An arithmetic operation of the source is the exact
operation followed by `toDouble`; an operation on a value that is not finite gives a
value that is not finite. -/

/-- Rounding to the nearest integer, a tie going to the even one. -/
def roundHalfEven (q : ℚ) : ℤ :=
  if q - ⌊q⌋ < 1 / 2 then ⌊q⌋
  else if 1 / 2 < q - ⌊q⌋ then ⌊q⌋ + 1
  else if ⌊q⌋ % 2 = 0 then ⌊q⌋ else ⌊q⌋ + 1

/-- The binary exponent of the binary64 numbers around `x`: `⌊log₂ |x|⌋`, and -1022 in
the subnormal range. -/
def binaryExponent (x : ℚ) : ℤ := max (Int.log 2 |x|) (-1022)

/-- The distance between neighbouring binary64 numbers around `x` (53 significant bits). -/
def ulp (x : ℚ) : ℚ := (2 : ℚ) ^ (binaryExponent x - 52)

/-- The Number nearest to the rational `x`. -/
def toDouble (x : ℚ) : Option ℚ :=
  if (2 : ℚ) ^ (1024 : ℕ) ≤ |(roundHalfEven (x / ulp x) : ℚ) * ulp x| then none
  else some ((roundHalfEven (x / ulp x) : ℚ) * ulp x)

/-- `a + b` on Numbers. -/
def addD (a b : Option ℚ) : Option ℚ :=
  match a, b with
  | some x, some y => toDouble (x + y)
  | _, _ => none

/-- `a - b` on Numbers. -/
def subD (a b : Option ℚ) : Option ℚ :=
  match a, b with
  | some x, some y => toDouble (x - y)
  | _, _ => none

/-- `a * b` on Numbers. -/
def mulD (a b : Option ℚ) : Option ℚ :=
  match a, b with
  | some x, some y => toDouble (x * y)
  | _, _ => none

/-- `a / n` on Numbers, for a finite divisor `n` other than zero. -/
def divD (a : Option ℚ) (n : ℚ) : Option ℚ :=
  match a with
  | some x => toDouble (x / n)
  | none => none

/-- `Math.round(a)` on Numbers: the result of rounding a binary64 number to an integer
is again a binary64 number. -/
def roundD (a : Option ℚ) : Option ℚ := a.map fun x => ((Math_round x : ℤ) : ℚ)

/-- `parseInt(match[i] || 0, 10)` as a Number: the integer read, converted to binary64.
(For a text of more than 20 significant digits the language lets `parseInt` read the
digits after the 20th as 0; here they are read as they are.) -/
def componentNumber (group : Option (List Char)) : Option ℚ :=
  (componentValue group).bind fun n => toDouble (n : ℚ)

/-- `parseDuration` on `String(iso)` in binary64: line 188 computes
`h * 3600 + m * 60 + sec` on Numbers. -/
def parseDurationStringDouble (s : List Char) : Option ℚ :=
  match afterFirst ['P', 'T'] s with
  | none => some 0
  | some r =>
    let h := optionalComponent 'H' r
    let m := optionalComponent 'M' h.2
    let sec := optionalComponent 'S' m.2
    addD (addD (mulD (componentNumber h.1) (some 3600)) (mulD (componentNumber m.1) (some 60)))
      (componentNumber sec.1)

/-- `parseDuration(iso)` of `youtubeTools.js` in binary64. -/
def parseDurationDouble : JsValue → Option ℚ
  | JsValue.number q => some q
  | JsValue.nan => none
  | JsValue.string s => parseDurationStringDouble s.data
  | JsValue.object str => parseDurationStringDouble str.data
  | _ => some 0

/-- The functions whose result on Numbers the language leaves to the platform:
`Math.sqrt(x)` and `x ** 2`. -/
structure Approximated where
  sqrt : ℚ → Option ℚ
  square : ℚ → Option ℚ

/-- The object returned by `compute_stats_json` when there are values, in binary64. -/
structure StatsDouble where
  field_name : String
  count : ℕ
  mean : Option ℚ
  median : Option ℚ
  std : Option ℚ
  min : ℚ
  max : ℚ
  deriving DecidableEq

/-- The callback of `videos.map` (lines 149 to 154) on `raw = v[key]` in binary64: a
number is taken as it is, any other value is parsed and the integer read is converted to
binary64. -/
def statValueDouble (key : String) (raw : JsValue) : Option ℚ :=
  match raw with
  | JsValue.number q => some q
  | _ =>
    if key = "duration" ∧ raw.truthy = true then parseDurationDouble raw
    else (parseIntValue raw).bind fun n => toDouble (n : ℚ)

/-- Lines 148 to 155 in binary64.  The values kept are the finite ones: a text of more
than 308 digits, which `parseInt` reads as `Infinity` and the source keeps, is outside
the datasets this embedding covers. -/
def statValuesDouble (key : String) (videos : List JsObject) : List ℚ :=
  (videos.map fun v => statValueDouble key (getProperty v key)).filterMap id

/-- `values.reduce((a, b) => a + b, 0)`: the additions of line 157, from left to right. -/
def sumDouble (values : List ℚ) : Option ℚ :=
  values.foldl (fun a b => addD a (some b)) (some 0)

/-- Line 157: `mean`. -/
def meanDouble (values : List ℚ) : Option ℚ := divD (sumDouble values) (values.length : ℚ)

/-- Lines 158 to 162: `median`.  On finite Numbers the comparator `(a, b) => a - b` has
the sign of the exact difference, so the sort is the ascending order of the values. -/
def medianDouble (values : List ℚ) : Option ℚ :=
  let sorted := values.insertionSort (· ≤ ·)
  if sorted.length % 2 = 0 then
    divD (addD (some (sorted.getD (sorted.length / 2 - 1) 0))
      (some (sorted.getD (sorted.length / 2) 0))) 2
  else some (sorted.getD (sorted.length / 2) 0)

/-- Line 163: `variance`. -/
def varianceDouble (M : Approximated) (values : List ℚ) : Option ℚ :=
  divD (values.foldl (fun a b => addD a ((subD (some b) (meanDouble values)).bind M.square))
    (some 0)) (values.length : ℚ)

/-- `Math.round(x * 100) / 100` on Numbers. -/
def roundHundredths (x : Option ℚ) : Option ℚ := divD (roundD (mulD x (some 100))) 100

/-- Lines 157 to 172 in binary64, on a non-empty list of finite values. -/
def summarizeDouble (M : Approximated) (key : String) (values : List ℚ) : StatsDouble :=
  { field_name := key
    count := values.length
    mean := roundHundredths (meanDouble values)
    median := roundHundredths (medianDouble values)
    std := roundHundredths ((varianceDouble M values).bind M.sqrt)
    min := Math_min values
    max := Math_max values }

/-- The case `compute_stats_json` of `executeYouTubeTool` in binary64. -/
def compute_stats_json_double (M : Approximated) (field_name : Option String)
    (videos : List JsObject) : Except String StatsDouble :=
  let key := statsKey field_name videos
  let values := statValuesDouble key videos
  if values.length = 0 then Except.error ("No numeric values for field \"" ++ key ++ "\"")
  else Except.ok (summarizeDouble M key values)

/-- Forty records: `viewCount` is 0 in thirty-nine of them and 23 in the last; the mean
is 0.575. -/
def tieViews : List JsObject := List.replicate 39 (viewRecord 0) ++ [viewRecord 23]

/-- Three records with `viewCount` 2 ^ 53, 1 and 1. -/
def largeViews : List JsObject :=
  [viewRecord 9007199254740992, viewRecord 1, viewRecord 1]

/-- A platform for the examples: `x ** 2` is the product rounded to binary64 and
`Math.sqrt(x)` is the square root cut after 64 binary places and rounded to binary64. -/
def examplePlatform : Approximated :=
  { sqrt := fun x =>
      if x < 0 then none else toDouble ((Nat.sqrt ⌊x * 4 ^ 64⌋.toNat : ℚ) / 2 ^ 64)
    square := fun x => toDouble (x * x) }

/-- The values of `tieViews`. -/
def tieValues : List ℕ := List.replicate 39 0 ++ [23]

/-- The literal `lit` and the text `b` differ at a position both have: `lit` cannot
match at the head of `b`, whatever follows `b`. -/
def clash : List Char → List Char → Bool
  | a :: lit, c :: b => if a = c then clash lit b else true
  | _, _ => false

/-- The literal `lit` matches at no position of `pre`, whatever follows `pre`. -/
def allClash (lit : List Char) : List Char → Bool
  | [] => true
  | c :: cs => clash lit (c :: cs) && allClash lit cs

end YT

namespace YT

/-! ## Lemmas on the string functions -/

theorem dropLit_eq_some {lit s rest : List Char} :
    dropLit lit s = some rest ↔ s = lit ++ rest := by
  induction lit generalizing s with
  | nil => simp [dropLit, eq_comm]
  | cons a lit ih =>
    cases s with
    | nil => simp [dropLit]
    | cons c s =>
      by_cases h : a = c
      · subst h
        simp [dropLit, ih]
      · simp [dropLit, h, Ne.symm h]

theorem dropLit_append (lit rest : List Char) : dropLit lit (lit ++ rest) = some rest :=
  dropLit_eq_some.2 rfl

theorem matchSegment_eq_some {lit l v : List Char} (h : matchSegment lit l = some v) :
    ∃ pre rest, l = pre ++ lit ++ rest ∧ v = rest.takeWhile isSegChar ∧ v ≠ [] := by
  induction l with
  | nil => simp [matchSegment] at h
  | cons c cs ih =>
    rw [matchSegment] at h
    split at h
    · next rest hrest =>
      split at h
      · obtain ⟨pre, r, h1, h2, h3⟩ := ih h
        exact ⟨c :: pre, r, by simp [h1], h2, h3⟩
      · next hne =>
        refine ⟨[], rest, ?_, ?_, ?_⟩
        · simpa using dropLit_eq_some.1 hrest
        · simpa using h.symm
        · simp only [Option.some.injEq] at h
          rw [← h]; exact hne
    · obtain ⟨pre, r, h1, h2, h3⟩ := ih h
      exact ⟨c :: pre, r, by simp [h1], h2, h3⟩

theorem matchSegment_isSome (lit pre : List Char) (c : Char) (post : List Char)
    (hc : isSegChar c = true) : (matchSegment lit (pre ++ lit ++ c :: post)).isSome = true := by
  induction pre with
  | nil =>
    have hne : (c :: post).takeWhile isSegChar ≠ [] := by simp [List.takeWhile, hc]
    cases hl : ([] ++ lit ++ c :: post) with
    | nil =>
      have := congrArg List.length hl
      simp at this
    | cons d ds =>
      rw [matchSegment, ← hl]
      simp only [List.nil_append, dropLit_append]
      rw [if_neg hne]
      rfl
  | cons p pre ih =>
    have hcons : p :: pre ++ lit ++ c :: post = p :: (pre ++ lit ++ c :: post) := by simp
    rw [hcons, matchSegment]
    split
    · split
      · exact ih
      · rfl
    · exact ih

/-- A failed match means that the literal is nowhere followed by a segment character. -/
theorem matchSegment_eq_none {lit l : List Char} :
    matchSegment lit l = none ↔
      ¬ ∃ pre c post, l = pre ++ lit ++ c :: post ∧ isSegChar c = true := by
  constructor
  · rintro h ⟨pre, c, post, rfl, hc⟩
    have := matchSegment_isSome lit pre c post hc
    rw [h] at this
    simp at this
  · intro h
    cases hm : matchSegment lit l with
    | none => rfl
    | some v =>
      exfalso
      obtain ⟨pre, rest, h1, h2, h3⟩ := matchSegment_eq_some hm
      cases rest with
      | nil => simp at h2; exact h3 h2
      | cons c post =>
        apply h
        refine ⟨pre, c, post, h1, ?_⟩
        by_contra hc
        simp [List.takeWhile, hc] at h2
        exact h3 h2

theorem clash_dropLit {lit b : List Char} (h : clash lit b = true) (rest : List Char) :
    dropLit lit (b ++ rest) = none := by
  induction lit generalizing b with
  | nil => simp [clash] at h
  | cons a lit ih =>
    cases b with
    | nil => simp [clash] at h
    | cons c b =>
      by_cases hac : a = c
      · subst hac
        simp only [clash, if_true] at h
        simpa [dropLit] using ih h
      · simp [dropLit, hac]

theorem matchSegment_skip {lit pre : List Char} (h : allClash lit pre = true)
    (rest : List Char) : matchSegment lit (pre ++ rest) = matchSegment lit rest := by
  induction pre with
  | nil => rfl
  | cons c cs ih =>
    simp only [allClash, Bool.and_eq_true] at h
    have hd := clash_dropLit h.1 rest
    rw [List.cons_append] at hd ⊢
    rw [matchSegment, hd]
    exact ih h.2

theorem matchSegment_at {lit rest : List Char} (h : rest.takeWhile isSegChar ≠ []) :
    matchSegment lit (lit ++ rest) = some (rest.takeWhile isSegChar) := by
  cases hl : lit ++ rest with
  | nil =>
    have hr : rest = [] := (List.append_eq_nil.1 hl).2
    simp [hr] at h
  | cons d ds =>
    rw [matchSegment, ← hl, dropLit_append]
    simp only
    rw [if_neg h]

theorem matchSegment_none_of_absent {q lit l : List Char} (hq : ∃ x, lit = q ++ x)
    (h : ¬ q <:+: l) : matchSegment lit l = none := by
  cases hm : matchSegment lit l with
  | none => rfl
  | some v =>
    exfalso
    obtain ⟨pre, rest, h1, -, -⟩ := matchSegment_eq_some hm
    obtain ⟨x, rfl⟩ := hq
    exact h ⟨pre, x ++ rest, by simp [h1]⟩

theorem dropWhile_append_head {p : Char → Bool} (a b : List Char) (d : Char) (b' : List Char)
    (hb : b = d :: b') (hd : p d = false) :
    (a ++ b).dropWhile p = a.dropWhile p ++ b := by
  induction a with
  | nil => simp [hb, List.dropWhile, hd]
  | cons c a ih =>
    by_cases hc : p c = true
    · simp [List.dropWhile, hc, ih]
    · simp [List.dropWhile, hc]

/-- Trimming a text that starts with a non-blank character and has a non-blank
character before its tail `t` only shortens `t`. -/
theorem trim_append (c : Char) (m : List Char) (e : Char) (t : List Char)
    (hc : isJsWhiteSpace c = false) (he : isJsWhiteSpace e = false) :
    trim (c :: m ++ [e] ++ t) = c :: m ++ [e] ++ t.rdropWhile isJsWhiteSpace := by
  have h1 : (c :: m ++ [e] ++ t).dropWhile isJsWhiteSpace = c :: m ++ [e] ++ t := by
    simp [List.dropWhile, hc]
  have h2 : (c :: m ++ [e] ++ t).reverse = t.reverse ++ (e :: (c :: m).reverse) := by simp
  rw [trim, h1, h2, dropWhile_append_head _ _ e _ rfl he]
  simp [List.rdropWhile]

theorem takeWhile_segment (s t : List Char) (hs : ∀ c ∈ s, isSegChar c = true)
    (ht : t = [] ∨ ∃ c r, t = c :: r ∧ isSegChar c = false) :
    (s ++ t).takeWhile isSegChar = s := by
  induction s with
  | nil =>
    rcases ht with rfl | ⟨c, r, rfl, hc⟩
    · rfl
    · simp [List.takeWhile, hc]
  | cons a s ih =>
    have ha : isSegChar a = true := hs a (by simp)
    rw [List.cons_append, List.takeWhile_cons_of_pos ha,
      ih (fun c hc => hs c (by simp [hc]))]

/-- The three shapes of url, on lists of characters: `w` is the text before
`youtube.com/`, `s` the segment and `t` what follows it. -/
theorem matchSegment_shapes (s t : List Char) (hs : s ≠ [])
    (hseg : ∀ c ∈ s, isSegChar c = true)
    (ht : t = [] ∨ ∃ c r, t = c :: r ∧ isSegChar c = false)
    (hno : ¬ "youtube.com/".data <:+: s ++ t) :
    matchSegment handleLit ("https://www.".data ++ handleLit ++ (s ++ t)) = some s ∧
    (matchSegment handleLit ("https://www.".data ++ channelLit ++ (s ++ t)) = none ∧
      matchSegment channelLit ("https://www.".data ++ channelLit ++ (s ++ t)) = some s) ∧
    (matchSegment handleLit ("https://www.".data ++ customLit ++ (s ++ t)) = none ∧
      matchSegment channelLit ("https://www.".data ++ customLit ++ (s ++ t)) = none ∧
      matchSegment customLit ("https://www.".data ++ customLit ++ (s ++ t)) = some s) := by
  have htw : (s ++ t).takeWhile isSegChar = s := takeWhile_segment s t hseg ht
  have hne : (s ++ t).takeWhile isSegChar ≠ [] := by rw [htw]; exact hs
  have hat : ∀ lit, allClash lit "https://www.".data = true →
      matchSegment lit ("https://www.".data ++ lit ++ (s ++ t)) = some s := by
    intro lit hl
    rw [List.append_assoc, matchSegment_skip hl, matchSegment_at hne, htw]
  have hnone : ∀ lit pre, allClash lit pre = true → (∃ x, lit = "youtube.com/".data ++ x) →
      matchSegment lit (pre ++ (s ++ t)) = none := by
    intro lit pre hl hq
    rw [matchSegment_skip hl]
    exact matchSegment_none_of_absent hq hno
  refine ⟨hat _ (by decide), ⟨hnone _ _ (by decide) ⟨"@".data, by decide⟩, hat _ (by decide)⟩,
    hnone _ _ (by decide) ⟨"@".data, by decide⟩,
    hnone _ _ (by decide) ⟨"channel/".data, by decide⟩, hat _ (by decide)⟩

theorem trim_url (w s t : List Char) (hs : s ≠ [])
    (hws : ∀ c ∈ s, isJsWhiteSpace c = false) :
    trim ('h' :: w ++ s ++ t) = 'h' :: w ++ s ++ t.rdropWhile isJsWhiteSpace := by
  obtain ⟨s', e, rfl⟩ : ∃ s' e, s = s' ++ [e] :=
    ⟨s.dropLast, s.getLast hs, (List.dropLast_append_getLast hs).symm⟩
  have he : isJsWhiteSpace e = false := hws e (by simp)
  have h := trim_append 'h' (w ++ s') e t (by decide) he
  simpa [List.append_assoc] using h

theorem rdropWhile_tail (t : List Char)
    (ht : t = [] ∨ ∃ r, t = '/' :: r ∨ t = '?' :: r) :
    t.rdropWhile isJsWhiteSpace = [] ∨
      ∃ c r, t.rdropWhile isJsWhiteSpace = c :: r ∧ isSegChar c = false := by
  obtain ⟨x, hx⟩ := List.rdropWhile_prefix isJsWhiteSpace t
  cases ht' : t.rdropWhile isJsWhiteSpace with
  | nil => exact Or.inl rfl
  | cons c r =>
    right
    refine ⟨c, r, rfl, ?_⟩
    rw [ht'] at hx
    rcases ht with rfl | ⟨r', rfl | rfl⟩
    · simp at hx
    · simp only [List.cons_append, List.cons.injEq] at hx
      rw [hx.1]; decide
    · simp only [List.cons_append, List.cons.injEq] at hx
      rw [hx.1]; decide

/-- C5 as stated fails: the segment `youtube.com` followed by `/@foo` satisfies the
conditions put on `s` and `t` (`t` holds no `youtube.com/`), and the channel url is
parsed as the handle `foo`, the custom url as well. -/
theorem C5_counterexample :
    ("youtube.com" : String) ≠ "" ∧
    (∀ c ∈ ("youtube.com" : String).data, c ≠ '/' ∧ c ≠ '?' ∧ isJsWhiteSpace c = false) ∧
    ("/@foo" : String).data = '/' :: "@foo".data ∧
    ¬ "youtube.com/".data <:+: ("/@foo" : String).data ∧
    parseChannelUrl ("https://www.youtube.com/channel/" ++ "youtube.com" ++ "/@foo") =
      some ⟨ChannelType.handle, "foo"⟩ ∧
    parseChannelUrl ("https://www.youtube.com/channel/" ++ "youtube.com" ++ "/@foo") ≠
      some ⟨ChannelType.channelId, "youtube.com"⟩ ∧
    parseChannelUrl ("https://www.youtube.com/c/" ++ "youtube.com" ++ "/@foo") ≠
      some ⟨ChannelType.custom, "youtube.com"⟩ := by
  refine ⟨by decide, by decide, by decide, by decide, by decide, by decide, by decide⟩

/-- C5, amended: for every non-empty segment `s` without `/`, `?` and white space and
every suffix `t` that is empty or starts with `/` or `?`, such that `s + t` holds no
occurrence of `youtube.com/`, the three shapes of url are parsed as handle, channel id
and custom name with value `s`. -/
theorem C5_segment_extracted (s t : String) (hs : s ≠ "")
    (hseg : ∀ c ∈ s.data, c ≠ '/' ∧ c ≠ '?' ∧ isJsWhiteSpace c = false)
    (ht : t = "" ∨ ∃ r, t.data = '/' :: r ∨ t.data = '?' :: r)
    (hno : ¬ "youtube.com/".data <:+: (s ++ t).data) :
    parseChannelUrl ("https://www.youtube.com/@" ++ s ++ t) =
      some ⟨ChannelType.handle, s⟩ ∧
    parseChannelUrl ("https://www.youtube.com/channel/" ++ s ++ t) =
      some ⟨ChannelType.channelId, s⟩ ∧
    parseChannelUrl ("https://www.youtube.com/c/" ++ s ++ t) =
      some ⟨ChannelType.custom, s⟩ := by
  have hsd : s.data ≠ [] := fun h => hs (String.ext h)
  have hws : ∀ c ∈ s.data, isJsWhiteSpace c = false := fun c hc => (hseg c hc).2.2
  have hsc : ∀ c ∈ s.data, isSegChar c = true := by
    intro c hc
    simp [isSegChar, (hseg c hc).1, (hseg c hc).2.1]
  have htd : t.data = [] ∨ ∃ r, t.data = '/' :: r ∨ t.data = '?' :: r := by
    rcases ht with rfl | h
    · exact Or.inl rfl
    · exact Or.inr h
  have ht' := rdropWhile_tail t.data htd
  have hno' : ¬ "youtube.com/".data <:+: s.data ++ t.data.rdropWhile isJsWhiteSpace := by
    rintro ⟨a, b, hab⟩
    obtain ⟨x, hx⟩ := List.rdropWhile_prefix isJsWhiteSpace t.data
    apply hno
    refine ⟨a, b ++ x, ?_⟩
    rw [String.data_append, ← hx, ← List.append_assoc, ← List.append_assoc, hab,
      List.append_assoc]
  obtain ⟨h1, ⟨h2, h3⟩, h4, h5, h6⟩ := matchSegment_shapes s.data _ hsd hsc ht' hno'
  have e1 : ("https://www.youtube.com/@" ++ s ++ t).data =
      'h' :: "ttps://www.youtube.com/@".data ++ s.data ++ t.data := by
    simp only [String.data_append]
  have e2 : ("https://www.youtube.com/channel/" ++ s ++ t).data =
      'h' :: "ttps://www.youtube.com/channel/".data ++ s.data ++ t.data := by
    simp only [String.data_append]
  have e3 : ("https://www.youtube.com/c/" ++ s ++ t).data =
      'h' :: "ttps://www.youtube.com/c/".data ++ s.data ++ t.data := by
    simp only [String.data_append]
  have f1 : 'h' :: "ttps://www.youtube.com/@".data ++ s.data ++
        t.data.rdropWhile isJsWhiteSpace =
      "https://www.".data ++ handleLit ++ (s.data ++ t.data.rdropWhile isJsWhiteSpace) := by
    rw [List.append_assoc]; rfl
  have f2 : 'h' :: "ttps://www.youtube.com/channel/".data ++ s.data ++
        t.data.rdropWhile isJsWhiteSpace =
      "https://www.".data ++ channelLit ++ (s.data ++ t.data.rdropWhile isJsWhiteSpace) := by
    rw [List.append_assoc]; rfl
  have f3 : 'h' :: "ttps://www.youtube.com/c/".data ++ s.data ++
        t.data.rdropWhile isJsWhiteSpace =
      "https://www.".data ++ customLit ++ (s.data ++ t.data.rdropWhile isJsWhiteSpace) := by
    rw [List.append_assoc]; rfl
  refine ⟨?_, ?_, ?_⟩
  · simp only [parseChannelUrl, e1, trim_url _ _ _ hsd hws, f1, h1]
  · simp only [parseChannelUrl, e2, trim_url _ _ _ hsd hws, f2, h2, h3]
  · simp only [parseChannelUrl, e3, trim_url _ _ _ hsd hws, f3, h4, h5, h6]

/-- Witness of C5 (amended): the segment `veritasium` followed by `/videos`. -/
theorem C5_segment_extracted_witness :
    parseChannelUrl ("https://www.youtube.com/@" ++ "veritasium" ++ "/videos") =
      some ⟨ChannelType.handle, "veritasium"⟩ ∧
    parseChannelUrl ("https://www.youtube.com/channel/" ++ "veritasium" ++ "/videos") =
      some ⟨ChannelType.channelId, "veritasium"⟩ ∧
    parseChannelUrl ("https://www.youtube.com/c/" ++ "veritasium" ++ "/videos") =
      some ⟨ChannelType.custom, "veritasium"⟩ :=
  C5_segment_extracted "veritasium" "/videos" (by decide) (by decide)
    (Or.inr ⟨"videos".data, Or.inl (by decide)⟩) (by decide)

theorem trim_within (l : List Char) : trim l <:+: l := by
  have h1 : trim l <+: l.dropWhile isJsWhiteSpace := by
    have := List.rdropWhile_prefix isJsWhiteSpace (l.dropWhile isJsWhiteSpace)
    simpa [trim, List.rdropWhile] using this
  exact h1.isInfix.trans (List.dropWhile_suffix _).isInfix

theorem isSegChar_iff (c : Char) : isSegChar c = true ↔ c ≠ '/' ∧ c ≠ '?' := by
  simp [isSegChar]

theorem parseChannelUrl_eq_none (url : String) :
    parseChannelUrl url = none ↔
      matchSegment handleLit (trim url.data) = none ∧
      matchSegment channelLit (trim url.data) = none ∧
      matchSegment customLit (trim url.data) = none := by
  cases h1 : matchSegment handleLit (trim url.data) <;>
    cases h2 : matchSegment channelLit (trim url.data) <;>
    cases h3 : matchSegment customLit (trim url.data) <;>
    simp [parseChannelUrl, h1, h2, h3]

/-- C6: `parseChannelUrl` is total, and it returns `null` exactly when the trimmed input
has no occurrence of `youtube.com/@`, `youtube.com/channel/` or `youtube.com/c/` directly
followed by a character other than `/` and `?`; in particular it returns `null` for
every string that holds none of `/@`, `/channel/` and `/c/`. -/
theorem C6_null_iff_no_match (url : String) :
    (parseChannelUrl url = none ↔
      ¬ ∃ lit ∈ ["youtube.com/@".data, "youtube.com/channel/".data, "youtube.com/c/".data],
          ∃ pre c post, trim url.data = pre ++ lit ++ c :: post ∧ c ≠ '/' ∧ c ≠ '?') ∧
    ((¬ "/@".data <:+: url.data ∧ ¬ "/channel/".data <:+: url.data ∧
        ¬ "/c/".data <:+: url.data) → parseChannelUrl url = none) := by
  have hiff : parseChannelUrl url = none ↔
      ¬ ∃ lit ∈ ["youtube.com/@".data, "youtube.com/channel/".data, "youtube.com/c/".data],
          ∃ pre c post, trim url.data = pre ++ lit ++ c :: post ∧ c ≠ '/' ∧ c ≠ '?' := by
    rw [parseChannelUrl_eq_none, matchSegment_eq_none, matchSegment_eq_none,
      matchSegment_eq_none]
    simp only [isSegChar_iff, List.mem_cons, List.mem_singleton, List.not_mem_nil, or_false]
    constructor
    · rintro ⟨h1, h2, h3⟩ ⟨lit, hlit | hlit | hlit, pre, c, post, h⟩
      · subst hlit; exact h1 ⟨pre, c, post, h⟩
      · subst hlit; exact h2 ⟨pre, c, post, h⟩
      · subst hlit; exact h3 ⟨pre, c, post, h⟩
    · intro h
      refine ⟨?_, ?_, ?_⟩
      · rintro ⟨pre, c, post, hh⟩
        exact h ⟨_, Or.inl rfl, pre, c, post, hh⟩
      · rintro ⟨pre, c, post, hh⟩
        exact h ⟨_, Or.inr (Or.inl rfl), pre, c, post, hh⟩
      · rintro ⟨pre, c, post, hh⟩
        exact h ⟨_, Or.inr (Or.inr rfl), pre, c, post, hh⟩
  refine ⟨hiff, ?_⟩
  rintro ⟨h1, h2, h3⟩
  rw [hiff]
  have sub : ∀ (a b pre post : List Char) (c : Char),
      trim url.data = pre ++ ("youtube.com".data ++ a) ++ c :: post → ¬ a <:+: url.data →
      b = "youtube.com".data ++ a → False := by
    intro a b pre post c h hn _
    apply hn
    refine List.IsInfix.trans ?_ (trim_within url.data)
    exact ⟨pre ++ "youtube.com".data, c :: post, by rw [h]; simp⟩
  simp only [List.mem_cons, List.mem_singleton, List.not_mem_nil, or_false]
  rintro ⟨lit, hlit | hlit | hlit, pre, c, post, h, -, -⟩
  · subst hlit
    exact sub "/@".data _ pre post c h h1 rfl
  · subst hlit
    exact sub "/channel/".data _ pre post c h h2 rfl
  · subst hlit
    exact sub "/c/".data _ pre post c h h3 rfl

/-- Witness of C6: a string with none of the three path markers. -/
theorem C6_null_iff_no_match_witness : parseChannelUrl "garbage" = none :=
  (C6_null_iff_no_match "garbage").2 ⟨by decide, by decide, by decide⟩

/-! ## The aggregation pipeline -/

theorem append_ne_empty (a b : String) (h : a ≠ "") : a ++ b ≠ "" := by
  intro hab
  apply h
  have := congrArg String.data hab
  simp at this
  exact String.ext this.1

theorem kind_errorEvent {m : String} (h : m ≠ "") : (errorEvent m).kind = EventKind.error := by
  simp [Event.kind, errorEvent, truthyStr, h]

theorem kind_catchEvent (m : String) : (catchEvent m).kind = EventKind.error := by
  apply kind_errorEvent
  simp only [orStr]
  split_ifs with h
  · decide
  · exact h

theorem kind_progressEvent (i n : ℕ) : (progressEvent i n).kind = EventKind.progress := by
  simp [Event.kind, progressEvent, truthyStr]

theorem kind_doneEvent (c t u now : String) (n : ℕ) (vs : List VideoRecord) :
    (doneEvent c t u now n vs).kind = EventKind.done := by
  simp [Event.kind, doneEvent, truthyStr]

theorem kind_noVideosEvent (c : String) (cd : ChannelData) :
    (noVideosEvent c cd).kind = EventKind.error := by
  simp [Event.kind, noVideosEvent, truthyStr]

theorem resolveChannelId_error {api : YouTubeApi} {p : ParsedChannel} {e : Event}
    (h : resolveChannelId api p = Except.error e) : e.kind = EventKind.error := by
  unfold resolveChannelId at h
  split at h
  · split at h
    · cases h; exact kind_catchEvent _
    · cases h; exact kind_errorEvent (append_ne_empty _ _ (by decide))
    · cases h
  · cases h
  · split at h
    · cases h; exact kind_catchEvent _
    · cases h; exact kind_errorEvent (append_ne_empty _ _ (by decide))
    · cases h

/-- The loop sends the progress events of the indices `i`, `i + 1`, ... of the ids it
reached, whatever the requests return or throw. -/
theorem fetchVideos_sent (api : YouTubeApi) (total : ℕ) :
    ∀ (ids : List String) (i : ℕ) (videos : List VideoRecord),
      ∃ k, k ≤ ids.length ∧
        (fetchVideos api total i ids videos).1 =
          (List.range' i k).map (fun j => progressEvent j total) ∧
        ((∃ m, (fetchVideos api total i ids videos).2 = Except.error m) ∨ k = ids.length) := by
  intro ids
  induction ids with
  | nil => intro i videos; exact ⟨0, by simp [fetchVideos]⟩
  | cons id rest ih =>
    intro i videos
    rw [fetchVideos]
    split
    · exact ⟨1, by simp, by simp [List.range'], Or.inl ⟨_, rfl⟩⟩
    · obtain ⟨k, hk, hs, hr⟩ := ih (i + 1) videos
      refine ⟨k + 1, by simpa using hk, by simp [List.range'_succ, hs], ?_⟩
      rcases hr with ⟨m, hm⟩ | hr
      · exact Or.inl ⟨m, hm⟩
      · exact Or.inr (by simp [hr])
    · next v _ =>
      obtain ⟨k, hk, hs, hr⟩ := ih (i + 1) (videos ++ [videoRecord v])
      refine ⟨k + 1, by simpa using hk, by simp [List.range'_succ, hs], ?_⟩
      rcases hr with ⟨m, hm⟩ | hr
      · exact Or.inl ⟨m, hm⟩
      · exact Or.inr (by simp [hr])

/-- When no request of the loop throws, every id gets its progress event and the loop
ends with the records of the items found, in upstream order. -/
theorem fetchVideos_returned (api : YouTubeApi) (total : ℕ) :
    ∀ (ids : List String) (i : ℕ) (videos : List VideoRecord),
      (∀ p ∈ ids.enumFrom i, ∀ m, api.video p.1 p.2 ≠ Upstream.threw m) →
      fetchVideos api total i ids videos =
        ((List.range' i ids.length).map (fun j => progressEvent j total),
          Except.ok (videos ++ (ids.enumFrom i).filterMap (itemRecord api))) := by
  intro ids
  induction ids with
  | nil => intro i videos _; simp [fetchVideos]
  | cons id rest ih =>
    intro i videos h
    have hrest : ∀ p ∈ rest.enumFrom (i + 1), ∀ m, api.video p.1 p.2 ≠ Upstream.threw m := by
      intro p hp
      exact h p (by simp [List.enumFrom_cons, hp])
    have hhead : ∀ m, api.video i id ≠ Upstream.threw m := by
      intro m
      exact h (i, id) (by simp [List.enumFrom_cons]) m
    rw [fetchVideos]
    split
    · next m hm => exact absurd hm (hhead m)
    · next hv =>
      simp [ih (i + 1) videos hrest, List.range'_succ, List.enumFrom_cons, itemRecord, hv]
    · next v hv =>
      simp [ih (i + 1) _ hrest, List.range'_succ, List.enumFrom_cons, itemRecord, hv]

theorem progress_indices_increasing (total : ℕ) : ∀ (k i : ℕ),
    (((List.range' i k).map (fun j => progressEvent j total)).map Event.index).Pairwise
      (· < ·) := by
  intro k
  induction k with
  | zero => intro i; simp
  | succ k ih =>
    intro i
    simp only [List.range'_succ, List.map_cons, List.pairwise_cons]
    refine ⟨?_, ih (i + 1)⟩
    intro b hb
    simp only [List.map_map, List.mem_map, List.mem_range'_1] at hb
    obtain ⟨j, hj, rfl⟩ := hb
    simp only [Function.comp, Event.index, progressEvent, Option.getD_some]
    omega

/-- Whatever the upstream does, the events of one run are progress events followed by
one terminal event. -/
theorem channelStream_shape (api : YouTubeApi) (now url : String) (max : ℤ) :
    ∃ ps t, channelStream api now url max = ps ++ [t] ∧ t.isTerminal = true ∧
      (∀ e ∈ ps, e.kind = EventKind.progress) ∧
      (ps.map Event.index).Pairwise (· < ·) ∧
      (∀ e ∈ ps, ∃ i n, e.progress = some i ∧ e.total = some n ∧ 1 ≤ i ∧ i ≤ n) := by
  have single : ∀ e : Event, e.kind = EventKind.error →
      ∃ ps t, [e] = ps ++ [t] ∧ t.isTerminal = true ∧
        (∀ e ∈ ps, e.kind = EventKind.progress) ∧
        (ps.map Event.index).Pairwise (· < ·) ∧
        (∀ e ∈ ps, ∃ i n, e.progress = some i ∧ e.total = some n ∧ 1 ≤ i ∧ i ≤ n) := by
    intro e he
    exact ⟨[], e, rfl, by simp [Event.isTerminal, he], by simp, by simp, by simp⟩
  unfold channelStream
  split
  · exact single _ (kind_errorEvent (by decide))
  · split
    · next e he => exact single _ (resolveChannelId_error he)
    · split
      · exact single _ (kind_catchEvent _)
      · split
        · exact single _ (kind_errorEvent (by decide))
        · split
          · exact single _ (kind_catchEvent _)
          · next items _ =>
            simp only
            split_ifs with h0
            · exact single _ (kind_noVideosEvent _ _)
            · obtain ⟨k, hk, hs, -⟩ :=
                fetchVideos_sent api (videoIdsOf items).length (videoIdsOf items) 0 []
              have hps : (∀ e ∈ (List.range' 0 k).map
                    (fun j => progressEvent j (videoIdsOf items).length),
                    e.kind = EventKind.progress) ∧
                  (∀ e ∈ (List.range' 0 k).map
                    (fun j => progressEvent j (videoIdsOf items).length),
                    ∃ i n, e.progress = some i ∧ e.total = some n ∧ 1 ≤ i ∧ i ≤ n) := by
                constructor
                · intro e he
                  simp only [List.mem_map] at he
                  obtain ⟨j, -, rfl⟩ := he
                  exact kind_progressEvent _ _
                · intro e he
                  simp only [List.mem_map, List.mem_range'_1] at he
                  obtain ⟨j, hj, rfl⟩ := he
                  exact ⟨j + 1, _, rfl, rfl, by omega, by omega⟩
              split
              · next sent m hf =>
                have hsent : sent = _ := (congrArg Prod.fst hf).symm.trans hs
                subst hsent
                exact ⟨_, _, rfl, by simp [Event.isTerminal, kind_catchEvent], hps.1,
                  progress_indices_increasing _ _ _, hps.2⟩
              · next sent videos hf =>
                have hsent : sent = _ := (congrArg Prod.fst hf).symm.trans hs
                subst hsent
                exact ⟨_, _, rfl, by simp [Event.isTerminal, kind_doneEvent], hps.1,
                  progress_indices_increasing _ _ _, hps.2⟩

/-- C2: when the API key is configured and a url is supplied, the handler opens the
event stream, and whatever the upstream calls return or throw the events written are
zero or more progress events, with strictly increasing index between 1 and total,
followed by exactly one terminal event (error or done), which is the last event. -/
theorem C2_one_terminal_event_last (apiKey : Option String) (q : Query) (api : YouTubeApi)
    (now key url : String) (hkey : truthyStr apiKey = some key)
    (hurl : (truthyStr q.url <|> truthyStr q.channelUrl) = some url) :
    ∃ ps t, youtubeChannel apiKey q api now = Response.eventStream (ps ++ [t]) ∧
      t.isTerminal = true ∧
      (∀ e ∈ ps, e.kind = EventKind.progress ∧ e.isTerminal = false) ∧
      (ps.map Event.index).Pairwise (· < ·) ∧
      (∀ e ∈ ps, ∃ i n, e.progress = some i ∧ e.total = some n ∧ 1 ≤ i ∧ i ≤ n) := by
  obtain ⟨ps, t, h, ht, hp, hi, hn⟩ := channelStream_shape api now url (channelMax q)
  refine ⟨ps, t, ?_, ht, ?_, hi, hn⟩
  · simp only [youtubeChannel, hkey, hurl, h]
  · intro e he
    exact ⟨hp e he, by simp [Event.isTerminal, hp e he]⟩

/-- Witness of C2 on an upstream whose second per-item request throws. -/
theorem C2_one_terminal_event_last_witness :
    ∃ ps t, youtubeChannel (some "key") { url := some "https://www.youtube.com/@x" }
        flakyApi "now" = Response.eventStream (ps ++ [t]) ∧
      t.isTerminal = true ∧
      (∀ e ∈ ps, e.kind = EventKind.progress ∧ e.isTerminal = false) ∧
      (ps.map Event.index).Pairwise (· < ·) ∧
      (∀ e ∈ ps, ∃ i n, e.progress = some i ∧ e.total = some n ∧ 1 ≤ i ∧ i ≤ n) :=
  C2_one_terminal_event_last (some "key") { url := some "https://www.youtube.com/@x" }
    flakyApi "now" "key" "https://www.youtube.com/@x" (by decide) (by decide)

/-- C1 as stated fails: resolution and metadata succeed and the uploads page returns
two video ids, the request for the second video throws, and the stream is two progress
events followed by an error event; no done event is sent. -/
theorem C1_counterexample :
    parseChannelUrl "https://www.youtube.com/@x" = some ⟨ChannelType.handle, "x"⟩ ∧
    resolveChannelId flakyApi ⟨ChannelType.handle, "x"⟩ = Except.ok "UC1" ∧
    flakyApi.channel "UC1" =
      Upstream.returned { uploads := some "UU1", title := some "Channel" } ∧
    flakyApi.playlistItems "UU1" 10 = Upstream.returned [some "a", some "b"] ∧
    videoIdsOf [some "a", some "b"] = ["a", "b"] ∧
    channelStream flakyApi "now" "https://www.youtube.com/@x" 10 =
      [{ progress := some 1, total := some 2 }, { progress := some 2, total := some 2 },
        { error := some "network down" }] ∧
    ∀ e ∈ channelStream flakyApi "now" "https://www.youtube.com/@x" 10,
      e.kind ≠ EventKind.done := by
  have h : channelStream flakyApi "now" "https://www.youtube.com/@x" 10 =
      [{ progress := some 1, total := some 2 }, { progress := some 2, total := some 2 },
        { error := some "network down" }] := by decide
  refine ⟨by decide, rfl, rfl, rfl, by decide, h, ?_⟩
  rw [h]
  decide

/-- C1, amended: when the url parses, the channel resolves, the channel metadata carry
an uploads playlist, the uploads page returns `n ≥ 1` video ids and every per-item
request returns (with or without an item), the events are the `n` progress events with
`progress = 1, ..., n` and `total = n`, followed by one done event; its `videos` are the
records of the ids whose request returned an item, in upstream order, and its
`videoCount` is the length of that list. -/
theorem C1_progress_then_done (api : YouTubeApi) (now url : String) (max : ℤ)
    (parsed : ParsedChannel) (channelId : String) (cd : ChannelData) (uploadsId : String)
    (items : List (Option String))
    (hparse : parseChannelUrl url = some parsed)
    (hresolve : resolveChannelId api parsed = Except.ok channelId)
    (hchannel : api.channel channelId = Upstream.returned cd)
    (huploads : truthyStr cd.uploads = some uploadsId)
    (hpage : api.playlistItems uploadsId max = Upstream.returned items)
    (hn : 1 ≤ (videoIdsOf items).length)
    (hreturn : ∀ p ∈ (videoIdsOf items).enum, ∀ m, api.video p.1 p.2 ≠ Upstream.threw m) :
    ∃ d : ChannelDataset,
      channelStream api now url max =
        (List.range (videoIdsOf items).length).map
            (fun i => ({ progress := some (i + 1),
                         total := some (videoIdsOf items).length } : Event)) ++
          [{ progress := some (videoIdsOf items).length,
             total := some (videoIdsOf items).length, done := true, data := some d }] ∧
      d.videos = (videoIdsOf items).enum.filterMap (itemRecord api) ∧
      d.videoCount = some d.videos.length ∧
      d.channelId = channelId ∧ d.channelTitle = some (orStr cd.title "Unknown") ∧
      d.channelUrl = some url ∧ d.downloadedAt = some now ∧
      (∀ i, ({ progress := some (i + 1),
               total := some (videoIdsOf items).length } : Event).kind = EventKind.progress) ∧
      ({ progress := some (videoIdsOf items).length, total := some (videoIdsOf items).length,
         done := true, data := some d } : Event).kind = EventKind.done := by
  have hne : (videoIdsOf items).length ≠ 0 := by omega
  have hloop := fetchVideos_returned api (videoIdsOf items).length (videoIdsOf items) 0 []
    (by simpa [List.enum] using hreturn)
  refine ⟨{ channelId := channelId
            channelTitle := some (orStr cd.title "Unknown")
            channelUrl := some url
            downloadedAt := some now
            videoCount := some ((videoIdsOf items).enum.filterMap (itemRecord api)).length
            videos := (videoIdsOf items).enum.filterMap (itemRecord api) },
    ?_, rfl, rfl, rfl, rfl, rfl, rfl, fun i => kind_progressEvent i _,
    kind_doneEvent channelId (orStr cd.title "Unknown") url now _ _⟩
  simp only [channelStream, hparse, hresolve, hchannel, huploads, hpage, hloop, if_neg hne,
    List.range_eq_range', List.nil_append, List.enum]
  rfl

/-- Witness of C1 (amended): three uploads, all found: three progress events with
`progress` 1, 2, 3 and `total` 3, then a done event with `videoCount = 3`. -/
theorem C1_progress_then_done_witness :
    ∃ d : ChannelDataset,
      channelStream (threeApi true) "now" "https://www.youtube.com/@x" 10 =
        [{ progress := some 1, total := some 3 }, { progress := some 2, total := some 3 },
          { progress := some 3, total := some 3 },
          { progress := some 3, total := some 3, done := true, data := some d }] ∧
      d.videoCount = some 3 ∧ d.videos.length = 3 := by
  obtain ⟨d, h, hv, hc, -⟩ := C1_progress_then_done (threeApi true) "now"
    "https://www.youtube.com/@x" 10 ⟨ChannelType.handle, "x"⟩ "UC1"
    { uploads := some "UU1", title := some "Channel" } "UU1" [some "a", some "b", some "c"]
    (by decide) rfl rfl (by decide) rfl (by decide)
    (by intro p _ m; simp [threeApi])
  have hlen : d.videos.length = 3 := by rw [hv]; decide
  exact ⟨d, h, by rw [hc, hlen], hlen⟩

/-- C3 as stated fails: with an empty uploads page the only event is an error event
(`'No videos found'`), not a done event. -/
theorem C3_counterexample :
    resolveChannelId emptyApi ⟨ChannelType.handle, "x"⟩ = Except.ok "UC1" ∧
    emptyApi.channel "UC1" =
      Upstream.returned { uploads := some "UU1", title := some "Channel" } ∧
    emptyApi.playlistItems "UU1" 10 = Upstream.returned [] ∧
    channelStream emptyApi "now" "https://www.youtube.com/@x" 10 =
      [{ error := some "No videos found"
         data := some { channelId := "UC1", channelTitle := some "Channel", videos := [] } }] ∧
    (∀ e ∈ channelStream emptyApi "now" "https://www.youtube.com/@x" 10,
      e.kind = EventKind.error ∧ e.kind ≠ EventKind.done) := by
  have h : channelStream emptyApi "now" "https://www.youtube.com/@x" 10 =
      [{ error := some "No videos found"
         data := some { channelId := "UC1", channelTitle := some "Channel", videos := [] } }] := by
    decide
  refine ⟨rfl, rfl, rfl, h, ?_⟩
  rw [h]
  decide

/-- C3, amended: when the channel resolves, the metadata carry an uploads playlist and the
uploads page returns no video id, the only event of the run is an error event with the
message `'No videos found'`; its `data` holds the channel id, the channel title as the
upstream returned it and an empty video list.  No progress and no done event is sent. -/
theorem C3_empty_page_is_error (api : YouTubeApi) (now url : String) (max : ℤ)
    (parsed : ParsedChannel) (channelId : String) (cd : ChannelData) (uploadsId : String)
    (items : List (Option String))
    (hparse : parseChannelUrl url = some parsed)
    (hresolve : resolveChannelId api parsed = Except.ok channelId)
    (hchannel : api.channel channelId = Upstream.returned cd)
    (huploads : truthyStr cd.uploads = some uploadsId)
    (hpage : api.playlistItems uploadsId max = Upstream.returned items)
    (hzero : (videoIdsOf items).length = 0) :
    channelStream api now url max =
      [{ error := some "No videos found"
         data := some { channelId := channelId, channelTitle := cd.title, videos := [] } }] ∧
    ∀ e ∈ channelStream api now url max,
      e.kind = EventKind.error ∧ e.kind ≠ EventKind.done ∧ e.kind ≠ EventKind.progress := by
  have h : channelStream api now url max = [noVideosEvent channelId cd] := by
    simp only [channelStream, hparse, hresolve, hchannel, huploads, hpage, hzero, if_true]
  refine ⟨h, ?_⟩
  intro e he
  rw [h, List.mem_singleton] at he
  subst he
  simp [kind_noVideosEvent]

/-- Witness of C3 (amended) on an upstream with an empty uploads page. -/
theorem C3_empty_page_is_error_witness :
    channelStream emptyApi "now" "https://www.youtube.com/@x" 10 =
      [{ error := some "No videos found"
         data := some { channelId := "UC1", channelTitle := some "Channel", videos := [] } }] ∧
    ∀ e ∈ channelStream emptyApi "now" "https://www.youtube.com/@x" 10,
      e.kind = EventKind.error ∧ e.kind ≠ EventKind.done ∧ e.kind ≠ EventKind.progress :=
  C3_empty_page_is_error emptyApi "now" "https://www.youtube.com/@x" 10
    ⟨ChannelType.handle, "x"⟩ "UC1" { uploads := some "UU1", title := some "Channel" } "UU1" []
    (by decide) rfl rfl (by decide) rfl (by decide)

/-! ## The item limit -/

theorem digitChar_spec (k : ℕ) (hk : k < 10) :
    (Nat.digitChar k).isDigit = true ∧ (Nat.digitChar k).toNat - 48 = k ∧
      isJsWhiteSpace (Nat.digitChar k) = false ∧ Nat.digitChar k ≠ '-' ∧
      Nat.digitChar k ≠ '+' := by
  interval_cases k <;> decide

theorem digitsValue_append (ds : List Char) (d : Char) :
    digitsValue (ds ++ [d]) = 10 * digitsValue ds + (d.toNat - 48) := by
  simp [digitsValue, List.foldl_append]

/-- The decimal digits written by `Nat.toDigits 10`. -/
theorem toDigitsCore_spec : ∀ (fuel n : ℕ) (ds : List Char), n < fuel →
    ∃ D, Nat.toDigitsCore 10 fuel n ds = D ++ ds ∧ D ≠ [] ∧
      (∀ c ∈ D, c.isDigit = true ∧ isJsWhiteSpace c = false ∧ c ≠ '-' ∧ c ≠ '+') ∧
      digitsValue D = n := by
  intro fuel
  induction fuel with
  | zero => intro n ds h; omega
  | succ fuel ih =>
    intro n ds h
    have hd := digitChar_spec (n % 10) (Nat.mod_lt _ (by norm_num))
    rw [Nat.toDigitsCore]
    by_cases h0 : n / 10 = 0
    · refine ⟨[Nat.digitChar (n % 10)], by simp [h0], by simp, ?_, ?_⟩
      · intro c hc
        rw [List.mem_singleton] at hc
        subst hc
        exact ⟨hd.1, hd.2.2.1, hd.2.2.2.1, hd.2.2.2.2⟩
      · simp only [digitsValue, List.foldl_cons, List.foldl_nil, mul_zero, zero_add]
        rw [hd.2.1]; omega
    · obtain ⟨D, hD, hne, hall, hval⟩ := ih (n / 10) (Nat.digitChar (n % 10) :: ds) (by omega)
      refine ⟨D ++ [Nat.digitChar (n % 10)], by simp [h0, hD], by simp, ?_, ?_⟩
      · intro c hc
        rcases List.mem_append.1 hc with hc | hc
        · exact hall c hc
        · rw [List.mem_singleton] at hc
          subst hc
          exact ⟨hd.1, hd.2.2.1, hd.2.2.2.1, hd.2.2.2.2⟩
      · rw [digitsValue_append, hval, hd.2.1]; omega

theorem toDigits_spec (n : ℕ) :
    Nat.toDigits 10 n ≠ [] ∧
      (∀ c ∈ Nat.toDigits 10 n,
        c.isDigit = true ∧ isJsWhiteSpace c = false ∧ c ≠ '-' ∧ c ≠ '+') ∧
      digitsValue (Nat.toDigits 10 n) = n := by
  obtain ⟨D, hD, hne, hall, hval⟩ := toDigitsCore_spec (n + 1) n [] (by omega)
  rw [Nat.toDigits, hD, List.append_nil]
  exact ⟨hne, hall, hval⟩

theorem takeWhile_all {p : Char → Bool} (l : List Char) (h : ∀ c ∈ l, p c = true) :
    l.takeWhile p = l := by
  induction l with
  | nil => rfl
  | cons a l ih =>
    rw [List.takeWhile_cons_of_pos (h a (by simp)), ih (fun c hc => h c (by simp [hc]))]

/-- `parseInt` reads back the decimal writing of a natural number. -/
theorem parseInt_toDigits (n : ℕ) : parseInt (Nat.toDigits 10 n) = some (n : ℤ) := by
  obtain ⟨hne, hall, hval⟩ := toDigits_spec n
  cases hl : Nat.toDigits 10 n with
  | nil => exact absurd hl hne
  | cons c cs =>
    rw [hl] at hall hval
    have hc := hall c (by simp)
    have htw : (c :: cs).takeWhile Char.isDigit = c :: cs :=
      takeWhile_all _ (fun d hd => (hall d hd).1)
    have hdw : (c :: cs).dropWhile isJsWhiteSpace = c :: cs := by
      simp [List.dropWhile, hc.2.1]
    unfold parseInt
    rw [hdw]
    split
    · next r heq => simp only [List.cons.injEq] at heq; exact absurd heq.1 hc.2.2.1
    · next r heq => simp only [List.cons.injEq] at heq; exact absurd heq.1 hc.2.2.2
    · simp only [htw, hval]
      simp

theorem parseInt_jsIntString (n : ℤ) : parseInt (jsIntString n) = some n := by
  unfold jsIntString
  split_ifs with hneg
  · obtain ⟨hne, hall, hval⟩ := toDigits_spec n.natAbs
    have htw : (Nat.toDigits 10 n.natAbs).takeWhile Char.isDigit = Nat.toDigits 10 n.natAbs :=
      takeWhile_all _ (fun d hd => (hall d hd).1)
    unfold parseInt
    have hdw : ('-' :: Nat.toDigits 10 n.natAbs).dropWhile isJsWhiteSpace =
        '-' :: Nat.toDigits 10 n.natAbs := by
      rw [List.dropWhile_cons_of_neg (by decide)]
    rw [hdw]
    simp only [htw, hval, hne, if_false, if_true]
    congr 1
    omega
  · rw [parseInt_toDigits]
    congr 1
    omega

theorem jsIntString_ne_nil (n : ℤ) : String.mk (jsIntString n) ≠ "" := by
  intro h
  have h' : jsIntString n = [] := congrArg String.data h
  unfold jsIntString at h'
  split_ifs at h'
  exact (toDigits_spec n.natAbs).1 h'

/-- C4: for the decimal string of every integer `n` other than 0 the limit computed by
the server and by the client is `min(100, max(1, n))`; for `n = 0` it is 10, whereas the
clamp of 0 is 1 (`max=0`, `maxVideos=0` and `0` typed in the form all give 10). -/
theorem C4_zero_limit_is_ten :
    (channelMax { max := some "0" } = 10 ∧ channelMax { maxVideos := some "0" } = 10 ∧
      clientMax "0" = 10 ∧ min (100 : ℤ) (max 1 0) = 1) ∧
    ∀ n : ℤ,
      channelMax { max := some (String.mk (jsIntString n)) } =
        (if n = 0 then 10 else min 100 (max 1 n)) ∧
      clientMax (String.mk (jsIntString n)) = (if n = 0 then 10 else min 100 (max 1 n)) := by
  refine ⟨by decide, ?_⟩
  intro n
  have hp := parseInt_jsIntString n
  have hne := jsIntString_ne_nil n
  constructor
  · simp only [channelMax, truthyStr, hne, if_false, Option.some_orElse, orStr, hp, orNum]
    split_ifs <;> simp_all
  · simp only [clientMax, hp, orNum]
    split_ifs <;> simp_all

/-! ## Summary statistics -/

theorem Math_round_bounds (x : ℚ) :
    (Math_round x : ℚ) - 1 / 2 ≤ x ∧ x < Math_round x + 1 / 2 := by
  unfold Math_round
  have h1 := Int.floor_le (x + 1 / 2)
  have h2 := Int.lt_floor_add_one (x + 1 / 2)
  constructor <;> linarith

theorem Math_round_intCast (k : ℤ) : Math_round (k : ℚ) = k := by
  unfold Math_round
  rw [Int.floor_eq_iff]
  constructor <;> norm_num

theorem foldl_min_spec (vs : List ℚ) (v : ℚ) :
    vs.foldl min v ∈ v :: vs ∧ ∀ x ∈ v :: vs, vs.foldl min v ≤ x := by
  induction vs generalizing v with
  | nil => simp
  | cons a vs ih =>
    obtain ⟨hm, hl⟩ := ih (min v a)
    simp only [List.foldl_cons]
    constructor
    · rcases List.mem_cons.1 hm with h | h
      · rw [h]
        rcases min_choice v a with h' | h' <;> simp [h']
      · simp [h]
    · intro x hx
      have hmin := hl (min v a) (by simp)
      rcases List.mem_cons.1 hx with h | h
      · rw [h]; exact hmin.trans (min_le_left _ _)
      · rcases List.mem_cons.1 h with h | h
        · rw [h]; exact hmin.trans (min_le_right _ _)
        · exact hl x (by simp [h])

theorem foldl_max_spec (vs : List ℚ) (v : ℚ) :
    vs.foldl max v ∈ v :: vs ∧ ∀ x ∈ v :: vs, x ≤ vs.foldl max v := by
  induction vs generalizing v with
  | nil => simp
  | cons a vs ih =>
    obtain ⟨hm, hl⟩ := ih (max v a)
    simp only [List.foldl_cons]
    constructor
    · rcases List.mem_cons.1 hm with h | h
      · rw [h]
        rcases max_choice v a with h' | h' <;> simp [h']
      · simp [h]
    · intro x hx
      have hmax := hl (max v a) (by simp)
      rcases List.mem_cons.1 hx with h | h
      · rw [h]; exact (le_max_left _ _).trans hmax
      · rcases List.mem_cons.1 h with h | h
        · rw [h]; exact (le_max_right _ _).trans hmax
        · exact hl x (by simp [h])

theorem Math_min_spec {values : List ℚ} (h : values ≠ []) :
    Math_min values ∈ values ∧ ∀ x ∈ values, Math_min values ≤ x := by
  cases values with
  | nil => exact absurd rfl h
  | cons v vs => exact foldl_min_spec vs v

theorem Math_max_spec {values : List ℚ} (h : values ≠ []) :
    Math_max values ∈ values ∧ ∀ x ∈ values, x ≤ Math_max values := by
  cases values with
  | nil => exact absurd rfl h
  | cons v vs => exact foldl_max_spec vs v

theorem getProperty_number {o : JsObject} {key : String} {q : ℚ}
    (h : getProperty o key = JsValue.number q) : hasProperty o key = true := by
  unfold getProperty at h
  unfold hasProperty
  cases hl : o.lookup key with
  | some v => simp
  | none =>
    rw [hl] at h
    simp only at h
    split_ifs at h

/-- When every record carries a number in the requested field, that field is the one
aggregated and the values are these numbers, in dataset order. -/
theorem statValues_numbers (field_name : Option String) (videos : List JsObject)
    (xs : List ℚ) (hne : videos ≠ [])
    (hvals : videos.map (fun v => getProperty v (statsField field_name)) =
      xs.map JsValue.number) :
    statsKey field_name videos = statsField field_name ∧
    statValues (statsKey field_name videos) videos = xs := by
  have hkey : statsKey field_name videos = statsField field_name := by
    cases videos with
    | nil => exact absurd rfl hne
    | cons v vs =>
      cases xs with
      | nil => simp at hvals
      | cons x xs =>
        simp only [List.map_cons, List.cons.injEq] at hvals
        simp [statsKey, getProperty_number hvals.1]
  refine ⟨hkey, ?_⟩
  rw [hkey]
  have h2 : videos.map (fun v => statValue (statsField field_name)
      (getProperty v (statsField field_name))) = xs.map some := by
    have e : (fun v => statValue (statsField field_name)
        (getProperty v (statsField field_name))) =
        statValue (statsField field_name) ∘ fun v => getProperty v (statsField field_name) :=
      rfl
    rw [e, ← List.map_map, hvals, List.map_map]
    exact List.map_congr_left fun x _ => rfl
  simp [statValues, h2]

theorem compute_stats_json_ok (field_name : Option String) (videos : List JsObject)
    (h : statValues (statsKey field_name videos) videos ≠ []) :
    compute_stats_json field_name videos =
      Except.ok (summarize (statsKey field_name videos)
        (statValues (statsKey field_name videos) videos)) := by
  unfold compute_stats_json
  simp only
  rw [if_neg]
  simpa [List.length_eq_zero] using h

/-! ## Binary64 arithmetic: rounding -/

theorem roundHalfEven_intCast (k : ℤ) : roundHalfEven (k : ℚ) = k := by
  simp [roundHalfEven]

theorem roundHalfEven_near (q : ℚ) : |(roundHalfEven q : ℚ) - q| ≤ 1 / 2 := by
  have h1 := Int.floor_le q
  have h2 := Int.lt_floor_add_one q
  unfold roundHalfEven
  rw [abs_le]
  split_ifs <;> push_cast <;> constructor <;> linarith

theorem log_two_eq {r : ℚ} {e : ℤ} (hr : 0 < r) (h1 : (2 : ℚ) ^ e ≤ r)
    (h2 : r < (2 : ℚ) ^ (e + 1)) : Int.log 2 r = e := by
  have ha : e ≤ Int.log 2 r :=
    (Int.zpow_le_iff_le_log (by norm_num) hr).1 (by exact_mod_cast h1)
  have hb : Int.log 2 r < e + 1 :=
    (Int.lt_zpow_iff_log_lt (by norm_num) hr).1 (by exact_mod_cast h2)
  omega

theorem ulp_pos (x : ℚ) : 0 < ulp x := by
  unfold ulp
  positivity

theorem toDouble_exact (x : ℚ) (k : ℤ) (hk : x / ulp x = k)
    (hfin : |x| < (2 : ℚ) ^ (1024 : ℕ)) : toDouble x = some x := by
  have hx : (k : ℚ) * ulp x = x := by
    rw [← hk]
    exact div_mul_cancel₀ _ (ulp_pos x).ne'
  unfold toDouble
  rw [hk, roundHalfEven_intCast, hx, if_neg (not_le.2 hfin)]

theorem binaryExponent_of_exponent {x : ℚ} {e : ℤ} (he : -1022 ≤ e) (h1 : (2 : ℚ) ^ e ≤ |x|)
    (h2 : |x| < (2 : ℚ) ^ (e + 1)) : binaryExponent x = e := by
  have hpos : 0 < |x| := lt_of_lt_of_le (by positivity) h1
  unfold binaryExponent
  rw [log_two_eq hpos h1 h2]
  exact max_eq_left he

/-- Evaluation of `toDouble` once the binary exponent of `x` is known. -/
theorem toDouble_of_exponent (x : ℚ) (e : ℤ) (he : -1022 ≤ e) (h1 : (2 : ℚ) ^ e ≤ |x|)
    (h2 : |x| < (2 : ℚ) ^ (e + 1)) :
    toDouble x =
      if (2 : ℚ) ^ (1024 : ℕ) ≤ |(roundHalfEven (x / (2 : ℚ) ^ (e - 52)) : ℚ) * (2 : ℚ) ^ (e - 52)|
      then none
      else some ((roundHalfEven (x / (2 : ℚ) ^ (e - 52)) : ℚ) * (2 : ℚ) ^ (e - 52)) := by
  unfold toDouble ulp
  rw [binaryExponent_of_exponent he h1 h2]

theorem toDouble_zero : toDouble 0 = some 0 :=
  toDouble_exact 0 0 (by simp) (by positivity)

/-- A dyadic rational `a / 2 ^ j` with `|a| < 2 ^ 53` and `j ≤ 1074` is a binary64
number. -/
theorem toDouble_dyadic (a : ℤ) (j : ℕ) (ha : |a| < 2 ^ 53) (hj : j ≤ 1074) :
    toDouble ((a : ℚ) / 2 ^ j) = some ((a : ℚ) / 2 ^ j) := by
  by_cases ha0 : a = 0
  · subst ha0
    simpa using toDouble_zero
  have hapos : (0 : ℚ) < |(a : ℚ)| := abs_pos.2 (by exact_mod_cast ha0)
  have habs : |(a : ℚ) / 2 ^ j| = |(a : ℚ)| / 2 ^ j := by
    rw [abs_div, abs_of_pos (by positivity : (0 : ℚ) < 2 ^ j)]
  have hxpos : 0 < |(a : ℚ) / 2 ^ j| := by rw [habs]; positivity
  have haq : |(a : ℚ)| < 2 ^ 53 := by exact_mod_cast ha
  have hlt : |(a : ℚ) / 2 ^ j| < (2 : ℚ) ^ ((53 : ℤ) - j) := by
    rw [habs, zpow_sub₀ (by norm_num), zpow_natCast]
    exact div_lt_div_of_pos_right (by exact_mod_cast haq) (by positivity)
  have hlog : Int.log 2 |(a : ℚ) / 2 ^ j| < 53 - j :=
    (Int.lt_zpow_iff_log_lt (by norm_num) hxpos).1 (by exact_mod_cast hlt)
  have hE : binaryExponent ((a : ℚ) / 2 ^ j) ≤ 52 - j := by
    unfold binaryExponent
    apply max_le <;> omega
  obtain ⟨d, hd⟩ : ∃ d : ℕ, (d : ℤ) = 52 - j - binaryExponent ((a : ℚ) / 2 ^ j) :=
    ⟨(52 - j - binaryExponent ((a : ℚ) / 2 ^ j)).toNat, Int.toNat_of_nonneg (by omega)⟩
  have hfin : |(a : ℚ) / 2 ^ j| < (2 : ℚ) ^ (1024 : ℕ) := by
    rw [habs]
    calc |(a : ℚ)| / 2 ^ j ≤ |(a : ℚ)| := div_le_self (abs_nonneg _) (one_le_pow₀ (by norm_num))
      _ < 2 ^ 53 := haq
      _ < 2 ^ 1024 := by norm_num
  apply toDouble_exact _ (a * 2 ^ d) _ hfin
  unfold ulp
  have hexp : binaryExponent ((a : ℚ) / 2 ^ j) - 52 = -(j : ℤ) - d := by omega
  rw [hexp, zpow_sub₀ (by norm_num), zpow_neg, zpow_natCast, zpow_natCast]
  push_cast
  field_simp
  ring

theorem toDouble_intCast (k : ℤ) (hk : |k| < 2 ^ 53) : toDouble (k : ℚ) = some (k : ℚ) := by
  simpa using toDouble_dyadic k 0 hk (by norm_num)

theorem toDouble_natCast (n : ℕ) (hn : n < 2 ^ 53) : toDouble (n : ℚ) = some (n : ℚ) := by
  have := toDouble_intCast (n : ℤ) (by rw [abs_of_nonneg (by positivity)]; exact_mod_cast hn)
  simpa using this

/-- In the normal range rounding to binary64 changes a number by at most the fraction
`2 ^ (-53)` of its size. -/
theorem toDouble_near (x : ℚ) (h1 : (2 : ℚ) ^ (-1022 : ℤ) ≤ |x|) (h2 : |x| ≤ (2 : ℚ) ^ (1023 : ℕ)) :
    ∃ y : ℚ, toDouble x = some y ∧ |y - x| ≤ |x| / 2 ^ 53 := by
  have hpos : 0 < |x| := lt_of_lt_of_le (by positivity) h1
  have hlo : (-1022 : ℤ) ≤ Int.log 2 |x| :=
    (Int.zpow_le_iff_le_log (by norm_num) hpos).1 (by exact_mod_cast h1)
  have hE : binaryExponent x = Int.log 2 |x| := max_eq_left hlo
  have hle : (2 : ℚ) ^ Int.log 2 |x| ≤ |x| := by
    have := Int.zpow_log_le_self (b := 2) (by norm_num) hpos
    exact_mod_cast this
  have hu : ulp x = (2 : ℚ) ^ Int.log 2 |x| / 2 ^ 52 := by
    unfold ulp
    rw [hE, zpow_sub₀ (by norm_num)]
    norm_num
  have hupos := ulp_pos x
  have hnear := roundHalfEven_near (x / ulp x)
  have hdist : |(roundHalfEven (x / ulp x) : ℚ) * ulp x - x| ≤ ulp x / 2 := by
    have e : (roundHalfEven (x / ulp x) : ℚ) * ulp x - x =
        ((roundHalfEven (x / ulp x) : ℚ) - x / ulp x) * ulp x := by
      field_simp
    rw [e, abs_mul, abs_of_pos hupos]
    calc |(roundHalfEven (x / ulp x) : ℚ) - x / ulp x| * ulp x ≤ 1 / 2 * ulp x :=
          mul_le_mul_of_nonneg_right hnear hupos.le
      _ = ulp x / 2 := by ring
  have hub : ulp x / 2 ≤ |x| / 2 ^ 53 := by
    rw [hu]
    rw [div_div, div_le_div_iff₀ (by positivity) (by positivity)]
    nlinarith
  refine ⟨(roundHalfEven (x / ulp x) : ℚ) * ulp x, ?_, hdist.trans hub⟩
  unfold toDouble
  rw [if_neg]
  rw [not_le]
  have habs : |(roundHalfEven (x / ulp x) : ℚ) * ulp x| ≤ |x| + |x| / 2 ^ 53 := by
    have := abs_sub_abs_le_abs_sub ((roundHalfEven (x / ulp x) : ℚ) * ulp x) x
    linarith [hdist.trans hub]
  have : |x| + |x| / 2 ^ 53 < (2 : ℚ) ^ (1024 : ℕ) := by
    have h3 : |x| / 2 ^ 53 ≤ (2 : ℚ) ^ (1023 : ℕ) / 2 ^ 53 :=
      div_le_div_of_nonneg_right h2 (by positivity)
    have h4 : (2 : ℚ) ^ (1023 : ℕ) / 2 ^ 53 < (2 : ℚ) ^ (1023 : ℕ) := by
      apply div_lt_self (by positivity)
      norm_num
    have h5 : (2 : ℚ) ^ (1024 : ℕ) = 2 * (2 : ℚ) ^ (1023 : ℕ) := by
      rw [pow_succ]; ring
    linarith
  linarith

theorem roundHalfEven_of_lt (q : ℚ) (k : ℤ) (h1 : q - 1 / 2 < k) (h2 : (k : ℚ) < q + 1 / 2) :
    roundHalfEven q = k := by
  have hf1 := Int.floor_le q
  have hf2 := Int.lt_floor_add_one q
  unfold roundHalfEven
  split_ifs with ha hb hc
  · have h3 : (⌊q⌋ : ℚ) - 1 < k := by linarith
    have h4 : (k : ℚ) < ⌊q⌋ + 1 := by linarith
    have h5 : ⌊q⌋ - 1 < k := by exact_mod_cast h3
    have h6 : k < ⌊q⌋ + 1 := by exact_mod_cast h4
    omega
  · have h3 : (⌊q⌋ : ℚ) < k := by linarith
    have h4 : (k : ℚ) < ⌊q⌋ + 2 := by linarith
    have h5 : ⌊q⌋ < k := by exact_mod_cast h3
    have h6 : k < ⌊q⌋ + 2 := by exact_mod_cast h4
    omega
  · exfalso
    have h3 : (⌊q⌋ : ℚ) < k := by linarith
    have h4 : (k : ℚ) < ⌊q⌋ + 1 := by linarith
    have h5 : ⌊q⌋ < k := by exact_mod_cast h3
    have h6 : k < ⌊q⌋ + 1 := by exact_mod_cast h4
    omega
  · exfalso
    have h3 : (⌊q⌋ : ℚ) < k := by linarith
    have h4 : (k : ℚ) < ⌊q⌋ + 1 := by linarith
    have h5 : ⌊q⌋ < k := by exact_mod_cast h3
    have h6 : k < ⌊q⌋ + 1 := by exact_mod_cast h4
    omega

theorem roundHalfEven_tie (f : ℤ) :
    roundHalfEven ((f : ℚ) + 1 / 2) = if f % 2 = 0 then f else f + 1 := by
  have hfl : ⌊(f : ℚ) + 1 / 2⌋ = f := by
    rw [Int.floor_eq_iff]
    constructor <;> norm_num
  unfold roundHalfEven
  rw [hfl]
  norm_num

/-- Evaluation of `toDouble` from the binary exponent `e` of `x` and the rounded
significand `k`. -/
theorem toDouble_eval (x : ℚ) (e k : ℤ) (he : -1022 ≤ e) (he2 : e ≤ 1022)
    (h1 : (2 : ℚ) ^ e ≤ |x|) (h2 : |x| < (2 : ℚ) ^ (e + 1))
    (hk : roundHalfEven (x / (2 : ℚ) ^ (e - 52)) = k) :
    toDouble x = some ((k : ℚ) * (2 : ℚ) ^ (e - 52)) := by
  have hE := binaryExponent_of_exponent he h1 h2
  have hu : ulp x = (2 : ℚ) ^ (e - 52) := by unfold ulp; rw [hE]
  have hupos := ulp_pos x
  have hnear := roundHalfEven_near (x / ulp x)
  rw [hu, hk] at hnear
  rw [hu] at hupos
  have hdist : |(k : ℚ) * (2 : ℚ) ^ (e - 52) - x| ≤ (2 : ℚ) ^ (e - 52) / 2 := by
    have e' : (k : ℚ) * (2 : ℚ) ^ (e - 52) - x =
        ((k : ℚ) - x / (2 : ℚ) ^ (e - 52)) * (2 : ℚ) ^ (e - 52) := by
      field_simp
    rw [e', abs_mul, abs_of_pos hupos]
    calc |(k : ℚ) - x / (2 : ℚ) ^ (e - 52)| * (2 : ℚ) ^ (e - 52)
          ≤ 1 / 2 * (2 : ℚ) ^ (e - 52) := mul_le_mul_of_nonneg_right hnear hupos.le
      _ = (2 : ℚ) ^ (e - 52) / 2 := by ring
  have hule : (2 : ℚ) ^ (e - 52) ≤ (2 : ℚ) ^ (e + 1) :=
    zpow_le_zpow_right₀ (by norm_num) (by omega)
  have htop : (2 : ℚ) ^ (e + 1) ≤ (2 : ℚ) ^ (1023 : ℤ) :=
    zpow_le_zpow_right₀ (by norm_num) (by omega)
  have h1024 : (2 : ℚ) ^ (1024 : ℕ) = 2 * (2 : ℚ) ^ (1023 : ℤ) := by
    have : (2 : ℚ) ^ (1023 : ℤ) = (2 : ℚ) ^ (1023 : ℕ) := zpow_natCast 2 1023
    rw [this, pow_succ]; ring
  have habs := abs_sub_abs_le_abs_sub ((k : ℚ) * (2 : ℚ) ^ (e - 52)) x
  unfold toDouble
  rw [hu, hk, if_neg]
  rw [not_le, h1024]
  have hp : (0 : ℚ) < (2 : ℚ) ^ (e + 1) := by positivity
  linarith

theorem toDouble_two_pow_53_succ : toDouble 9007199254740993 = some 9007199254740992 := by
  rw [toDouble_eval _ 53 4503599627370496 (by norm_num) (by norm_num) (by norm_num) (by norm_num)
    (by have := roundHalfEven_tie 4503599627370496; norm_num at this ⊢; exact this)]
  norm_num

theorem toDouble_two_pow_53 : toDouble 9007199254740992 = some 9007199254740992 := by
  rw [toDouble_eval _ 53 4503599627370496 (by norm_num) (by norm_num) (by norm_num) (by norm_num)
    (roundHalfEven_of_lt _ _ (by norm_num) (by norm_num))]
  norm_num

theorem addD_some (x y : ℚ) : addD (some x) (some y) = toDouble (x + y) := rfl

theorem mulD_some (x y : ℚ) : mulD (some x) (some y) = toDouble (x * y) := rfl

theorem divD_some (x n : ℚ) : divD (some x) n = toDouble (x / n) := rfl

/-! ## Summary statistics in binary64 -/

/-- When every record carries a number in the requested field, that field is the one
aggregated and the values are these numbers, in dataset order. -/
theorem statValuesDouble_numbers (field_name : Option String) (videos : List JsObject)
    (xs : List ℚ) (hne : videos ≠ [])
    (hvals : videos.map (fun v => getProperty v (statsField field_name)) =
      xs.map JsValue.number) :
    statsKey field_name videos = statsField field_name ∧
    statValuesDouble (statsKey field_name videos) videos = xs := by
  have hkey := (statValues_numbers field_name videos xs hne hvals).1
  refine ⟨hkey, ?_⟩
  rw [hkey]
  have h2 : videos.map (fun v => statValueDouble (statsField field_name)
      (getProperty v (statsField field_name))) = xs.map some := by
    have e : (fun v => statValueDouble (statsField field_name)
        (getProperty v (statsField field_name))) =
        statValueDouble (statsField field_name) ∘
          fun v => getProperty v (statsField field_name) :=
      rfl
    rw [e, ← List.map_map, hvals, List.map_map]
    exact List.map_congr_left fun x _ => rfl
  simp [statValuesDouble, h2]

/-- The statistics in binary64 of a dataset whose records all carry a number in the
requested field. -/
theorem compute_stats_json_double_numbers (M : Approximated) (field_name : Option String)
    (videos : List JsObject) (xs : List ℚ) (hne : xs ≠ [])
    (hvals : videos.map (fun v => getProperty v (statsField field_name)) =
      xs.map JsValue.number) :
    compute_stats_json_double M field_name videos =
      Except.ok (summarizeDouble M (statsField field_name) xs) := by
  have hvne : videos ≠ [] := by
    intro h
    rw [h] at hvals
    exact hne (List.map_eq_nil_iff.1 hvals.symm)
  obtain ⟨hkey, hv⟩ := statValuesDouble_numbers field_name videos xs hvne hvals
  unfold compute_stats_json_double
  simp only
  rw [hv, hkey, if_neg]
  simpa [List.length_eq_zero] using hne

/-- Additions of natural numbers are exact in binary64 while the sum stays below
`2 ^ 53`. -/
theorem foldl_addD_natCast (xs : List ℕ) (acc : ℕ) (h : acc + xs.sum < 2 ^ 53) :
    (xs.map fun n : ℕ => (n : ℚ)).foldl (fun a b => addD a (some b)) (some (acc : ℚ)) =
      some ((acc + xs.sum : ℕ) : ℚ) := by
  induction xs generalizing acc with
  | nil => simp
  | cons x xs ih =>
    simp only [List.map_cons, List.foldl_cons, List.sum_cons] at h ⊢
    have hx : addD (some (acc : ℚ)) (some (x : ℚ)) = some ((acc + x : ℕ) : ℚ) := by
      have := toDouble_natCast (acc + x) (by omega)
      simp only [addD]
      push_cast at this ⊢
      exact this
    rw [hx, ih (acc + x) (by omega)]
    congr 2
    omega

theorem sumDouble_natCast (xs : List ℕ) (h : xs.sum < 2 ^ 53) :
    sumDouble (xs.map fun n : ℕ => (n : ℚ)) = some ((xs.sum : ℕ) : ℚ) := by
  have := foldl_addD_natCast xs 0 (by omega)
  simpa [sumDouble] using this

/-- A natural number `a` with `100 * a < 2 ^ 53` is left as it is by
`Math.round(a * 100) / 100`. -/
theorem roundHundredths_natCast (a : ℕ) (ha : 100 * a < 2 ^ 53) :
    roundHundredths (some (a : ℚ)) = some (a : ℚ) := by
  have h1 : toDouble ((a : ℚ) * 100) = some (((a * 100 : ℕ) : ℤ) : ℚ) := by
    have := toDouble_natCast (a * 100) (by omega)
    push_cast at this ⊢
    exact this
  have h2 : toDouble ((((a * 100 : ℕ) : ℤ) : ℚ) / 100) = some (a : ℚ) := by
    have := toDouble_natCast a (by omega)
    rw [← this]
    congr 1
    push_cast
    field_simp
  simp only [roundHundredths, mulD, h1, roundD, Option.map_some', Math_round_intCast, divD, h2]

/-- The average of two natural numbers `a`, `b` with `100 * a, 100 * b < 2 ^ 53` is
computed exactly and left as it is by `Math.round(x * 100) / 100`. -/
theorem roundHundredths_average (a b : ℕ) (ha : 100 * a < 2 ^ 53) (hb : 100 * b < 2 ^ 53) :
    roundHundredths (divD (addD (some (a : ℚ)) (some (b : ℚ))) 2) =
      some (((a : ℚ) + b) / 2) := by
  have h0 : toDouble ((a : ℚ) + b) = some ((a : ℚ) + b) := by
    have := toDouble_natCast (a + b) (by omega)
    simpa using this
  have hhalf : toDouble (((a : ℚ) + b) / 2) = some (((a : ℚ) + b) / 2) := by
    have := toDouble_dyadic ((a + b : ℕ) : ℤ) 1
      (by rw [abs_of_nonneg (by positivity)]; exact_mod_cast (by omega : a + b < 2 ^ 53))
      (by norm_num)
    simpa using this
  have h1 : toDouble (((a : ℚ) + b) / 2 * 100) = some ((((a + b) * 50 : ℕ) : ℤ) : ℚ) := by
    have := toDouble_natCast ((a + b) * 50) (by omega)
    push_cast at this ⊢
    rw [← this]
    congr 1
    ring
  have h2 : toDouble (((((a + b) * 50 : ℕ) : ℤ) : ℚ) / 100) = some (((a : ℚ) + b) / 2) := by
    rw [← hhalf]
    congr 1
    push_cast
    ring
  simp only [addD, h0, divD, hhalf, roundHundredths, mulD, h1, roundD, Option.map_some',
    Math_round_intCast, h2]

theorem getD_natCast_mem (xs : List ℕ) (sorted : List ℚ)
    (hperm : sorted.Perm (xs.map fun n : ℕ => (n : ℚ))) (i : ℕ) :
    ∃ n : ℕ, (n ∈ xs ∨ n = 0) ∧ sorted.getD i 0 = (n : ℚ) := by
  by_cases hi : i < sorted.length
  · have hmem : sorted.getD i 0 ∈ sorted := by
      rw [List.getD_eq_getElem _ _ hi]
      exact List.getElem_mem hi
    have := hperm.subset hmem
    simp only [List.mem_map] at this
    obtain ⟨n, hn, hn'⟩ := this
    exact ⟨n, Or.inl hn, hn'.symm⟩
  · exact ⟨0, Or.inr rfl, by rw [List.getD_eq_default _ _ (not_lt.1 hi)]; simp⟩

/-- A number between `2 ^ (-40)` and `2 ^ 62` in size lies in the normal range of
binary64: rounding changes it by at most the fraction `2 ^ (-53)` of its size. -/
theorem toDouble_near_of_bounds (x : ℚ) (h1 : 1 / 2 ^ 40 ≤ |x|) (h2 : |x| ≤ 2 ^ 62) :
    ∃ y : ℚ, toDouble x = some y ∧ |y - x| ≤ |x| / 2 ^ 53 := by
  have hL : (2 : ℚ) ^ (-1022 : ℤ) ≤ 1 / 2 ^ 40 := by
    have h := zpow_le_zpow_right₀ (a := (2 : ℚ)) (by norm_num) (show (-1022 : ℤ) ≤ -40 by norm_num)
    have e : (2 : ℚ) ^ (-40 : ℤ) = 1 / 2 ^ 40 := by
      rw [zpow_neg, one_div]
      norm_cast
    rwa [e] at h
  have hU : (2 : ℚ) ^ 62 ≤ (2 : ℚ) ^ (1023 : ℕ) := pow_le_pow_right₀ (by norm_num) (by norm_num)
  exact toDouble_near x (hL.trans h1) (h2.trans hU)

/-- The mean of natural numbers with an exact sum `S` over `n` values, and its rounding
to hundredths by `Math.round(mean * 100) / 100`, all in binary64: the result is the Number
nearest to `m / 100` for an integer `m` at most `1/2 + 100 * (S / n) / 2 ^ 51` away from
`100 * (S / n)`. -/
theorem roundHundredths_mean (S n : ℕ) (hn0 : 0 < n) (hn : n < 2 ^ 32) (hS : S < 2 ^ 53) :
    ∃ m : ℤ, ∃ d : ℚ, roundHundredths (divD (some (S : ℚ)) (n : ℚ)) = some d ∧
      toDouble ((m : ℚ) / 100) = some d ∧
      |(m : ℚ) - 100 * ((S : ℚ) / n)| ≤ 1 / 2 + 100 * ((S : ℚ) / n) / 2 ^ 51 := by
  by_cases hS0 : S = 0
  · subst hS0
    refine ⟨0, 0, ?_, by simpa using toDouble_zero, by norm_num⟩
    have h := roundHundredths_natCast 0 (by norm_num)
    simpa [divD, toDouble_zero] using h
  have hnq : (0 : ℚ) < (n : ℚ) := by exact_mod_cast hn0
  have hn1 : (1 : ℚ) ≤ (n : ℚ) := by exact_mod_cast hn0
  have hnq2 : (n : ℚ) < 2 ^ 32 := by exact_mod_cast hn
  have hS1 : (1 : ℚ) ≤ (S : ℚ) := by exact_mod_cast Nat.one_le_iff_ne_zero.2 hS0
  have hSq : (S : ℚ) < 2 ^ 53 := by exact_mod_cast hS
  have hμlo : 1 / 2 ^ 32 ≤ (S : ℚ) / n := by
    rw [div_le_div_iff₀ (by positivity) hnq]
    nlinarith
  have hμhi : (S : ℚ) / n ≤ 2 ^ 53 := (div_le_self (by positivity) hn1).trans hSq.le
  have hμpos : 0 < (S : ℚ) / n := by positivity
  obtain ⟨y, hy, hdy⟩ := toDouble_near_of_bounds ((S : ℚ) / n)
    (by rw [abs_of_pos hμpos]; exact le_trans (by norm_num) hμlo)
    (by rw [abs_of_pos hμpos]; exact hμhi.trans (by norm_num))
  rw [abs_of_pos hμpos, abs_le] at hdy
  obtain ⟨hdy1, hdy2⟩ := hdy
  have hylo : 1 / 2 ^ 33 ≤ y := by
    have : (S : ℚ) / n / 2 ^ 53 ≤ (S : ℚ) / n / 2 := by
      apply div_le_div_of_nonneg_left hμpos.le (by norm_num) (by norm_num)
    have e : (1 : ℚ) / 2 ^ 33 = 1 / 2 ^ 32 / 2 := by norm_num
    linarith
  have hyhi : y ≤ 2 * ((S : ℚ) / n) := by
    have : (S : ℚ) / n / 2 ^ 53 ≤ (S : ℚ) / n := div_le_self hμpos.le (by norm_num)
    linarith
  have hypos : 0 < y := lt_of_lt_of_le (by norm_num) hylo
  have hy100 : 0 < y * 100 := by positivity
  obtain ⟨p, hp, hdp⟩ := toDouble_near_of_bounds (y * 100)
    (by rw [abs_of_pos hy100]; linarith [show (1 : ℚ) / 2 ^ 40 ≤ 1 / 2 ^ 33 * 100 by norm_num])
    (by rw [abs_of_pos hy100]; linarith [show (2 : ℚ) * 2 ^ 53 * 100 ≤ 2 ^ 62 by norm_num])
  rw [abs_of_pos hy100, abs_le] at hdp
  obtain ⟨hdp1, hdp2⟩ := hdp
  obtain ⟨hm1, hm2⟩ := Math_round_bounds p
  have hyd : y * 100 / 2 ^ 53 ≤ 2 * (100 * ((S : ℚ) / n) / 2 ^ 53) := by
    have : y * 100 / 2 ^ 53 ≤ 2 * ((S : ℚ) / n) * 100 / 2 ^ 53 :=
      div_le_div_of_nonneg_right (by linarith) (by norm_num)
    linarith
  have e51 : 100 * ((S : ℚ) / n) / 2 ^ 51 = 4 * (100 * ((S : ℚ) / n) / 2 ^ 53) := by
    ring
  have hbound : |(Math_round p : ℚ) - 100 * ((S : ℚ) / n)| ≤
      1 / 2 + 100 * ((S : ℚ) / n) / 2 ^ 51 := by
    have hq : 0 ≤ 100 * ((S : ℚ) / n) / 2 ^ 53 := by positivity
    have e1 : (S : ℚ) / n / 2 ^ 53 * 100 = 100 * ((S : ℚ) / n) / 2 ^ 53 := by ring
    rw [e51, abs_le]
    constructor <;> linarith
  have hval : roundHundredths (divD (some (S : ℚ)) (n : ℚ)) =
      toDouble ((Math_round p : ℚ) / 100) := by
    simp only [divD, hy, roundHundredths, mulD, hp, roundD, Option.map_some']
  by_cases hm0 : Math_round p = 0
  · refine ⟨Math_round p, 0, ?_, ?_, hbound⟩
    · rw [hval, hm0]; simpa using toDouble_zero
    · rw [hm0]; simpa using toDouble_zero
  · have hmabs : (1 : ℚ) ≤ |(Math_round p : ℚ)| := by
      have : (1 : ℤ) ≤ |Math_round p| := Int.one_le_abs hm0
      exact_mod_cast this
    have hmhi : |(Math_round p : ℚ)| ≤ 2 ^ 62 := by
      have hq : 0 ≤ 100 * ((S : ℚ) / n) / 2 ^ 53 := by positivity
      have hq2 : 100 * ((S : ℚ) / n) / 2 ^ 53 ≤ 100 := by
        rw [div_le_iff₀ (by norm_num)]
        linarith
      rw [abs_le]
      constructor
      · linarith
      · have : (2 : ℚ) * 2 ^ 53 * 100 + 300 ≤ 2 ^ 62 := by norm_num
        linarith
    obtain ⟨d, hd, -⟩ := toDouble_near_of_bounds ((Math_round p : ℚ) / 100)
      (by
        rw [abs_div, abs_of_pos (by norm_num : (0 : ℚ) < 100)]
        rw [le_div_iff₀ (by norm_num)]
        linarith [show (1 : ℚ) / 2 ^ 40 * 100 ≤ 1 by norm_num])
      (by
        rw [abs_div, abs_of_pos (by norm_num : (0 : ℚ) < 100)]
        exact (div_le_self (abs_nonneg _) (by norm_num)).trans hmhi)
    exact ⟨Math_round p, d, by rw [hval, hd], hd, hbound⟩

/-- C7, amended: on a non-empty dataset whose records all carry a non-negative integer in
the requested field, with a sum below `2 ^ 53`, every value below `2 ^ 53 / 100` and fewer
than `2 ^ 32` records, `compute_stats_json` returns a result with `count` the number of
records, `min` and `max` the smallest and largest value, `median` the middle element of
the ascending values for an odd count and the average of the two middle elements for an
even count, and `mean` the Number nearest to `m / 100` for an integer `m` that is at most
`1/2 + 100 * mean / 2 ^ 51` away from 100 times the arithmetic mean. -/
theorem C7_stats_of_small_integers (M : Approximated) (field_name : Option String)
    (videos : List JsObject) (xs : List ℕ) (hne : videos ≠ [])
    (hvals : videos.map (fun v => getProperty v (statsField field_name)) =
      xs.map fun n : ℕ => JsValue.number (n : ℚ))
    (hsum : xs.sum < 2 ^ 53) (hval : ∀ n ∈ xs, 100 * n < 2 ^ 53) (hlen : xs.length < 2 ^ 32) :
    ∃ r : StatsDouble, compute_stats_json_double M field_name videos = Except.ok r ∧
      r.field_name = statsField field_name ∧
      r.count = videos.length ∧
      (r.min ∈ xs.map (fun n : ℕ => (n : ℚ)) ∧ ∀ n ∈ xs, r.min ≤ (n : ℚ)) ∧
      (r.max ∈ xs.map (fun n : ℕ => (n : ℚ)) ∧ ∀ n ∈ xs, (n : ℚ) ≤ r.max) ∧
      (∃ m : ℤ, ∃ d : ℚ, r.mean = some d ∧ toDouble ((m : ℚ) / 100) = some d ∧
        |(m : ℚ) - 100 * (((xs.sum : ℕ) : ℚ) / (xs.length : ℚ))| ≤
          1 / 2 + 100 * (((xs.sum : ℕ) : ℚ) / (xs.length : ℚ)) / 2 ^ 51) ∧
      ∃ sorted : List ℚ, sorted.Perm (xs.map fun n : ℕ => (n : ℚ)) ∧ sorted.Sorted (· ≤ ·) ∧
        r.median = some
          (if xs.length % 2 = 1 then sorted.getD (xs.length / 2) 0
          else (sorted.getD (xs.length / 2 - 1) 0 + sorted.getD (xs.length / 2) 0) / 2) := by
  have hvals' : videos.map (fun v => getProperty v (statsField field_name)) =
      (xs.map fun n : ℕ => (n : ℚ)).map JsValue.number := by
    rw [hvals, List.map_map]; rfl
  have hxlen : xs.length = videos.length := by
    have := congrArg List.length hvals
    simpa using this.symm
  have hxne : xs ≠ [] := by
    intro h
    rw [h] at hxlen
    exact hne (List.length_eq_zero.1 hxlen.symm)
  have hvne : (xs.map fun n : ℕ => (n : ℚ)) ≠ [] := by simpa using hxne
  have hok := compute_stats_json_double_numbers M field_name videos _ hvne hvals'
  have hzero : 100 * 0 < 2 ^ 53 := by norm_num
  refine ⟨_, hok, rfl, by simp [summarizeDouble, hxlen], ?_, ?_, ?_, ?_⟩
  · obtain ⟨h1, h2⟩ := Math_min_spec hvne
    exact ⟨h1, fun n hn => h2 _ (List.mem_map.2 ⟨n, hn, rfl⟩)⟩
  · obtain ⟨h1, h2⟩ := Math_max_spec hvne
    exact ⟨h1, fun n hn => h2 _ (List.mem_map.2 ⟨n, hn, rfl⟩)⟩
  · obtain ⟨m, d, h1, h2, h3⟩ := roundHundredths_mean xs.sum xs.length
      (List.length_pos.2 hxne) hlen hsum
    refine ⟨m, d, ?_, h2, h3⟩
    simp only [summarizeDouble, meanDouble, sumDouble_natCast xs hsum, List.length_map]
    exact h1
  · refine ⟨(xs.map fun n : ℕ => (n : ℚ)).insertionSort (· ≤ ·), List.perm_insertionSort _ _,
      List.sorted_insertionSort _ _, ?_⟩
    have hperm := List.perm_insertionSort (· ≤ ·) (xs.map fun n : ℕ => (n : ℚ))
    have hslen : ((xs.map fun n : ℕ => (n : ℚ)).insertionSort (· ≤ ·)).length = xs.length := by
      simp
    simp only [summarizeDouble, medianDouble, hslen]
    by_cases hodd : xs.length % 2 = 1
    · have heven : ¬ xs.length % 2 = 0 := by omega
      rw [if_neg heven, if_pos hodd]
      obtain ⟨a, ha, hga⟩ := getD_natCast_mem xs _ hperm (xs.length / 2)
      rw [hga]
      exact roundHundredths_natCast a (by rcases ha with h | h; exact hval a h; rw [h]; exact hzero)
    · have heven : xs.length % 2 = 0 := by omega
      rw [if_pos heven, if_neg hodd]
      obtain ⟨a, ha, hga⟩ := getD_natCast_mem xs _ hperm (xs.length / 2 - 1)
      obtain ⟨b, hb, hgb⟩ := getD_natCast_mem xs _ hperm (xs.length / 2)
      rw [hga, hgb]
      exact roundHundredths_average a b
        (by rcases ha with h | h; exact hval a h; rw [h]; exact hzero)
        (by rcases hb with h | h; exact hval b h; rw [h]; exact hzero)

/-- Witness of C7 (amended): `viewCount` values 10, 20, 30 give count 3, mean 20, median
20, min 10 and max 30. -/
theorem C7_stats_of_small_integers_witness :
    ∃ r : StatsDouble,
      compute_stats_json_double examplePlatform (some "viewCount") threeViews = Except.ok r ∧
      r.count = 3 ∧ r.mean = some 20 ∧ r.median = some 20 ∧ r.min = 10 ∧ r.max = 30 := by
  obtain ⟨r, hr, -, hc, ⟨hmin, hmin'⟩, ⟨hmax, hmax'⟩, ⟨m, d, hmean, hd, hm⟩, sorted, hperm,
      hsorted, hmed⟩ :=
    C7_stats_of_small_integers examplePlatform (some "viewCount") threeViews [10, 20, 30] (by decide)
      (by simp [threeViews, viewRecord, getProperty, statsField, orStr])
      (by norm_num) (by intro n hn; simp at hn; rcases hn with h | h | h <;> rw [h] <;> norm_num)
      (by norm_num)
  refine ⟨r, hr, hc, ?_, ?_, ?_, ?_⟩
  · rw [abs_le] at hm
    norm_num at hm
    have h1 : (1999 : ℚ) < m := by linarith [hm.1]
    have h2 : (m : ℚ) < 2001 := by linarith [hm.2]
    have h3 : (1999 : ℤ) < m := by exact_mod_cast h1
    have h4 : m < (2001 : ℤ) := by exact_mod_cast h2
    have h5 : m = 2000 := by omega
    rw [h5] at hd
    have h20 : toDouble (((2000 : ℤ) : ℚ) / 100) = some 20 := by
      have := toDouble_natCast 20 (by norm_num)
      norm_num at this ⊢
      exact this
    rw [hmean, ← hd, h20]
  · have hs : sorted = [10, 20, 30] :=
      List.eq_of_perm_of_sorted (by simpa using hperm) hsorted (by decide)
    rw [hmed, hs]
    norm_num
  · have h10 := hmin' 10 (by simp)
    simp only [List.map_cons, List.map_nil, List.mem_cons, List.mem_singleton,
      List.not_mem_nil, or_false] at hmin
    rcases hmin with h | h | h <;> rw [h] at h10 ⊢ <;> norm_num at h10 ⊢
  · have h30 := hmax' 30 (by simp)
    simp only [List.map_cons, List.map_nil, List.mem_cons, List.mem_singleton,
      List.not_mem_nil, or_false] at hmax
    rcases hmax with h | h | h <;> rw [h] at h30 ⊢ <;> norm_num at h30 ⊢

theorem tieViews_values :
    tieViews.map (fun v => getProperty v (statsField (some "viewCount"))) =
      (tieValues.map fun n : ℕ => (n : ℚ)).map JsValue.number := by
  simp [tieViews, tieValues, viewRecord, getProperty, statsField, orStr]

theorem toDouble_tie_mean :
    toDouble (23 / 40) = some (5179139571476070 / 2 ^ 53) := by
  rw [toDouble_eval _ (-1) 5179139571476070 (by norm_num) (by norm_num)
    (by rw [abs_of_pos (by norm_num)]; norm_num) (by rw [abs_of_pos (by norm_num)]; norm_num)
    (roundHalfEven_of_lt _ _ (by norm_num) (by norm_num))]
  norm_num

theorem toDouble_tie_product :
    toDouble (5179139571476070 / 2 ^ 53 * 100) = some (8092405580431359 / 2 ^ 47) := by
  rw [toDouble_eval _ 5 8092405580431359 (by norm_num) (by norm_num)
    (by rw [abs_of_pos (by norm_num)]; norm_num) (by rw [abs_of_pos (by norm_num)]; norm_num)
    (roundHalfEven_of_lt _ _ (by norm_num) (by norm_num))]
  norm_num

theorem Math_round_tie_product : Math_round (8092405580431359 / 2 ^ 47) = 57 := by
  unfold Math_round
  rw [Int.floor_eq_iff]
  constructor <;> norm_num

theorem toDouble_57_hundredths :
    toDouble (57 / 100) = some (5134103575202365 / 2 ^ 53) := by
  rw [toDouble_eval _ (-1) 5134103575202365 (by norm_num) (by norm_num)
    (by rw [abs_of_pos (by norm_num)]; norm_num) (by rw [abs_of_pos (by norm_num)]; norm_num)
    (roundHalfEven_of_lt _ _ (by norm_num) (by norm_num))]
  norm_num

theorem toDouble_58_hundredths :
    toDouble (58 / 100) = some (5224175567749775 / 2 ^ 53) := by
  rw [toDouble_eval _ (-1) 5224175567749775 (by norm_num) (by norm_num)
    (by rw [abs_of_pos (by norm_num)]; norm_num) (by rw [abs_of_pos (by norm_num)]; norm_num)
    (roundHalfEven_of_lt _ _ (by norm_num) (by norm_num))]
  norm_num

/-- The product `mean * 100` of the forty values 0, ..., 0, 23 in binary64: it is below
57.5. -/
theorem tie_product :
    mulD (meanDouble (tieValues.map fun n : ℕ => (n : ℚ))) (some 100) =
      some (8092405580431359 / 2 ^ 47) := by
  have hs : sumDouble (tieValues.map fun n : ℕ => (n : ℚ)) = some ((tieValues.sum : ℕ) : ℚ) :=
    sumDouble_natCast tieValues (by decide)
  have hsum : tieValues.sum = 23 := by decide
  have hlen : (tieValues.map fun n : ℕ => (n : ℚ)).length = 40 := by simp [tieValues]
  rw [meanDouble, hs, hsum, hlen]
  simp only [divD]
  rw [Nat.cast_ofNat, Nat.cast_ofNat, toDouble_tie_mean]
  simp only [mulD]
  exact toDouble_tie_product

theorem tie_mean (M : Approximated) (key : String) :
    (summarizeDouble M key (tieValues.map fun n : ℕ => (n : ℚ))).mean = toDouble (57 / 100) := by
  simp only [summarizeDouble, roundHundredths, tie_product, roundD, Option.map_some',
    Math_round_tie_product, divD]
  norm_num

theorem toDouble_large_mean :
    toDouble (9007199254740992 / 3) = some (6004799503160661 / 2) := by
  rw [toDouble_eval _ 51 6004799503160661 (by norm_num) (by norm_num)
    (by rw [abs_of_pos (by norm_num)]; norm_num) (by rw [abs_of_pos (by norm_num)]; norm_num)
    (roundHalfEven_of_lt _ _ (by norm_num) (by norm_num))]
  norm_num

theorem toDouble_large_product :
    toDouble (6004799503160661 / 2 * 100) = some 300239975158033024 := by
  rw [toDouble_eval _ 58 4691249611844266 (by norm_num) (by norm_num)
    (by rw [abs_of_pos (by norm_num)]; norm_num) (by rw [abs_of_pos (by norm_num)]; norm_num)
    (roundHalfEven_of_lt _ _ (by norm_num) (by norm_num))]
  norm_num

theorem toDouble_large_hundredths :
    toDouble (300239975158033024 / 100) = some 3002399751580330 := by
  rw [toDouble_eval _ 51 6004799503160660 (by norm_num) (by norm_num)
    (by rw [abs_of_pos (by norm_num)]; norm_num) (by rw [abs_of_pos (by norm_num)]; norm_num)
    (roundHalfEven_of_lt _ _ (by norm_num) (by norm_num))]
  norm_num

/-- The sum of 2 ^ 53, 1 and 1 in binary64 is 2 ^ 53: each addition of 1 is rounded
away. -/
theorem large_sum : sumDouble [9007199254740992, 1, 1] = some 9007199254740992 := by
  have e1 : (0 : ℚ) + 9007199254740992 = 9007199254740992 := by norm_num
  have e2 : (9007199254740992 : ℚ) + 1 = 9007199254740993 := by norm_num
  rw [sumDouble, List.foldl_cons, List.foldl_cons, List.foldl_cons, List.foldl_nil,
    addD_some, e1, toDouble_two_pow_53, addD_some, e2, toDouble_two_pow_53_succ, addD_some, e2,
    toDouble_two_pow_53_succ]

theorem large_mean (M : Approximated) (key : String) :
    (summarizeDouble M key [9007199254740992, 1, 1]).mean = some 3002399751580330 := by
  have hlen : (([9007199254740992, 1, 1] : List ℚ).length : ℚ) = 3 := by norm_num
  have hr : Math_round (300239975158033024 : ℚ) = 300239975158033024 := by
    have := Math_round_intCast 300239975158033024
    rw [Int.cast_ofNat] at this
    exact this
  have e : ((300239975158033024 : ℤ) : ℚ) / 100 = 300239975158033024 / 100 := by
    rw [Int.cast_ofNat]
  show roundHundredths (meanDouble [9007199254740992, 1, 1]) = some 3002399751580330
  rw [meanDouble, large_sum, hlen, divD_some, toDouble_large_mean, roundHundredths, mulD_some,
    toDouble_large_product, roundD, Option.map_some', hr, divD_some, e,
    toDouble_large_hundredths]

/-- C7 as stated fails.  For forty records with `viewCount` 0, ..., 0, 23 the mean is
0.575 and the mean times 100 is the tie 57.5, which rounds to 58 half up, half away from
zero and half to even; in binary64 the product is below 57.5 and the mean reported is
0.57, not 0.58.  For the values 2 ^ 53, 1, 1 the mean reported is 3002399751580330, more
than 1 below the arithmetic mean. -/
theorem C7_counterexample :
    (∃ r : StatsDouble,
      compute_stats_json_double examplePlatform (some "viewCount") tieViews = Except.ok r ∧
      r.count = 40 ∧
      r.mean = toDouble (57 / 100) ∧
      ((tieValues.sum : ℕ) : ℚ) / 40 * 100 = 57 + 1 / 2 ∧
      Math_round (((tieValues.sum : ℕ) : ℚ) / 40 * 100) = 58 ∧
      roundHalfAwayFromZero (((tieValues.sum : ℕ) : ℚ) / 40 * 100) = 58 ∧
      roundHalfEven (((tieValues.sum : ℕ) : ℚ) / 40 * 100) = 58 ∧
      r.mean ≠ toDouble (58 / 100)) ∧
    (∃ r : StatsDouble,
      compute_stats_json_double examplePlatform (some "viewCount") largeViews = Except.ok r ∧
      r.mean = some 3002399751580330 ∧
      (3002399751580330 : ℚ) + 1 < ([9007199254740992, 1, 1] : List ℚ).sum / 3) := by
  constructor
  · have hsum : tieValues.sum = 23 := by decide
    have hx : ((23 : ℕ) : ℚ) / 40 * 100 = ((57 : ℤ) : ℚ) + 1 / 2 := by norm_num
    refine ⟨_, compute_stats_json_double_numbers examplePlatform (some "viewCount") tieViews
      (tieValues.map fun n : ℕ => (n : ℚ)) (by simp [tieValues]) tieViews_values, ?_,
      tie_mean _ _, ?_, ?_, ?_, ?_, ?_⟩
    · simp [summarizeDouble, tieValues]
    · rw [hsum, hx]; norm_num
    · rw [hsum, hx, Math_round, Int.floor_eq_iff]
      constructor <;> norm_num
    · rw [hsum, hx, roundHalfAwayFromZero, if_pos (by norm_num), Int.floor_eq_iff]
      constructor <;> norm_num
    · rw [hsum, hx, roundHalfEven_tie]
      norm_num
    · rw [tie_mean, toDouble_57_hundredths, toDouble_58_hundredths]
      norm_num
  · refine ⟨_, compute_stats_json_double_numbers examplePlatform (some "viewCount") largeViews
      [9007199254740992, 1, 1] (by simp)
      (by simp [largeViews, viewRecord, getProperty, statsField, orStr]), large_mean _ _, ?_⟩
    norm_num

theorem negativeTie_values :
    negativeTie.map (fun v => getProperty v (statsField (some "viewCount"))) =
      ([-1, 0, 0, 0, 0, 0, 0, 0] : List ℚ).map JsValue.number := by
  simp [negativeTie, viewRecord, getProperty, statsField, orStr]

theorem toDouble_neg_one : toDouble (-1) = some (-1) := by
  have := toDouble_intCast (-1) (by norm_num)
  simpa using this

theorem toDouble_neg_eighth : toDouble (-1 / 8) = some (-1 / 8) := by
  have := toDouble_dyadic (-1) 3 (by norm_num) (by norm_num)
  norm_num at this ⊢
  exact this

theorem toDouble_neg_tie : toDouble (-1 / 8 * 100) = some (-25 / 2) := by
  have := toDouble_dyadic (-25) 1 (by norm_num) (by norm_num)
  norm_num at this ⊢
  exact this

theorem toDouble_neg_12_hundredths :
    toDouble (-12 / 100) = some (-8646911284551352 / 2 ^ 56) := by
  rw [toDouble_eval _ (-4) (-8646911284551352) (by norm_num) (by norm_num)
    (by rw [abs_of_neg (by norm_num)]; norm_num) (by rw [abs_of_neg (by norm_num)]; norm_num)
    (roundHalfEven_of_lt _ _ (by norm_num) (by norm_num))]
  norm_num

theorem toDouble_neg_13_hundredths :
    toDouble (-13 / 100) = some (-4683743612465316 / 2 ^ 55) := by
  rw [toDouble_eval _ (-3) (-4683743612465316) (by norm_num) (by norm_num)
    (by rw [abs_of_neg (by norm_num)]; norm_num) (by rw [abs_of_neg (by norm_num)]; norm_num)
    (roundHalfEven_of_lt _ _ (by norm_num) (by norm_num))]
  norm_num

/-- The product `mean * 100` of the values -1, 0, ..., 0 in binary64: every step is
exact and the product is the tie -12.5. -/
theorem negative_product :
    mulD (meanDouble [-1, 0, 0, 0, 0, 0, 0, 0]) (some 100) = some (-25 / 2) := by
  have hs : sumDouble [-1, 0, 0, 0, 0, 0, 0, 0] = some (-1) := by
    simp only [sumDouble, List.foldl_cons, List.foldl_nil, addD_some, zero_add, add_zero,
      toDouble_neg_one]
  have hlen : (([-1, 0, 0, 0, 0, 0, 0, 0] : List ℚ).length : ℚ) = 8 := by norm_num
  rw [meanDouble, hs, hlen, divD_some, toDouble_neg_eighth, mulD_some, toDouble_neg_tie]

theorem Math_round_neg_tie : Math_round (-25 / 2) = -12 := by
  unfold Math_round
  rw [Int.floor_eq_iff]
  constructor <;> norm_num

theorem negative_mean (M : Approximated) (key : String) :
    (summarizeDouble M key [-1, 0, 0, 0, 0, 0, 0, 0]).mean = toDouble (-12 / 100) := by
  show roundHundredths (meanDouble [-1, 0, 0, 0, 0, 0, 0, 0]) = toDouble (-12 / 100)
  rw [roundHundredths, negative_product, roundD, Option.map_some', Math_round_neg_tie,
    divD_some]
  norm_num

/-- C9 as stated fails: for the `viewCount` values -1, 0, 0, 0, 0, 0, 0, 0 the mean is
-0.125 and the mean times 100 is -12.5, in binary64 as in exact arithmetic, halfway
between -13 and -12; the mean reported is -0.12, whereas rounding half away from zero
gives -0.13. -/
theorem C9_counterexample :
    ∃ r : StatsDouble,
      compute_stats_json_double examplePlatform (some "viewCount") negativeTie = Except.ok r ∧
      mulD (meanDouble [-1, 0, 0, 0, 0, 0, 0, 0]) (some 100) = some (-13 + 1 / 2) ∧
      (([-1, 0, 0, 0, 0, 0, 0, 0] : List ℚ).sum / 8) * 100 = -13 + 1 / 2 ∧
      roundHalfAwayFromZero (-13 + 1 / 2) = -13 ∧
      r.mean = toDouble (-12 / 100) ∧
      r.mean ≠ toDouble (-13 / 100) := by
  have hround : roundHalfAwayFromZero (-13 + 1 / 2) = -13 := by
    have hc : ⌈((-13 : ℤ) : ℚ)⌉ = -13 := Int.ceil_intCast _
    norm_num [roundHalfAwayFromZero]
    exact_mod_cast hc
  refine ⟨_, compute_stats_json_double_numbers examplePlatform (some "viewCount") negativeTie
    [-1, 0, 0, 0, 0, 0, 0, 0] (by simp) negativeTie_values, ?_, by norm_num, hround,
    negative_mean _ _, ?_⟩
  · rw [negative_product]; norm_num
  · rw [negative_mean, toDouble_neg_12_hundredths, toDouble_neg_13_hundredths]
    norm_num

/-- C9, amended: for every non-empty list of numeric values (binary64 numbers) the `mean`
and the `median` returned are the mean and the median computed in binary64, rounded to
two decimals by `Math.round` on the binary64 product `p` of the value and 100: when `p` is
finite the result is the Number nearest to `m / 100` for the integer `m` with
`m - 1/2 ≤ p < m + 1/2`, so a product that lies exactly halfway goes to the larger
integer; when `p` is not finite neither is the result.  The mean is the sum of line 157,
added from left to right, over the count; the median is the middle element of the
ascending values, or the binary64 average of the two middle elements. -/
theorem C9_round_half_up_of_product (M : Approximated) (field_name : Option String)
    (videos : List JsObject) (xs : List ℚ) (hne : xs ≠ [])
    (hvals : videos.map (fun v => getProperty v (statsField field_name)) =
      xs.map JsValue.number) :
    ∃ r : StatsDouble, compute_stats_json_double M field_name videos = Except.ok r ∧
      (∀ p : ℚ, mulD (divD (sumDouble xs) (xs.length : ℚ)) (some 100) = some p →
        ∃ m : ℤ, r.mean = toDouble ((m : ℚ) / 100) ∧ (m : ℚ) - 1 / 2 ≤ p ∧ p < (m : ℚ) + 1 / 2) ∧
      (mulD (divD (sumDouble xs) (xs.length : ℚ)) (some 100) = none → r.mean = none) ∧
      ∃ sorted : List ℚ, sorted.Perm xs ∧ sorted.Sorted (· ≤ ·) ∧
        ∃ median : Option ℚ,
          median =
            (if xs.length % 2 = 1 then some (sorted.getD (xs.length / 2) 0)
            else divD (addD (some (sorted.getD (xs.length / 2 - 1) 0))
              (some (sorted.getD (xs.length / 2) 0))) 2) ∧
          (∀ p : ℚ, mulD median (some 100) = some p →
            ∃ m : ℤ, r.median = toDouble ((m : ℚ) / 100) ∧
              (m : ℚ) - 1 / 2 ≤ p ∧ p < (m : ℚ) + 1 / 2) ∧
          (mulD median (some 100) = none → r.median = none) := by
  have hround : ∀ v : Option ℚ,
      (∀ p : ℚ, mulD v (some 100) = some p →
        ∃ m : ℤ, roundHundredths v = toDouble ((m : ℚ) / 100) ∧
          (m : ℚ) - 1 / 2 ≤ p ∧ p < (m : ℚ) + 1 / 2) ∧
      (mulD v (some 100) = none → roundHundredths v = none) := by
    intro v
    constructor
    · intro p hp
      refine ⟨Math_round p, ?_, Math_round_bounds p⟩
      simp only [roundHundredths, hp, roundD, Option.map_some', divD]
    · intro hp
      simp only [roundHundredths, hp, roundD, Option.map_none', divD]
  refine ⟨_, compute_stats_json_double_numbers M field_name videos xs hne hvals,
    (hround _).1, (hround _).2, xs.insertionSort (· ≤ ·), List.perm_insertionSort _ _,
    List.sorted_insertionSort _ _, medianDouble xs, ?_, (hround _).1, (hround _).2⟩
  have hslen : (xs.insertionSort (· ≤ ·)).length = xs.length := by simp
  simp only [medianDouble, hslen]
  by_cases hodd : xs.length % 2 = 1
  · rw [if_pos hodd, if_neg (by omega)]
  · rw [if_neg hodd, if_pos (by omega)]

/-- Witness of C9 (amended): for the values -1, 0, 0, 0, 0, 0, 0, 0 the product is the tie
-12.5 and the mean reported is -0.12; for the forty values 0, ..., 0, 23 the product in
binary64 is below the tie 57.5 and the mean reported is 0.57. -/
theorem C9_round_half_up_of_product_witness :
    (∃ r : StatsDouble,
      compute_stats_json_double examplePlatform (some "viewCount") negativeTie = Except.ok r ∧
      r.mean = toDouble (-12 / 100)) ∧
    (∃ r : StatsDouble,
      compute_stats_json_double examplePlatform (some "viewCount") tieViews = Except.ok r ∧
      r.mean = toDouble (57 / 100)) := by
  constructor
  · obtain ⟨r, hr, hmean, -⟩ := C9_round_half_up_of_product examplePlatform (some "viewCount")
      negativeTie [-1, 0, 0, 0, 0, 0, 0, 0] (by simp)
      negativeTie_values
    obtain ⟨m, hm, h1, h2⟩ := hmean _ negative_product
    have h3 : (-13 : ℤ) < m := by
      have : ((-13 : ℤ) : ℚ) < m := by push_cast; linarith
      exact_mod_cast this
    have h4 : m < (-11 : ℤ) := by
      have : (m : ℚ) < ((-11 : ℤ) : ℚ) := by push_cast; linarith
      exact_mod_cast this
    have h5 : m = -12 := by omega
    refine ⟨r, hr, ?_⟩
    rw [hm, h5]
    norm_num
  · obtain ⟨r, hr, hmean, -⟩ := C9_round_half_up_of_product examplePlatform (some "viewCount")
      tieViews (tieValues.map fun n : ℕ => (n : ℚ)) (by simp [tieValues])
      tieViews_values
    obtain ⟨m, hm, h1, h2⟩ := hmean _ tie_product
    have h3 : (56 : ℤ) < m := by
      have : ((56 : ℤ) : ℚ) < m := by
        push_cast
        have : (8092405580431359 : ℚ) / 2 ^ 47 > 57 := by norm_num
        linarith
      exact_mod_cast this
    have h4 : m < (58 : ℤ) := by
      have : (m : ℚ) < ((58 : ℤ) : ℚ) := by
        push_cast
        have : (8092405580431359 : ℚ) / 2 ^ 47 < 57 + 1 / 2 := by norm_num
        linarith
      exact_mod_cast this
    have h5 : m = 57 := by omega
    refine ⟨r, hr, ?_⟩
    rw [hm, h5]
    norm_num

/-! ## Summary statistics: the records that contribute -/

theorem length_filterMap_isSome (f : JsObject → Option ℚ) (l : List JsObject) :
    (l.filterMap f).length = (l.filter fun v => (f v).isSome).length := by
  induction l with
  | nil => rfl
  | cons a l ih =>
    cases h : f a <;> simp [List.filterMap_cons, List.filter_cons, h, ih]

theorem statValue_eq_numericOrParsed {key : String} (hkey : key ≠ "duration")
    (raw : JsValue) : statValue key raw = numericOrParsed raw := by
  cases raw <;> simp [statValue, numericOrParsed, parseIntValue, hkey]

/-- C10: when the aggregated field is not `duration`, the statistics are those of the
values of the records whose value for the field is a number or parses as an integer, in
dataset order; the other records are left out (`count` is the number of contributing
records).  When no record contributes, the result is the error object whose message
names the aggregated field. -/
theorem C10_only_numeric_values (field_name : Option String) (videos : List JsObject)
    (hkey : statsKey field_name videos ≠ "duration") :
    (videos.filterMap (fun v => numericOrParsed (getProperty v (statsKey field_name videos)))
        = [] →
      compute_stats_json field_name videos =
        Except.error ("No numeric values for field \"" ++ statsKey field_name videos ++ "\"")) ∧
    (videos.filterMap (fun v => numericOrParsed (getProperty v (statsKey field_name videos)))
        ≠ [] →
      ∃ r : Stats, compute_stats_json field_name videos = Except.ok r ∧
        r = summarize (statsKey field_name videos)
          (videos.filterMap fun v =>
            numericOrParsed (getProperty v (statsKey field_name videos))) ∧
        r.field_name = statsKey field_name videos ∧
        r.count = (videos.filter fun v =>
          (numericOrParsed (getProperty v (statsKey field_name videos))).isSome).length) := by
  have hv : statValues (statsKey field_name videos) videos =
      videos.filterMap fun v =>
        numericOrParsed (getProperty v (statsKey field_name videos)) := by
    unfold statValues
    rw [List.filterMap_map]
    apply List.filterMap_congr
    intro v _
    simp [statValue_eq_numericOrParsed hkey]
  constructor
  · intro h
    unfold compute_stats_json
    simp only [hv, h, List.length_nil, if_true]
  · intro h
    refine ⟨_, ?_, rfl, rfl, ?_⟩
    · rw [compute_stats_json_ok field_name videos (by rw [hv]; exact h), hv]
    · simp only [summarize]
      exact length_filterMap_isSome _ _

theorem mixedLikes_key : statsKey (some "likeCount") mixedLikes = "likeCount" := by decide

theorem mixedLikes_values :
    mixedLikes.filterMap (fun v => numericOrParsed (getProperty v "likeCount")) = [12, 4] := by
  decide

/-- Witness of C10: on the empty dataset the result is the error object naming
`viewCount`; on four records whose `likeCount` is `12abc`, absent, `abc` and 4, only the
first and the last record count: count 2, mean 8, min 4, max 12. -/
theorem C10_only_numeric_values_witness :
    compute_stats_json (some "likeCount") [] =
      Except.error "No numeric values for field \"viewCount\"" ∧
    ∃ r : Stats, compute_stats_json (some "likeCount") mixedLikes = Except.ok r ∧
      r.field_name = "likeCount" ∧ r.count = 2 ∧ r.mean = 8 ∧ r.min = 4 ∧ r.max = 12 := by
  refine ⟨(C10_only_numeric_values (some "likeCount") [] (by decide)).1 (by decide), ?_⟩
  obtain ⟨r, hr, hs, hf, hc⟩ :=
    (C10_only_numeric_values (some "likeCount") mixedLikes (by decide)).2
      (by rw [mixedLikes_key, mixedLikes_values]; simp)
  rw [mixedLikes_key] at hf hc
  rw [mixedLikes_key, mixedLikes_values] at hs
  refine ⟨r, hr, hf, ?_, ?_, ?_, ?_⟩
  · rw [hc]; decide
  · rw [hs]; simp only [summarize]; norm_num [Math_round]
  · rw [hs]; norm_num [summarize, Math_min]
  · rw [hs]; norm_num [summarize, Math_max]

/-! ## Record lookup: `play_video` -/

theorem afterFirst_nil_lit (s : List Char) : afterFirst [] s = some s := by
  cases s <;> simp [afterFirst, dropLit]

theorem afterFirst_isSome_iff (lit s : List Char) :
    (afterFirst lit s).isSome = true ↔ lit <:+: s := by
  induction s with
  | nil =>
    cases lit with
    | nil => simp [afterFirst, dropLit]
    | cons a lit => simp [afterFirst, dropLit]
  | cons c cs ih =>
    rw [afterFirst]
    cases hd : dropLit lit (c :: cs) with
    | some rest =>
      simp only [Option.isSome_some, true_iff]
      exact ⟨[], rest, by simpa using (dropLit_eq_some.1 hd).symm⟩
    | none =>
      simp only
      rw [ih, List.infix_cons_iff]
      constructor
      · exact Or.inr
      · rintro (⟨rest, hrest⟩ | h)
        · rw [dropLit_eq_some.2 hrest.symm] at hd
          cases hd
        · exact h

theorem includes_iff (text needle : List Char) :
    includes text needle = true ↔ needle <:+: text :=
  afterFirst_isSome_iff needle text

theorem dropWhile_all {p : Char → Bool} (l : List Char) (h : ∀ c ∈ l, p c = true) :
    l.dropWhile p = [] := by
  induction l with
  | nil => rfl
  | cons a l ih =>
    rw [List.dropWhile_cons_of_pos (h a (by simp)), ih (fun c hc => h c (by simp [hc]))]

theorem dropWhile_lead {p : Char → Bool} (lead y : List Char) (c : Char)
    (hlead : ∀ d ∈ lead, p d = true) (hy : y.head? = some c) (hc : p c = false) :
    (lead ++ y).dropWhile p = y := by
  induction lead with
  | nil =>
    cases y with
    | nil => simp at hy
    | cons d y =>
      simp only [List.head?_cons, Option.some.injEq] at hy
      subst hy
      simp [List.dropWhile, hc]
  | cons a lead ih =>
    rw [List.cons_append, List.dropWhile_cons_of_pos (hlead a (by simp))]
    exact ih (fun d hd => hlead d (by simp [hd]))

/-- Trimming removes white space around a text that starts and ends with a character
that is not white space. -/
theorem trim_padded (lead x tail : List Char) (c e : Char)
    (hc : x.head? = some c) (he : x.getLast? = some e)
    (hcw : isJsWhiteSpace c = false) (hew : isJsWhiteSpace e = false)
    (hlead : ∀ d ∈ lead, isJsWhiteSpace d = true)
    (htail : ∀ d ∈ tail, isJsWhiteSpace d = true) :
    trim (lead ++ x ++ tail) = x := by
  have hx : x ≠ [] := by
    intro h
    rw [h] at hc
    simp at hc
  have h1 : (lead ++ x ++ tail).dropWhile isJsWhiteSpace = x ++ tail := by
    rw [List.append_assoc]
    apply dropWhile_lead lead (x ++ tail) c hlead _ hcw
    rw [List.head?_append_of_ne_nil _ hx, hc]
  have h2 : (tail.reverse ++ x.reverse).dropWhile isJsWhiteSpace = x.reverse := by
    apply dropWhile_lead tail.reverse x.reverse e _ _ hew
    · intro d hd
      exact htail d (List.mem_reverse.1 hd)
    · rw [List.head?_reverse, he]
  rw [trim, h1, List.reverse_append, h2, List.reverse_reverse]

theorem trim_all_whitespace (l : List Char) (h : ∀ c ∈ l, isJsWhiteSpace c = true) :
    trim l = [] := by
  rw [trim, dropWhile_all l h]
  rfl

theorem toDigits_ne_letters (n : ℕ) (l : List Char) (c : Char) (hl : l.head? = some c)
    (hc : c.isDigit = false) : l ≠ Nat.toDigits 10 n := by
  intro h
  obtain ⟨hne, hall, -⟩ := toDigits_spec n
  rw [← h] at hall hne
  cases l with
  | nil => exact hne rfl
  | cons d l =>
    simp only [List.head?_cons, Option.some.injEq] at hl
    subst hl
    have := (hall d (by simp)).1
    rw [hc] at this
    cases this

theorem selectVideo_empty_id (L : LowerCase) (videos : List Video) :
    selectVideo L [] videos = videos.head? := by
  have h4 : ([] : List Char) ≠ Nat.toDigits 10 videos.length :=
    fun h => (toDigits_spec videos.length).1 h.symm
  unfold selectVideo
  rw [if_neg (by decide), if_neg (by simp [h4]), if_neg (by decide)]
  cases videos with
  | nil => rfl
  | cons v rest =>
    simp [List.find?, matchesVideo, includes, afterFirst_nil_lit]

/-- C17: for an identifier that is missing, empty or made of white space only,
`play_video` returns the card of the first record of a non-empty dataset; it returns a
not-found result exactly when the dataset is empty. -/
theorem C17_blank_identifier_first_record (L : LowerCase) (identifier : Option String)
    (videos : List Video)
    (hblank : ∀ s, identifier = some s → ∀ c ∈ s.data, isJsWhiteSpace c = true) :
    (∀ v rest, videos = v :: rest →
      play_video L identifier videos = Except.ok (videoCard v)) ∧
    ((∃ msg, play_video L identifier videos = Except.error msg) ↔ videos = []) := by
  have hid : normalizeIdentifier L identifier = [] := by
    have ht : trim (orStr identifier "").data = [] := by
      apply trim_all_whitespace
      cases identifier with
      | none => simp [orStr]
      | some s =>
        intro c hc
        simp only [orStr] at hc
        split_ifs at hc
        · simp at hc
        · exact hblank s rfl c hc
    rw [normalizeIdentifier, ht, L.ascii [] (by simp)]
    rfl
  have hsel := selectVideo_empty_id L videos
  constructor
  · intro v rest hv
    subst hv
    simp [play_video, hid, hsel]
  · cases videos with
    | nil => simp [play_video, hid, hsel]
    | cons v rest => simp [play_video, hid, hsel]

/-- Witness of C17: a missing identifier and an identifier of blanks on a dataset of
three records, and on the empty dataset. -/
theorem C17_blank_identifier_first_record_witness :
    play_video asciiLowerCase (some "  \t ") alphabetVideos =
      Except.ok (videoCard { title := some "Alpha", videoId := some "idA" }) ∧
    ((∃ msg, play_video asciiLowerCase none [] = Except.error msg) ↔
      ([] : List Video) = []) :=
  ⟨(C17_blank_identifier_first_record asciiLowerCase (some "  \t ") alphabetVideos
      (by intro s hs; cases hs; decide)).1 _ _ rfl,
    (C17_blank_identifier_first_record asciiLowerCase none []
      (by intro s hs; cases hs)).2⟩

theorem find?_first {p : Video → Bool} (pre : List Video) (v : Video) (post : List Video)
    (hpre : ∀ u ∈ pre, p u = false) (hv : p v = true) :
    (pre ++ v :: post).find? p = some v := by
  induction pre with
  | nil => simp [List.find?, hv]
  | cons a pre ih =>
    rw [List.cons_append, List.find?_cons, hpre a (by simp)]
    exact ih (fun u hu => hpre u (by simp [hu]))

theorem matchesVideo_iff (L : LowerCase) (id : List Char) (v : Video) :
    matchesVideo L id v = true ↔
      (id <:+: L.apply (orStr v.title "").data ∨ L.apply (orStr v.videoId "").data = id) := by
  simp [matchesVideo, includes_iff]

/-- C13: when the trimmed, lower-cased identifier `id` is none of `first`, `1`, `last`,
the decimal record count and `most viewed`, `play_video` returns the card of the first
record in dataset order whose lower-cased title holds `id` or whose lower-cased videoId
is `id`; when no record matches, it returns the error object whose message quotes the
identifier as it was passed. -/
theorem C13_lookup_by_title_or_id (L : LowerCase) (identifier : String)
    (videos : List Video)
    (h1 : normalizeIdentifier L (some identifier) ≠ "first".data)
    (h2 : normalizeIdentifier L (some identifier) ≠ "1".data)
    (h3 : normalizeIdentifier L (some identifier) ≠ "last".data)
    (h4 : normalizeIdentifier L (some identifier) ≠ Nat.toDigits 10 videos.length)
    (h5 : normalizeIdentifier L (some identifier) ≠ "most viewed".data) :
    (∀ pre v post, videos = pre ++ v :: post →
      (∀ u ∈ pre,
        ¬ (normalizeIdentifier L (some identifier) <:+: L.apply (orStr u.title "").data ∨
          L.apply (orStr u.videoId "").data = normalizeIdentifier L (some identifier))) →
      (normalizeIdentifier L (some identifier) <:+: L.apply (orStr v.title "").data ∨
        L.apply (orStr v.videoId "").data = normalizeIdentifier L (some identifier)) →
      play_video L (some identifier) videos = Except.ok (videoCard v)) ∧
    ((∀ u ∈ videos,
        ¬ (normalizeIdentifier L (some identifier) <:+: L.apply (orStr u.title "").data ∨
          L.apply (orStr u.videoId "").data = normalizeIdentifier L (some identifier))) →
      play_video L (some identifier) videos =
        Except.error ("No video found for \"" ++ identifier ++ "\"")) := by
  have hsel : selectVideo L (normalizeIdentifier L (some identifier)) videos =
      videos.find? (matchesVideo L (normalizeIdentifier L (some identifier))) := by
    unfold selectVideo
    rw [if_neg (by simp [h1, h2]), if_neg (by simp [h3, h4]), if_neg h5]
  constructor
  · intro pre v post hv hpre hmatch
    have hfind : videos.find? (matchesVideo L (normalizeIdentifier L (some identifier))) =
        some v := by
      rw [hv]
      apply find?_first
      · intro u hu
        have := hpre u hu
        rw [← matchesVideo_iff] at this
        simpa using this
      · exact (matchesVideo_iff L _ v).2 hmatch
    simp [play_video, hsel, hfind]
  · intro hnone
    have hfind : videos.find? (matchesVideo L (normalizeIdentifier L (some identifier))) =
        none := by
      rw [List.find?_eq_none]
      intro u hu
      have := hnone u hu
      rw [← matchesVideo_iff] at this
      simpa using this
    simp [play_video, hsel, hfind]

/-- Witness of C13: on the two records of the asbestos example the identifier `asbestos`
gives the card of the first record. -/
theorem C13_lookup_by_title_or_id_witness :
    play_video asciiLowerCase (some "asbestos") asbestosVideos =
      Except.ok (videoCard { title := some "Intro to asbestos", viewCount := some 5 }) ∧
    play_video asciiLowerCase (some "Zebra") asbestosVideos =
      Except.error "No video found for \"Zebra\"" :=
  ⟨(C13_lookup_by_title_or_id asciiLowerCase "asbestos" asbestosVideos (by decide) (by decide)
      (by decide) (by decide) (by decide)).1 [] _ [_] rfl (by simp) (by decide),
    (C13_lookup_by_title_or_id asciiLowerCase "Zebra" asbestosVideos (by decide) (by decide)
      (by decide) (by decide) (by decide)).2 (by decide)⟩

/-- The head of the stable descending sort is the first record with the largest view
count. -/
theorem head_sortByViews (videos : List Video) (hne : videos ≠ []) :
    ∃ pre r post, videos = pre ++ r :: post ∧ (sortByViews videos).head? = some r ∧
      (∀ v ∈ pre, viewKey v < viewKey r) ∧ (∀ v ∈ post, viewKey v ≤ viewKey r) := by
  induction videos with
  | nil => exact absurd rfl hne
  | cons a l ih =>
    cases l with
    | nil => exact ⟨[], a, [], rfl, rfl, by simp, by simp⟩
    | cons b l' =>
      obtain ⟨pre, r, post, hl, hhead, hpre, hpost⟩ := ih (by simp)
      have hsort : sortByViews (a :: b :: l') =
          List.orderedInsert (fun x y => viewKey y ≤ viewKey x) a (sortByViews (b :: l')) :=
        rfl
      cases hs : sortByViews (b :: l') with
      | nil => rw [hs] at hhead; simp at hhead
      | cons r' tl =>
        rw [hs] at hhead
        simp only [List.head?_cons, Option.some.injEq] at hhead
        subst hhead
        rw [hsort, hs, List.orderedInsert]
        by_cases hle : viewKey r' ≤ viewKey a
        · refine ⟨[], a, b :: l', rfl, by rw [if_pos hle]; rfl, by simp, ?_⟩
          intro v hv
          rw [hl] at hv
          rcases List.mem_append.1 hv with h | h
          · exact (le_of_lt (hpre v h)).trans hle
          · rcases List.mem_cons.1 h with h | h
            · rw [h]; exact hle
            · exact (hpost v h).trans hle
        · refine ⟨a :: pre, r', post, by rw [hl]; rfl, by rw [if_neg hle]; rfl, ?_, hpost⟩
          intro v hv
          rcases List.mem_cons.1 hv with h | h
          · rw [h]; exact lt_of_not_le hle
          · exact hpre v h

theorem upper_not_whitespace (c : Char) (h : 65 ≤ c.toNat ∧ c.toNat ≤ 90) :
    isJsWhiteSpace c = false := by
  have hc : c = Char.ofNat c.toNat := (Char.ofNat_toNat c).symm
  obtain ⟨h1, h2⟩ := h
  generalize c.toNat = n at hc h1 h2
  subst hc
  interval_cases n <;> decide

theorem toLower_of_whitespace (c : Char) (h : isJsWhiteSpace c = true) : c.toLower = c := by
  unfold Char.toLower
  dsimp only
  split_ifs with hu
  · rw [upper_not_whitespace c hu] at h
    cases h
  · rfl

theorem ascii_of_toLower (c : Char) (h : c.toLower.toNat < 128) : c.toNat < 128 := by
  unfold Char.toLower at h
  dsimp only at h
  split_ifs at h with hu
  · omega
  · exact h

/-- A text whose ASCII lower-casing is `most viewed`, between white space, is normalized
to `most viewed`. -/
theorem normalize_most_viewed (L : LowerCase) (identifier : String)
    (lead word tail : List Char) (hident : identifier.data = lead ++ word ++ tail)
    (hlead : ∀ c ∈ lead, isJsWhiteSpace c = true)
    (htail : ∀ c ∈ tail, isJsWhiteSpace c = true)
    (hword : word.map Char.toLower = "most viewed".data) :
    normalizeIdentifier L (some identifier) = "most viewed".data := by
  have hdata : (orStr (some identifier) "").data = identifier.data := by
    simp only [orStr]
    split_ifs with h
    · rw [h]
    · rfl
  have hhead : ∃ c, word.head? = some c ∧ c.toLower = 'm' := by
    have := congrArg List.head? hword
    rw [List.head?_map] at this
    cases hh : word.head? with
    | none => rw [hh] at this; cases this
    | some c =>
      rw [hh] at this
      exact ⟨c, rfl, Option.some.inj this⟩
  have hlast : ∃ e, word.getLast? = some e ∧ e.toLower = 'd' := by
    have := congrArg List.getLast? hword
    rw [List.getLast?_map] at this
    cases hh : word.getLast? with
    | none => rw [hh] at this; cases this
    | some e =>
      rw [hh] at this
      exact ⟨e, rfl, Option.some.inj this⟩
  obtain ⟨c, hc, hcl⟩ := hhead
  obtain ⟨e, he, hel⟩ := hlast
  have hcw : isJsWhiteSpace c = false := by
    by_contra hw
    have hw' : isJsWhiteSpace c = true := by simpa using hw
    rw [toLower_of_whitespace c hw'] at hcl
    rw [hcl] at hw'
    exact absurd hw' (by decide)
  have hew : isJsWhiteSpace e = false := by
    by_contra hw
    have hw' : isJsWhiteSpace e = true := by simpa using hw
    rw [toLower_of_whitespace e hw'] at hel
    rw [hel] at hw'
    exact absurd hw' (by decide)
  have hascii : ∀ d ∈ word, d.toNat < 128 := by
    intro d hd
    apply ascii_of_toLower
    have hmem : d.toLower ∈ word.map Char.toLower := List.mem_map.2 ⟨d, hd, rfl⟩
    rw [hword] at hmem
    revert hmem
    generalize d.toLower = x
    revert x
    decide
  rw [normalizeIdentifier, hdata, hident, trim_padded lead word tail c e hc he hcw hew hlead htail,
    L.ascii word hascii, hword]

/-- C11: on a non-empty dataset, `play_video` with the identifier `most viewed`, in any
letter case and between any white space, returns the card of a record `r` whose view
count (0 when absent) is the largest of the dataset: every record before `r` has a
strictly smaller view count and every record after `r` a view count that is not larger,
so `r` is the first record with the largest view count. -/
theorem C11_most_viewed_first_maximum (L : LowerCase) (identifier : String)
    (lead word tail : List Char) (videos : List Video)
    (hident : identifier.data = lead ++ word ++ tail)
    (hlead : ∀ c ∈ lead, isJsWhiteSpace c = true)
    (htail : ∀ c ∈ tail, isJsWhiteSpace c = true)
    (hword : word.map Char.toLower = "most viewed".data)
    (hne : videos ≠ []) :
    ∃ pre r post, videos = pre ++ r :: post ∧
      play_video L (some identifier) videos = Except.ok (videoCard r) ∧
      (∀ v ∈ pre, v.viewCount.getD 0 < r.viewCount.getD 0) ∧
      (∀ v ∈ post, v.viewCount.getD 0 ≤ r.viewCount.getD 0) := by
  obtain ⟨pre, r, post, hv, hhead, hpre, hpost⟩ := head_sortByViews videos hne
  refine ⟨pre, r, post, hv, ?_, hpre, hpost⟩
  have hid := normalize_most_viewed L identifier lead word tail hident hlead htail hword
  have h4 : "most viewed".data ≠ Nat.toDigits 10 videos.length :=
    toDigits_ne_letters _ _ 'm' rfl (by decide)
  have hsel : selectVideo L "most viewed".data videos = (sortByViews videos).head? := by
    unfold selectVideo
    rw [if_neg (by decide), if_neg (by simp [h4]), if_pos rfl]
  simp only [play_video, hid, hsel, hhead]

/-- Witness of C11: on the two records of the asbestos example, ` Most VIEWED ` gives the
second record, the one with 100 views. -/
theorem C11_most_viewed_first_maximum_witness :
    ∃ pre r post, asbestosVideos = pre ++ r :: post ∧
      play_video asciiLowerCase (some " Most VIEWED ") asbestosVideos =
        Except.ok (videoCard r) ∧
      (∀ v ∈ pre, v.viewCount.getD 0 < r.viewCount.getD 0) ∧
      (∀ v ∈ post, v.viewCount.getD 0 ≤ r.viewCount.getD 0) ∧
      play_video asciiLowerCase (some " Most VIEWED ") asbestosVideos =
        Except.ok (videoCard { title := some "Part two", viewCount := some 100 }) := by
  obtain ⟨pre, r, post, h1, h2, h3, h4⟩ :=
    C11_most_viewed_first_maximum asciiLowerCase " Most VIEWED " " ".data "Most VIEWED".data
      " ".data asbestosVideos (by decide) (by decide) (by decide) (by decide) (by decide)
  exact ⟨pre, r, post, h1, h2, h3, h4, rfl⟩

theorem find?_congr_mem {p q : Video → Bool} (videos : List Video)
    (h : ∀ v ∈ videos, p v = q v) : videos.find? p = videos.find? q := by
  induction videos with
  | nil => rfl
  | cons a l ih =>
    rw [List.find?_cons, List.find?_cons, h a (by simp), ih (fun v hv => h v (by simp [hv]))]

/-- On ASCII text every lower-casing of the platform gives the same result. -/
theorem play_video_ascii (L : LowerCase) (identifier : Option String) (videos : List Video)
    (hid : ∀ c ∈ (orStr identifier "").data, c.toNat < 128)
    (hv : ∀ v ∈ videos, (∀ c ∈ (orStr v.title "").data, c.toNat < 128) ∧
      ∀ c ∈ (orStr v.videoId "").data, c.toNat < 128) :
    play_video L identifier videos = play_video asciiLowerCase identifier videos := by
  have htrim : ∀ c ∈ trim (orStr identifier "").data, c.toNat < 128 :=
    fun c hc => hid c ((trim_within _).subset hc)
  have hnorm : normalizeIdentifier L identifier =
      normalizeIdentifier asciiLowerCase identifier := by
    rw [normalizeIdentifier, normalizeIdentifier, L.ascii _ htrim, asciiLowerCase.ascii _ htrim]
  have hfind : ∀ id, videos.find? (matchesVideo L id) =
      videos.find? (matchesVideo asciiLowerCase id) := by
    intro id
    apply find?_congr_mem
    intro v hmem
    rw [matchesVideo, matchesVideo, L.ascii _ (hv v hmem).1, L.ascii _ (hv v hmem).2,
      asciiLowerCase.ascii _ (hv v hmem).1, asciiLowerCase.ascii _ (hv v hmem).2]
  simp only [play_video, selectVideo, hnorm, hfind]

theorem digit_props (c : Char) (h : c.isDigit = true) :
    c.toNat < 128 ∧ c.toLower = c ∧ isJsWhiteSpace c = false ∧ c ≠ '-' ∧ c ≠ '+' ∧
      c ≠ 'H' ∧ c ≠ 'M' ∧ c ≠ 'S' := by
  have hc : c = Char.ofNat c.toNat := (Char.ofNat_toNat c).symm
  have hb : 48 ≤ c.toNat ∧ c.toNat ≤ 57 := by
    simp only [Char.isDigit, Bool.and_eq_true, decide_eq_true_eq] at h
    exact ⟨h.1, h.2⟩
  obtain ⟨h1, h2⟩ := hb
  generalize c.toNat = n at hc h1 h2
  subst hc
  interval_cases n <;> decide

/-- The identifier `1` selects the first record of every dataset. -/
theorem play_video_one (L : LowerCase) (v : Video) (rest : List Video) :
    play_video L (some "1") (v :: rest) = Except.ok (videoCard v) := by
  have hid : normalizeIdentifier L (some "1") = "1".data := by
    rw [normalizeIdentifier, L.ascii _ (by decide)]
    decide
  simp [play_video, hid, selectVideo]

/-- The decimal record count selects the last record of every non-empty dataset. -/
theorem play_video_count (L : LowerCase) (videos : List Video) (hne : videos ≠ []) :
    play_video L (some (String.mk (Nat.toDigits 10 videos.length))) videos =
      Except.ok (videoCard (videos.getLast hne)) := by
  obtain ⟨hDne, hall, hval⟩ := toDigits_spec videos.length
  generalize hD : Nat.toDigits 10 videos.length = D at hDne hall hval
  have hdata : (orStr (some (String.mk D)) "").data = D := by
    simp only [orStr]
    split_ifs with h
    · exact absurd (congrArg String.data h) hDne
    · rfl
  have hdig : ∀ c ∈ D, c.isDigit = true := fun c hc => (hall c hc).1
  obtain ⟨c, hc⟩ : ∃ c, D.head? = some c := by
    cases D with
    | nil => exact absurd rfl hDne
    | cons c D => exact ⟨c, rfl⟩
  obtain ⟨e, he⟩ : ∃ e, D.getLast? = some e :=
    ⟨D.getLast hDne, List.getLast?_eq_getLast _ hDne⟩
  have hcm : c ∈ D := List.mem_of_mem_head? hc
  have hem : e ∈ D := List.mem_of_mem_getLast? he
  have htrim : trim D = D := by
    have := trim_padded [] D [] c e hc he (digit_props c (hdig c hcm)).2.2.1
      (digit_props e (hdig e hem)).2.2.1 (by simp) (by simp)
    simpa using this
  have hmap : D.map Char.toLower = D := by
    conv_rhs => rw [← List.map_id D]
    exact List.map_congr_left fun d hd => (digit_props d (hdig d hd)).2.1
  have hid : normalizeIdentifier L (some (String.mk D)) = D := by
    rw [normalizeIdentifier, hdata, htrim,
      L.ascii D (fun d hd => (digit_props d (hdig d hd)).1), hmap]
  have hfirst : D ≠ "first".data := by
    intro h
    rw [h] at hdig
    exact absurd (hdig 'f' (by decide)) (by decide)
  have hsel : selectVideo L D videos = some (videos.getLast hne) := by
    unfold selectVideo
    by_cases h1 : D = "1".data
    · rw [if_pos (Or.inr h1)]
      have hlen : videos.length = 1 := by
        rw [← hval, h1]
        decide
      match videos, hne, hlen with
      | [v], _, _ => rfl
    · rw [if_neg (by simp [h1, hfirst]), if_pos (Or.inr hD.symm)]
      exact List.getLast?_eq_getLast _ hne
  simp only [play_video, hid, hsel]

/-- C12, at the failing input: on three records whose titles and ids hold no digit,
whatever the lower-casing of the platform, the identifier `2` gives the not-found error
object, not the second record, while `1` gives the first record and `3` (the record
count) the last one. -/
theorem C12_ordinal_two_not_found (L : LowerCase) :
    play_video L (some "2") alphabetVideos = Except.error "No video found for \"2\"" ∧
    play_video L (some "2") alphabetVideos ≠
      Except.ok (videoCard { title := some "Beta", videoId := some "idB" }) ∧
    play_video L (some "1") alphabetVideos =
      Except.ok (videoCard { title := some "Alpha", videoId := some "idA" }) ∧
    play_video L (some "3") alphabetVideos =
      Except.ok (videoCard { title := some "Gamma", videoId := some "idC" }) := by
  have h2 : play_video L (some "2") alphabetVideos =
      Except.error "No video found for \"2\"" := by
    rw [play_video_ascii L _ _ (by decide) (by decide)]
    rfl
  refine ⟨h2, ?_, play_video_one L _ _, play_video_count L alphabetVideos (by decide)⟩
  rw [h2]
  intro h
  cases h

/-! ## Time series: `plot_metric_vs_time` -/

theorem metricKey_eq (metric_field : Option String) (videos : List JsObject) :
    metricKey metric_field videos = metricField metric_field := by
  unfold metricKey
  split_ifs <;> simp_all

theorem orderedInsert_congr {r r' : Point → Point → Prop} [DecidableRel r] [DecidableRel r']
    (a : Point) (l : List Point) (h : ∀ b ∈ l, (r a b ↔ r' a b)) :
    List.orderedInsert r a l = List.orderedInsert r' a l := by
  induction l with
  | nil => rfl
  | cons b l ih =>
    have hb := h b (by simp)
    have hl := ih (fun c hc => h c (by simp [hc]))
    by_cases hr : r a b
    · rw [List.orderedInsert, List.orderedInsert, if_pos hr, if_pos (hb.1 hr)]
    · rw [List.orderedInsert, List.orderedInsert, if_neg hr, if_neg (fun h' => hr (hb.2 h')), hl]

theorem insertionSort_congr {r r' : Point → Point → Prop} [DecidableRel r] [DecidableRel r']
    (l : List Point) (h : ∀ a ∈ l, ∀ b ∈ l, (r a b ↔ r' a b)) :
    List.insertionSort r l = List.insertionSort r' l := by
  induction l with
  | nil => rfl
  | cons a l ih =>
    rw [List.insertionSort, List.insertionSort,
      ih (fun x hx y hy => h x (by simp [hx]) y (by simp [hy]))]
    apply orderedInsert_congr
    intro b hb
    exact h a (by simp) b (by simp [(List.perm_insertionSort r' l).subset hb])

/-- C14: when every publish date can be read, `plot_metric_vs_time` returns the points
`{date, value, title}` of the records whose `publishedAt` is neither `null` nor absent,
one point for each such record and none for the others, in ascending order of date; a
reordering of the dataset gives the same points in an order that is again ascending. -/
theorem C14_points_sorted_by_date (dateValue : JsValue → Option ℚ)
    (metric_field : Option String) (videos : List JsObject)
    (hvalid : ∀ v ∈ videos, isPublished v = true →
      ∃ t, dateValue (getProperty v "publishedAt") = some t) :
    (plot_metric_vs_time dateValue metric_field videos).metricField =
      metricField metric_field ∧
    (plot_metric_vs_time dateValue metric_field videos).data.Perm
      ((videos.filter fun v => isPublished v).map fun v =>
        ({ date := getProperty v "publishedAt"
           value := metricValue (getProperty v (metricField metric_field))
           title := getProperty v "title" } : Point)) ∧
    (plot_metric_vs_time dateValue metric_field videos).data.Pairwise
      (fun a b => ∃ x y, dateValue a.date = some x ∧ dateValue b.date = some y ∧ x ≤ y) ∧
    ∀ videos' : List JsObject, videos'.Perm videos →
      (plot_metric_vs_time dateValue metric_field videos').data.Perm
        (plot_metric_vs_time dateValue metric_field videos).data ∧
      (plot_metric_vs_time dateValue metric_field videos').data.Pairwise
        (fun a b => ∃ x y, dateValue a.date = some x ∧ dateValue b.date = some y ∧ x ≤ y) := by
  have key : ∀ vs : List JsObject,
      (∀ v ∈ vs, isPublished v = true → ∃ t, dateValue (getProperty v "publishedAt") = some t) →
      (plot_metric_vs_time dateValue metric_field vs).data.Perm
        ((vs.filter fun v => isPublished v).map (toPoint (metricField metric_field))) ∧
      (plot_metric_vs_time dateValue metric_field vs).data.Pairwise
        (fun a b => ∃ x y, dateValue a.date = some x ∧ dateValue b.date = some y ∧ x ≤ y) := by
    intro vs hvs
    have hdate : ∀ p ∈ (vs.filter fun v => isPublished v).map (toPoint (metricField metric_field)),
        ∃ t, dateValue p.date = some t := by
      intro p hp
      simp only [List.mem_map, List.mem_filter] at hp
      obtain ⟨v, ⟨hv, hpub⟩, rfl⟩ := hp
      exact hvs v hv hpub
    have hcongr : List.insertionSort (fun a b => dateOrder dateValue a b = true)
          ((vs.filter fun v => isPublished v).map (toPoint (metricField metric_field))) =
        List.insertionSort
          (fun a b => (dateValue a.date).getD 0 ≤ (dateValue b.date).getD 0)
          ((vs.filter fun v => isPublished v).map (toPoint (metricField metric_field))) := by
      apply insertionSort_congr
      intro a ha b hb
      obtain ⟨x, hx⟩ := hdate a ha
      obtain ⟨y, hy⟩ := hdate b hb
      simp [dateOrder, hx, hy]
    haveI : IsTotal Point
        (fun a b => (dateValue a.date).getD 0 ≤ (dateValue b.date).getD 0) :=
      ⟨fun a b => le_total _ _⟩
    haveI : IsTrans Point
        (fun a b => (dateValue a.date).getD 0 ≤ (dateValue b.date).getD 0) :=
      ⟨fun a b c hab hbc => le_trans hab hbc⟩
    have hperm := List.perm_insertionSort
      (fun a b => (dateValue a.date).getD 0 ≤ (dateValue b.date).getD 0)
      ((vs.filter fun v => isPublished v).map (toPoint (metricField metric_field)))
    have hsorted := List.sorted_insertionSort
      (fun a b => (dateValue a.date).getD 0 ≤ (dateValue b.date).getD 0)
      ((vs.filter fun v => isPublished v).map (toPoint (metricField metric_field)))
    simp only [plot_metric_vs_time, metricKey_eq, hcongr]
    refine ⟨hperm, ?_⟩
    refine List.Pairwise.imp_of_mem ?_ hsorted
    intro a b ha hb hab
    obtain ⟨x, hx⟩ := hdate a (hperm.subset ha)
    obtain ⟨y, hy⟩ := hdate b (hperm.subset hb)
    rw [hx, hy] at hab
    exact ⟨x, y, hx, hy, by simpa using hab⟩
  obtain ⟨hp, hs⟩ := key videos hvalid
  refine ⟨by simp [plot_metric_vs_time, metricKey_eq], hp, hs, ?_⟩
  intro videos' hperm'
  obtain ⟨hp', hs'⟩ := key videos' (fun v hv => hvalid v (hperm'.subset hv))
  refine ⟨?_, hs'⟩
  exact hp'.trans (((hperm'.filter _).map _).trans hp.symm)

/-- Witness of C14: of three records published in 2023, not published and published in
2021, the points are those of 2021 and 2023, in this order. -/
theorem C14_points_sorted_by_date_witness :
    (plot_metric_vs_time yearValue (some "viewCount") datedVideos).data =
      [{ date := JsValue.string "2021-06-01T00:00:00Z", value := some 12,
         title := JsValue.string "early" },
        { date := JsValue.string "2023-03-01T00:00:00Z", value := some 7,
          title := JsValue.string "late" }] ∧
    (plot_metric_vs_time yearValue (some "viewCount") datedVideos).data.Pairwise
      (fun a b => ∃ x y, yearValue a.date = some x ∧ yearValue b.date = some y ∧ x ≤ y) :=
  ⟨by decide,
    (C14_points_sorted_by_date yearValue (some "viewCount") datedVideos (by
      intro v hv hpub
      have hsome : (yearValue (getProperty v "publishedAt")).isSome = true := by
        revert v
        decide
      exact Option.isSome_iff_exists.1 hsome)).2.2.1⟩

/-! ## Durations: `parseDuration` -/

theorem afterFirst_eq_none {lit s : List Char} (h : ¬ lit <:+: s) : afterFirst lit s = none := by
  cases hs : afterFirst lit s with
  | none => rfl
  | some r =>
    exfalso
    apply h
    rw [← afterFirst_isSome_iff, hs]
    rfl

theorem parseInt_digits (ds : List Char) (hne : ds ≠ []) (hall : ∀ c ∈ ds, c.isDigit = true) :
    parseInt ds = some (digitsValue ds : ℤ) := by
  cases ds with
  | nil => exact absurd rfl hne
  | cons c cs =>
    have hc := digit_props c (hall c (by simp))
    have htw : (c :: cs).takeWhile Char.isDigit = c :: cs := takeWhile_all _ hall
    have hdw : (c :: cs).dropWhile isJsWhiteSpace = c :: cs := by
      simp [List.dropWhile, hc.2.2.1]
    unfold parseInt
    rw [hdw]
    split
    · next r heq => simp only [List.cons.injEq] at heq; exact absurd heq.1 hc.2.2.2.1
    · next r heq => simp only [List.cons.injEq] at heq; exact absurd heq.1 hc.2.2.2.2.1
    · simp only [htw]
      simp

theorem takeWhile_isDigit_mem (s : List Char) : ∀ c ∈ s.takeWhile Char.isDigit, c.isDigit = true :=
  fun _ hc => List.mem_takeWhile_imp hc

/-- The group captured by an optional component is a number. -/
theorem componentValue_optionalComponent (x : Char) (s : List Char) :
    ∃ n : ℕ, componentValue (optionalComponent x s).1 = some (n : ℤ) := by
  unfold optionalComponent
  split
  · next c' ds' c rest htw hdw =>
    split_ifs with hcx
    · have hne : s.takeWhile Char.isDigit ≠ [] := by rw [htw]; simp
      refine ⟨digitsValue (s.takeWhile Char.isDigit), ?_⟩
      simp only [componentValue, if_neg hne]
      exact parseInt_digits _ hne (takeWhile_isDigit_mem s)
    · exact ⟨0, rfl⟩
  · exact ⟨0, rfl⟩

theorem parseDurationString_isSome (s : List Char) :
    ∃ n : ℕ, parseDurationString s = some (n : ℤ) := by
  unfold parseDurationString
  split
  · exact ⟨0, rfl⟩
  · next r _ =>
    obtain ⟨a, ha⟩ := componentValue_optionalComponent 'H' r
    obtain ⟨b, hb⟩ := componentValue_optionalComponent 'M' (optionalComponent 'H' r).2
    obtain ⟨c, hc⟩ := componentValue_optionalComponent 'S'
      (optionalComponent 'M' (optionalComponent 'H' r).2).2
    refine ⟨a * 3600 + b * 60 + c, ?_⟩
    simp only [ha, hb, hc]
    push_cast
    rfl

/-- C16: `parseDuration` returns a number for every string, and for every string that
does not hold `PT` this number is 0. -/
theorem C16_parseDuration_total (s : String) :
    (∃ n : ℕ, parseDuration (JsValue.string s) = some (n : ℚ)) ∧
    (¬ "PT".data <:+: s.data → parseDuration (JsValue.string s) = some 0) := by
  constructor
  · obtain ⟨n, hn⟩ := parseDurationString_isSome s.data
    exact ⟨n, by simp [parseDuration, hn]⟩
  · intro h
    have hnone : afterFirst ['P', 'T'] s.data = none := afterFirst_eq_none h
    simp [parseDuration, parseDurationString, hnone]

/-- Witness of C16: the text `garbage`. -/
theorem C16_parseDuration_total_witness :
    parseDuration (JsValue.string "garbage") = some 0 :=
  (C16_parseDuration_total "garbage").2 (by decide)

theorem takeWhile_digits_then (ds : List Char) (c : Char) (rest : List Char)
    (hall : ∀ d ∈ ds, d.isDigit = true) (hc : c.isDigit = false) :
    (ds ++ c :: rest).takeWhile Char.isDigit = ds ∧
      (ds ++ c :: rest).dropWhile Char.isDigit = c :: rest := by
  induction ds with
  | nil => simp [List.takeWhile, List.dropWhile, hc]
  | cons a ds ih =>
    have ha := hall a (by simp)
    obtain ⟨h1, h2⟩ := ih (fun d hd => hall d (by simp [hd]))
    constructor
    · rw [List.cons_append, List.takeWhile_cons_of_pos ha, h1]
    · rw [List.cons_append, List.dropWhile_cons_of_pos ha, h2]

theorem optionalComponent_present (x : Char) (hx : x.isDigit = false) (n : ℕ)
    (rest : List Char) :
    optionalComponent x (Nat.toDigits 10 n ++ x :: rest) = (some (Nat.toDigits 10 n), rest) := by
  obtain ⟨hne, hall, -⟩ := toDigits_spec n
  obtain ⟨h1, h2⟩ := takeWhile_digits_then (Nat.toDigits 10 n) x rest
    (fun d hd => (hall d hd).1) hx
  unfold optionalComponent
  rw [h1, h2]
  cases hD : Nat.toDigits 10 n with
  | nil => exact absurd hD hne
  | cons d ds => simp

theorem optionalComponent_other (x y : Char) (hy : y.isDigit = false) (hxy : y ≠ x)
    (n : ℕ) (rest : List Char) :
    optionalComponent x (Nat.toDigits 10 n ++ y :: rest) =
      (none, Nat.toDigits 10 n ++ y :: rest) := by
  obtain ⟨hne, hall, -⟩ := toDigits_spec n
  obtain ⟨h1, h2⟩ := takeWhile_digits_then (Nat.toDigits 10 n) y rest
    (fun d hd => (hall d hd).1) hy
  unfold optionalComponent
  rw [h1, h2]
  cases hD : Nat.toDigits 10 n with
  | nil => exact absurd hD hne
  | cons d ds => simp [hxy]

theorem optionalComponent_nil (x : Char) : optionalComponent x [] = (none, []) := rfl

theorem componentValue_toDigits (n : ℕ) :
    componentValue (some (Nat.toDigits 10 n)) = some (n : ℤ) := by
  simp only [componentValue, if_neg (toDigits_spec n).1]
  exact parseInt_toDigits n

theorem componentValue_none : componentValue none = some 0 := rfl

theorem afterFirst_PT (rest : List Char) :
    afterFirst ['P', 'T'] ('P' :: 'T' :: rest) = some rest := by
  simp [afterFirst, dropLit]

theorem componentNumber_toDigits (n : ℕ) :
    componentNumber (some (Nat.toDigits 10 n)) = toDouble (n : ℚ) := by
  simp [componentNumber, componentValue_toDigits]

theorem componentNumber_none : componentNumber none = toDouble ((0 : ℕ) : ℚ) := by
  simp [componentNumber, componentValue_none, toDouble_zero]

/-- The text `PT<h>H<m>M<s>S` is read component by component; each number read is
converted to binary64 and the sum of line 188 is formed in binary64. -/
theorem parseDurationStringDouble_durationText (h m s : Option ℕ) :
    parseDurationStringDouble (durationText h m s).data =
      addD (addD (mulD (toDouble ((h.getD 0 : ℕ) : ℚ)) (some 3600))
        (mulD (toDouble ((m.getD 0 : ℕ) : ℚ)) (some 60))) (toDouble ((s.getD 0 : ℕ) : ℚ)) := by
  have hdata : (durationText h m s).data = 'P' :: 'T' :: (durationComponent 'H' h ++
      (durationComponent 'M' m ++ durationComponent 'S' s)) := by
    simp [durationText, List.append_assoc]
  rw [parseDurationStringDouble, hdata, afterFirst_PT]
  cases h <;> cases m <;> cases s <;>
    simp only [durationComponent, List.nil_append, List.append_nil, List.append_assoc,
      List.singleton_append, optionalComponent_nil,
      optionalComponent_present 'H' (by decide), optionalComponent_present 'M' (by decide),
      optionalComponent_present 'S' (by decide),
      optionalComponent_other 'H' 'M' (by decide) (by decide),
      optionalComponent_other 'H' 'S' (by decide) (by decide),
      optionalComponent_other 'M' 'S' (by decide) (by decide),
      componentNumber_toDigits, componentNumber_none, Option.getD_some, Option.getD_none]

/-- Below `2 ^ 53` the arithmetic of line 188 is exact. -/
theorem duration_sum_exact (a b c : ℕ) (hb : 3600 * a + 60 * b + c < 2 ^ 53) :
    addD (addD (mulD (toDouble (a : ℚ)) (some 3600)) (mulD (toDouble (b : ℚ)) (some 60)))
      (toDouble (c : ℚ)) = some ((3600 * a + 60 * b + c : ℕ) : ℚ) := by
  have h1 : toDouble (a : ℚ) = some (a : ℚ) := toDouble_natCast a (by omega)
  have h2 : toDouble (b : ℚ) = some (b : ℚ) := toDouble_natCast b (by omega)
  have h3 : toDouble (c : ℚ) = some (c : ℚ) := toDouble_natCast c (by omega)
  have h4 : toDouble ((a : ℚ) * 3600) = some (((a * 3600 : ℕ) : ℚ)) := by
    have := toDouble_natCast (a * 3600) (by omega)
    simpa using this
  have h5 : toDouble ((b : ℚ) * 60) = some (((b * 60 : ℕ) : ℚ)) := by
    have := toDouble_natCast (b * 60) (by omega)
    simpa using this
  have h6 : toDouble (((a * 3600 : ℕ) : ℚ) + ((b * 60 : ℕ) : ℚ)) =
      some (((a * 3600 + b * 60 : ℕ) : ℚ)) := by
    have := toDouble_natCast (a * 3600 + b * 60) (by omega)
    simpa using this
  have h7 : toDouble (((a * 3600 + b * 60 : ℕ) : ℚ) + (c : ℚ)) =
      some (((3600 * a + 60 * b + c : ℕ) : ℚ)) := by
    have := toDouble_natCast (3600 * a + 60 * b + c) (by omega)
    rw [← this]
    congr 1
    push_cast
    ring
  simp only [h1, h2, h3, mulD, addD, h4, h5, h6, h7]

/-- The text `PT9007199254740993S`. -/
theorem durationText_large :
    durationText none none (some 9007199254740993) = "PT9007199254740993S" := by
  decide

/-- C15 as stated fails: for `s = 2 ^ 53 + 1` the text is `PT9007199254740993S` and
`parseDuration` returns 9007199254740992, not `3600 * 0 + 60 * 0 + s`: `parseInt` returns
the binary64 number nearest to the integer read. -/
theorem C15_counterexample :
    durationText none none (some 9007199254740993) = "PT9007199254740993S" ∧
    parseDurationDouble (JsValue.string "PT9007199254740993S") = some 9007199254740992 ∧
    parseDurationDouble (JsValue.string "PT9007199254740993S") ≠
      some ((3600 * 0 + 60 * 0 + 9007199254740993 : ℕ) : ℚ) := by
  have hv : parseDurationDouble (JsValue.string "PT9007199254740993S") =
      some 9007199254740992 := by
    rw [← durationText_large]
    simp only [parseDurationDouble]
    rw [parseDurationStringDouble_durationText, Option.getD_none, Option.getD_some,
      Nat.cast_zero, toDouble_zero, Nat.cast_ofNat, toDouble_two_pow_53_succ]
    simp only [mulD, addD, zero_mul, zero_add, toDouble_zero]
    exact toDouble_two_pow_53
  refine ⟨durationText_large, hv, ?_⟩
  rw [hv]
  norm_num

/-- C15, amended: for all natural numbers with `3600 * h + 60 * m + s < 2 ^ 53`,
`parseDuration` of the text `PT` followed by any of the components `<h>H`, `<m>M`, `<s>S`,
in this order, is `3600 * h + 60 * m + s`, a component that is left out counting as 0. -/
theorem C15_parseDuration_below_two_pow_53 (h m s : Option ℕ)
    (hb : 3600 * h.getD 0 + 60 * m.getD 0 + s.getD 0 < 2 ^ 53) :
    parseDurationDouble (JsValue.string (durationText h m s)) =
      some ((3600 * h.getD 0 + 60 * m.getD 0 + s.getD 0 : ℕ) : ℚ) := by
  simp only [parseDurationDouble]
  rw [parseDurationStringDouble_durationText]
  exact duration_sum_exact _ _ _ hb

/-- Witness of C15 (amended): `PT1H2M3S` gives 3723, `PT5M` gives 300, `PT1H3S` gives 3603
and `PT` alone gives 0. -/
theorem C15_parseDuration_below_two_pow_53_witness :
    parseDurationDouble (JsValue.string "PT1H2M3S") = some 3723 ∧
    parseDurationDouble (JsValue.string "PT5M") = some 300 ∧
    parseDurationDouble (JsValue.string "PT1H3S") = some 3603 ∧
    parseDurationDouble (JsValue.string "PT") = some 0 := by
  have e1 : durationText (some 1) (some 2) (some 3) = "PT1H2M3S" := by decide
  have e2 : durationText none (some 5) none = "PT5M" := by decide
  have e3 : durationText (some 1) none (some 3) = "PT1H3S" := by decide
  have e4 : durationText none none none = "PT" := by decide
  have h1 := C15_parseDuration_below_two_pow_53 (some 1) (some 2) (some 3) (by norm_num)
  have h2 := C15_parseDuration_below_two_pow_53 none (some 5) none (by norm_num)
  have h3 := C15_parseDuration_below_two_pow_53 (some 1) none (some 3) (by norm_num)
  have h4 := C15_parseDuration_below_two_pow_53 none none none (by norm_num)
  rw [e1] at h1
  rw [e2] at h2
  rw [e3] at h3
  rw [e4] at h4
  rw [h1, h2, h3, h4]
  norm_num

end YT
